import Mathlib

/-!
# neurogen-news: the real-time connection hub

A shallow embedding of `backend/internal/websocket/hub.go` and of the message
dispatch of `handler.go`, together with the properties the specification
states about them.  The notification helpers of
`backend/internal/service/notification_service.go` follow in the namespace
`Service`.

Modelling conventions.

* `map[K]V` values are association lists; a `map[*Client]bool` used as a set is
  the list of its keys.  Go leaves the iteration order of `range` over a map
  unspecified; the model iterates in list order.  Every loop body of the hub
  touches only the client it is visiting, so the final state does not depend on
  that order.
* A `chan []byte` is a buffer, a capacity and a closed flag.  Sending on a
  closed channel and closing a closed channel are run-time panics in Go; the
  operations therefore return `Except Panic _`.
* The `*Client` pointer is the map key in Go.  A `Client` value of the model is
  the pointer (`addr`) with the immutable fields stored behind it; the channel
  the `Send` field refers to lives in the `Send` heap of the hub state.  Every
  client has a channel of its own, as `Handler.Upgrade` creates them.
* The Redis server is a store of named sets and a log of published messages.
* A send statement without `select` blocks while its channel has no room; a
  call that may reach one returns an `Outcome`.
* `json.Unmarshal` is a parameter of `handleMessage` (the record `Unmarshal`).
-/

namespace Websocket

/-! ## Go maps as association lists -/

section GoMap
variable {κ : Type} {ν : Type} [DecidableEq κ]

/-- The lookup `m[k]` with the comma-ok result. -/
def mapGet : List (κ × ν) → κ → Option ν
  | [], _ => none
  | (k', v) :: m, k => if k' = k then some v else mapGet m k

/-- The assignment `m[k] = v`. -/
def mapSet : List (κ × ν) → κ → ν → List (κ × ν)
  | [], k, v => [(k, v)]
  | (k', v') :: m, k, v => if k' = k then (k, v) :: m else (k', v') :: mapSet m k v

/-- The builtin `delete(m, k)`. -/
def mapDelete : List (κ × ν) → κ → List (κ × ν)
  | [], _ => []
  | (k', v) :: m, k => if k' = k then mapDelete m k else (k', v) :: mapDelete m k

end GoMap

section GoSet
variable {α : Type} [DecidableEq α]

/-- The assignment `s[x] = true` on a `map[T]bool` used as a set. -/
def setAdd (s : List α) (x : α) : List α :=
  if x ∈ s then s else s ++ [x]

/-- The builtin `delete(s, x)` on a `map[T]bool` used as a set. -/
def setDelete (s : List α) (x : α) : List α :=
  s.filter (fun y => decide (y ≠ x))

end GoSet

/-! ## Identifiers -/

/-- The type `uuid.UUID` is `[16]byte`; the model keeps the 128-bit number the
sixteen bytes spell, most significant byte first. -/
abbrev UUID := Fin (2 ^ 128)

/-- The constant `uuid.Nil`: the all-zero identifier. -/
def uuid.Nil : UUID := 0

/-- One lower-case hexadecimal digit. -/
def hexDigit (d : Nat) : Char :=
  if d < 10 then Char.ofNat (48 + d) else Char.ofNat (87 + d)

/-- The hexadecimal digits of `u` at the listed positions (position 0 is the
least significant digit). -/
def encodeHex (u : Nat) (positions : List Nat) : List Char :=
  positions.map (fun i => hexDigit (u / 16 ^ i % 16))

/-- The method `UUID.String`: the form `xxxxxxxx-xxxx-xxxx-xxxx-xxxxxxxxxxxx`. -/
def UUID.String (u : UUID) : String :=
  String.mk
    (encodeHex u.val [31, 30, 29, 28, 27, 26, 25, 24] ++ ('-' ::
      (encodeHex u.val [23, 22, 21, 20] ++ ('-' ::
      (encodeHex u.val [19, 18, 17, 16] ++ ('-' ::
      (encodeHex u.val [15, 14, 13, 12] ++ ('-' ::
      encodeHex u.val [11, 10, 9, 8, 7, 6, 5, 4, 3, 2, 1, 0]))))))))

/-! ## Messages -/

/-- A serialized frame (`[]byte`). -/
abbrev Bytes := String

def TypeNotification : String := "notification"
def TypeOnlineCount : String := "online_count"
def TypeReaction : String := "reaction"
def TypeNewComment : String := "new_comment"
def TypeArticleUpdate : String := "article_update"
def TypeTyping : String := "typing"
def TypeAchievementUnlock : String := "achievement_unlock"

/-- The `Payload interface{}` of a message.  The package builds three payloads
itself (`nil`, `map[string]int64{"count": n}` and the typing map of
`handleMessage`); every other value is supplied by a caller and is represented
by what `json.Marshal` makes of it (`none` when the value does not
serialize). -/
inductive Payload where
  | null
  | onlineCount (count : Int)
  | value (encoded : Option String)
  | typing (articleId userId : String)
deriving DecidableEq, Repr

/-- The struct `Message`; its field `Type` is spelled `Typ` here. -/
structure Message where
  Typ : String
  Payload : Payload
deriving DecidableEq, Repr

/-- What `json.Marshal` writes for one character of a string value: a
backslash escape for the quote, the backslash and the control characters that
have a short form, `\u00XX` for the other control characters and for `<`, `>`
and `&`, `\u2028` and `\u2029` for the two line separators, and the character
itself otherwise. -/
def jsonQuoteChar (c : Char) : List Char :=
  let n := c.toNat
  let bs := Char.ofNat 92
  if n = 34 then [bs, Char.ofNat 34]
  else if n = 92 then [bs, bs]
  else if n = 8 then [bs, 'b']
  else if n = 12 then [bs, 'f']
  else if n = 10 then [bs, 'n']
  else if n = 13 then [bs, 'r']
  else if n = 9 then [bs, 't']
  else if n < 32 ∨ n = 60 ∨ n = 62 ∨ n = 38 then
    [bs, 'u', '0', '0', hexDigit (n / 16), hexDigit (n % 16)]
  else if n = 8232 ∨ n = 8233 then [bs, 'u', '2', '0', '2', hexDigit (n % 16)]
  else [c]

/-- What `json.Marshal` returns for a string value. -/
def jsonQuote (s : String) : String :=
  String.mk (Char.ofNat 34 :: (s.data.flatMap jsonQuoteChar ++ [Char.ofNat 34]))

/-- What `json.Marshal` returns for a payload.  The payload `typing a u` is the
map `map[string]interface{}{"articleId": a, "userId": u}`, written with its
keys in sorted order. -/
def Payload.marshal : Payload → Option String
  | .null => some "null"
  | .onlineCount n => some ("\x7b\"count\":" ++ toString n ++ "\x7d")
  | .value enc => enc
  | .typing a u =>
    some ("\x7b\"articleId\":" ++ jsonQuote a ++ ",\"userId\":" ++ jsonQuote u ++ "\x7d")

/-- The call `json.Marshal(msg)` for a `Message`; `none` is the error result. -/
def jsonMarshal (msg : Message) : Option Bytes :=
  match msg.Payload.marshal with
  | none => none
  | some p => some ("\x7b\"type\":" ++ jsonQuote msg.Typ ++ ",\"payload\":" ++ p ++ "\x7d")

/-! ## Channels -/

/-- The two run-time panics of Go channel operations. -/
inductive Panic where
  | sendOnClosed
  | closeOfClosed
deriving DecidableEq, Repr

/-- A buffered `chan []byte`: pending frames (oldest first), capacity, and
whether `close` has been called. -/
structure Chan where
  buf : List Bytes
  cap : Nat
  closed : Bool
deriving DecidableEq, Repr

/-- The call `make(chan []byte, n)`. -/
def Chan.make (n : Nat) : Chan := { buf := [], cap := n, closed := false }

/-- There is room for one more frame. -/
def Chan.hasRoom (ch : Chan) : Bool := decide (ch.buf.length < ch.cap)

/-- The channel with one more frame at the back of its buffer. -/
def Chan.push (ch : Chan) (data : Bytes) : Chan := { ch with buf := ch.buf ++ [data] }

/-- The channel after `close`. -/
def Chan.shut (ch : Chan) : Chan := { ch with closed := true }

/-- The statement `select { case ch <- data: default: }` without its default
branch: `some ch'` when the frame was enqueued, `none` when the buffer is full
(the default branch runs), a panic when the channel is closed. -/
def Chan.trySend (ch : Chan) (data : Bytes) : Except Panic (Option Chan) :=
  if ch.closed then .error .sendOnClosed
  else if ch.hasRoom then .ok (some (ch.push data))
  else .ok none

/-- The builtin `close(ch)`. -/
def Chan.close (ch : Chan) : Except Panic Chan :=
  if ch.closed then .error .closeOfClosed else .ok ch.shut

/-! ## Redis -/

/-- The state of the Redis server the hub talks to: the named sets and the
messages published so far (channel and payload, oldest first). -/
structure RedisClient where
  sets : String → List String
  published : List (String × Bytes)

/-- A server with no data. -/
def RedisClient.empty : RedisClient := { sets := fun _ => [], published := [] }

/-- The command `SADD key member`. -/
def RedisClient.SAdd (r : RedisClient) (key member : String) : RedisClient :=
  { r with sets := fun k => if k = key then setAdd (r.sets k) member else r.sets k }

/-- The command `SREM key member`. -/
def RedisClient.SRem (r : RedisClient) (key member : String) : RedisClient :=
  { r with sets := fun k => if k = key then setDelete (r.sets k) member else r.sets k }

/-- The command `SCARD key`. -/
def RedisClient.SCard (r : RedisClient) (key : String) : Int :=
  ((r.sets key).length : Int)

/-- The command `SISMEMBER key member`. -/
def RedisClient.SIsMember (r : RedisClient) (key member : String) : Bool :=
  decide (member ∈ r.sets key)

/-- The command `PUBLISH channel data`. -/
def RedisClient.Publish (r : RedisClient) (channel : String) (data : Bytes) : RedisClient :=
  { r with published := r.published ++ [(channel, data)] }

/-! ## The hub -/

/-- The struct `Client`; `addr` is the identity of the `*Client` pointer. -/
structure Client where
  addr : Nat
  ID : String
  UserID : UUID
deriving DecidableEq, Repr

/-- The struct `Hub` with the state it works on: its two registries, its
broadcast channel, the Redis server behind `h.redis`, and the channel behind
each client's `Send` field. -/
structure Hub where
  clients : List Client
  userClients : List (UUID × List Client)
  broadcast : List Bytes
  redis : RedisClient
  Send : Client → Chan

/-- The constructor `NewHub`, on a given Redis server and channel heap. -/
def NewHub (redis : RedisClient) (Send : Client → Chan) : Hub :=
  { clients := [], userClients := [], broadcast := [], redis := redis, Send := Send }

/-- Store a new channel state behind `client.Send`. -/
def Hub.setSend (h : Hub) (client : Client) (ch : Chan) : Hub :=
  { h with Send := fun c => if c = client then ch else h.Send c }

/-- The loop `for client := range clients { body }`, visiting the keys in
list order; a panic in the body ends the loop. -/
def forRange (body : Hub → Client → Except Panic Hub) :
    List Client → Hub → Except Panic Hub
  | [], h => .ok h
  | c :: cs, h =>
    match body h c with
    | .error p => .error p
    | .ok h' => forRange body cs h'

/-- The statement `select { case client.Send <- data: default: }` of
`broadcastOnlineCount` and `subscribeToRedis`: a full queue skips the frame. -/
def Hub.sendOrSkip (data : Bytes) (h : Hub) (client : Client) : Except Panic Hub :=
  match (h.Send client).trySend data with
  | .error p => .error p
  | .ok (some ch) => .ok (h.setSend client ch)
  | .ok none => .ok h

/-- The statement `select { case client.Send <- data: default:
close(client.Send); delete(h.clients, client) }` of `broadcastMessage` and
`SendToUser`. -/
def Hub.sendOrEvict (data : Bytes) (h : Hub) (client : Client) : Except Panic Hub :=
  match (h.Send client).trySend data with
  | .error p => .error p
  | .ok (some ch) => .ok (h.setSend client ch)
  | .ok none =>
    match (h.Send client).close with
    | .error p => .error p
    | .ok ch => .ok { h.setSend client ch with clients := setDelete h.clients client }

/-- The method `Hub.broadcastOnlineCount`. -/
def Hub.broadcastOnlineCount (h : Hub) : Except Panic Hub :=
  let count := h.redis.SCard "online:users"
  let msg : Message := { Typ := TypeOnlineCount, Payload := .onlineCount count }
  match jsonMarshal msg with
  | none => .ok h
  | some data => forRange (Hub.sendOrSkip data) h.clients h

/-- The method `Hub.registerClient`. -/
def Hub.registerClient (h : Hub) (client : Client) : Except Panic Hub :=
  let h := { h with clients := setAdd h.clients client }
  let h :=
    if client.UserID ≠ uuid.Nil then
      let h :=
        if mapGet h.userClients client.UserID = none then
          { h with userClients := mapSet h.userClients client.UserID [] }
        else h
      let userClients := (mapGet h.userClients client.UserID).getD []
      let h := { h with
        userClients := mapSet h.userClients client.UserID (setAdd userClients client) }
      { h with redis := h.redis.SAdd "online:users" client.UserID.String }
    else h
  h.broadcastOnlineCount

/-- The method `Hub.unregisterClient`. -/
def Hub.unregisterClient (h : Hub) (client : Client) : Except Panic Hub :=
  if client ∈ h.clients then
    let h := { h with clients := setDelete h.clients client }
    match (h.Send client).close with
    | .error p => .error p
    | .ok ch =>
      let h := h.setSend client ch
      let h :=
        if client.UserID ≠ uuid.Nil then
          match mapGet h.userClients client.UserID with
          | some userClients =>
            let userClients := setDelete userClients client
            let h := { h with userClients := mapSet h.userClients client.UserID userClients }
            if userClients.length = 0 then
              { h with
                userClients := mapDelete h.userClients client.UserID,
                redis := h.redis.SRem "online:users" client.UserID.String }
            else h
          | none => h
        else h
      h.broadcastOnlineCount
  else .ok h

/-- The method `Hub.broadcastMessage`. -/
def Hub.broadcastMessage (h : Hub) (message : Bytes) : Except Panic Hub :=
  forRange (Hub.sendOrEvict message) h.clients h

/-- The method `Hub.SendToUser`; a message that does not serialize is logged
and nothing else happens. -/
def Hub.SendToUser (h : Hub) (userID : UUID) (msg : Message) : Except Panic Hub :=
  match jsonMarshal msg with
  | none => .ok h
  | some data =>
    let r :=
      match mapGet h.userClients userID with
      | some clients => forRange (Hub.sendOrEvict data) clients h
      | none => .ok h
    match r with
    | .error p => .error p
    | .ok h => .ok { h with redis := h.redis.Publish ("ws:user:" ++ userID.String) data }

/-- The method `Hub.IsUserOnline`. -/
def Hub.IsUserOnline (h : Hub) (userID : UUID) : Bool :=
  h.redis.SIsMember "online:users" userID.String

/-- The method `Hub.GetOnlineCount`. -/
def Hub.GetOnlineCount (h : Hub) : Int :=
  h.redis.SCard "online:users"

/-- The set `h.userClients[u]`; an absent key reads as the empty set. -/
def Hub.userSet (h : Hub) (u : UUID) : List Client :=
  (mapGet h.userClients u).getD []

/-- The members of the Redis set `online:users`. -/
def Hub.presence (h : Hub) : List String := h.redis.sets "online:users"

/-! ## The bus relay -/

/-- The messages a subscription `r.Subscribe(ctx, channel)` opened before the
first publish receives, oldest first.  Delivery is taken to be reliable. -/
def RedisClient.Subscribe (r : RedisClient) (channel : String) : List Bytes :=
  (r.published.filter (fun m => decide (m.1 = channel))).map Prod.snd

/-- The body of the loop of `Hub.subscribeToRedis` for one message received
from the bus: the payload is offered to every local client, a full queue
skips it. -/
def Hub.relay (h : Hub) (payload : Bytes) : Except Panic Hub :=
  forRange (Hub.sendOrSkip payload) h.clients h

/-- The method `Hub.subscribeToRedis` on the messages `ch` that its
subscription to `ws:broadcast` delivers. -/
def Hub.subscribeToRedis : Hub → List Bytes → Except Panic Hub
  | h, [] => .ok h
  | h, payload :: ch =>
    match h.relay payload with
    | .error p => .error p
    | .ok h' => h'.subscribeToRedis ch

/-! ## The connection handler -/

/-- How a call that may park its goroutine ends: it returns, it panics, or it
blocks on a channel without room and goes on only once a receiver has taken a
frame. -/
inductive Outcome (α : Type) where
  | returned (a : α)
  | panicked (p : Panic)
  | blocked

/-- The value a call returned with, if it returned. -/
def Outcome.result {α : Type} : Outcome α → Option α
  | .returned a => some a
  | .panicked _ => none
  | .blocked => none

/-- The panic a call ended in, if it did. -/
def Outcome.panic {α : Type} : Outcome α → Option Panic
  | .panicked p => some p
  | _ => none

/-- The call is parked on a channel without room. -/
def Outcome.isBlocked {α : Type} : Outcome α → Bool
  | .blocked => true
  | _ => false

/-- The send statement `ch <- data`. -/
def Chan.send (ch : Chan) (data : Bytes) : Outcome Chan :=
  if ch.closed then .panicked .sendOnClosed
  else if ch.hasRoom then .returned (ch.push data)
  else .blocked

/-- The receive of the write pump's `for message := range client.Send`, when
a frame is pending: the oldest frame leaves the buffer. -/
def Chan.recv (ch : Chan) : Chan := { ch with buf := ch.buf.tail }

/-- The method `Hub.Broadcast`: the frame goes onto the hub's broadcast
channel, `make(chan []byte, 256)`, which is never closed, and is published on
`ws:broadcast`. -/
def Hub.Broadcast (h : Hub) (msg : Message) : Outcome Hub :=
  match jsonMarshal msg with
  | none => .returned h
  | some data =>
    if h.broadcast.length < 256 then
      .returned { h with
        broadcast := h.broadcast ++ [data],
        redis := h.redis.Publish "ws:broadcast" data }
    else .blocked

/-- The struct `ClientMessage`; `Payload` is the raw JSON of the payload. -/
structure ClientMessage where
  Typ : String
  Payload : Bytes
deriving DecidableEq, Repr

/-- What `json.Unmarshal` returns at its two kinds of call in
`handleMessage`: for the envelope `ClientMessage`, and for the payload struct
with the one field `ArticleID`, tagged `articleId`.  `none` is an error
result. -/
structure Unmarshal where
  clientMessage : Bytes → Option ClientMessage
  articleID : Bytes → Option String

/-- The method `Handler.handleMessage`, on the state of the handler's hub. -/
def Handler.handleMessage (json : Unmarshal) (h : Hub) (client : Client) (data : Bytes) :
    Outcome Hub :=
  match json.clientMessage data with
  | none => .returned h
  | some msg =>
    if msg.Typ = "ping" then
      let response : Message := { Typ := "pong", Payload := .null }
      let data := (jsonMarshal response).getD ""
      match (h.Send client).send data with
      | .returned ch => .returned (h.setSend client ch)
      | .panicked p => .panicked p
      | .blocked => .blocked
    else if msg.Typ = "subscribe_article" then
      match json.articleID msg.Payload with
      | none => .returned h
      | some _ => .returned h
    else if msg.Typ = "unsubscribe_article" then
      match json.articleID msg.Payload with
      | none => .returned h
      | some _ => .returned h
    else if msg.Typ = "typing" then
      if client.UserID = uuid.Nil then .returned h
      else
        match json.articleID msg.Payload with
        | none => .returned h
        | some articleID =>
          h.Broadcast
            { Typ := TypeTyping, Payload := .typing articleID client.UserID.String }
    else .returned h

/-! ## Closed forms used in the statements -/

/-- The frame `{"type":"ping","payload":null}`. -/
def pingFrame : Bytes := "\x7b\"type\":\"ping\",\"payload\":null\x7d"

/-- The frame `{"type":"pong","payload":null}`. -/
def pongFrame : Bytes := "\x7b\"type\":\"pong\",\"payload\":null\x7d"

/-- The frame `{"type":"online_count","payload":{"count":n}}`. -/
def onlineCountFrame (n : Int) : Bytes :=
  "\x7b\"type\":\"online_count\",\"payload\":\x7b\"count\":" ++ (toString n ++ "\x7d\x7d")

/-- The map `h.userClients` once `client` has been entered. -/
def registeredUsers (m : List (UUID × List Client)) (client : Client) :
    List (UUID × List Client) :=
  if client.UserID = uuid.Nil then m
  else mapSet m client.UserID (setAdd ((mapGet m client.UserID).getD []) client)

/-- The map `h.userClients` once `client` has been taken out, an emptied
entry being dropped. -/
def unregisteredUsers (m : List (UUID × List Client)) (client : Client) :
    List (UUID × List Client) :=
  if client.UserID = uuid.Nil then m
  else
    match mapGet m client.UserID with
    | none => m
    | some set =>
      if setDelete set client = [] then mapDelete m client.UserID
      else mapSet m client.UserID (setDelete set client)

/-- The hub as `registerClient` has it when it reaches the online-count
broadcast. -/
def Hub.withClient (h : Hub) (client : Client) : Hub :=
  { h with
    clients := setAdd h.clients client,
    userClients := registeredUsers h.userClients client,
    redis :=
      if client.UserID = uuid.Nil then h.redis
      else h.redis.SAdd "online:users" client.UserID.String }

/-- The hub as `unregisterClient` has it, for a registered client, when it
reaches the online-count broadcast. -/
def Hub.withoutClient (h : Hub) (client : Client) : Hub :=
  { h with
    clients := setDelete h.clients client,
    userClients := unregisteredUsers h.userClients client,
    redis :=
      if client.UserID = uuid.Nil then h.redis
      else
        match mapGet h.userClients client.UserID with
        | none => h.redis
        | some set =>
          if setDelete set client = [] then
            h.redis.SRem "online:users" client.UserID.String
          else h.redis,
    Send := fun c => if c = client then (h.Send client).shut else h.Send c }

/-- The registry is consistent: both registries are sets, every registered
queue is open, a connection with a principal is registered exactly when it is
in its principal's set, and every entry of `userClients` is a non-empty set of
connections of that principal, which is not `uuid.Nil`. -/
structure Hub.Consistent (h : Hub) : Prop where
  clients_nodup : h.clients.Nodup
  clients_open : ∀ c ∈ h.clients, (h.Send c).closed = false
  user_iff : ∀ c : Client, c.UserID ≠ uuid.Nil →
    (c ∈ h.clients ↔ c ∈ h.userSet c.UserID)
  entry_ne : ∀ u set, mapGet h.userClients u = some set → set ≠ []
  entry_nodup : ∀ u set, mapGet h.userClients u = some set → set.Nodup
  entry_user : ∀ u set, mapGet h.userClients u = some set → ∀ c ∈ set, c.UserID = u
  key_ne_nil : ∀ u set, mapGet h.userClients u = some set → u ≠ uuid.Nil

/-- What holds of `h.clients` and the queues in every state the hub reaches:
`h.clients` is a set, and the queue of every registered connection is open
(closing a queue and deleting its connection from `h.clients` go together). -/
def Hub.Live (h : Hub) : Prop :=
  h.clients.Nodup ∧ ∀ c ∈ h.clients, (h.Send c).closed = false

instance Hub.decidableLive (h : Hub) : Decidable h.Live := by
  unfold Hub.Live
  infer_instance

/-- The presence set holds exactly the string forms of the keys of
`userClients`. -/
def Hub.PresenceExact (h : Hub) : Prop :=
  ∀ str : String, str ∈ h.presence ↔ ∃ u : UUID, u.String = str ∧ mapGet h.userClients u ≠ none

/-! ## Runs of the hub -/

/-- A request handled by the event loop of `Hub.Run` that changes the
registry. -/
inductive RegOp where
  | register (c : Client)
  | unregister (c : Client)
deriving DecidableEq, Repr

/-- One iteration of the event loop of `Hub.Run` on a registry request. -/
def Hub.applyReg (h : Hub) : RegOp → Except Panic Hub
  | .register c => h.registerClient c
  | .unregister c => h.unregisterClient c

/-- The event loop of `Hub.Run` on a sequence of registry requests. -/
def Hub.runReg : Hub → List RegOp → Except Panic Hub
  | h, [] => .ok h
  | h, op :: ops =>
    match h.applyReg op with
    | .error p => .error p
    | .ok h' => h'.runReg ops

/-- A step of the hub: a registry request, a per-user send, or the local
fan-out of a broadcast frame taken from `h.broadcast`. -/
inductive Op where
  | register (c : Client)
  | unregister (c : Client)
  | sendToUser (userID : UUID) (msg : Message)
  | broadcastMessage (message : Bytes)
deriving DecidableEq, Repr

/-- One step of the hub. -/
def Hub.apply (h : Hub) : Op → Except Panic Hub
  | .register c => h.registerClient c
  | .unregister c => h.unregisterClient c
  | .sendToUser u m => h.SendToUser u m
  | .broadcastMessage data => h.broadcastMessage data

/-- A sequence of steps of the hub, stopping at the first panic. -/
def Hub.run : Hub → List Op → Except Panic Hub
  | h, [] => .ok h
  | h, op :: ops =>
    match h.apply op with
    | .error p => .error p
    | .ok h' => h'.run ops

/-! ## Two hubs on one Redis server -/

/-- Two hub processes and the Redis server both talk to.  The `redis` field of
the cluster is the state of that server; the `redis` fields of the two hubs
are not read. -/
structure Cluster where
  a : Hub
  b : Hub
  redis : RedisClient

/-- Names of the two processes. -/
inductive Side where
  | a
  | b
deriving DecidableEq, Repr

/-- The hub of one process, seeing the shared server. -/
def Cluster.hub (k : Cluster) : Side → Hub
  | .a => { k.a with redis := k.redis }
  | .b => { k.b with redis := k.redis }

/-- The members of the shared Redis set `online:users`. -/
def Cluster.presence (k : Cluster) : List String := k.redis.sets "online:users"

/-- A registry request handled by the event loop of one of the two hubs. -/
def Cluster.applyReg (k : Cluster) (side : Side) (op : RegOp) : Except Panic Cluster :=
  match (k.hub side).applyReg op with
  | .error p => .error p
  | .ok h =>
    match side with
    | .a => .ok { a := h, b := k.b, redis := h.redis }
    | .b => .ok { a := k.a, b := h, redis := h.redis }

/-- A sequence of registry requests, each handled by the named hub. -/
def Cluster.runReg : Cluster → List (Side × RegOp) → Except Panic Cluster
  | k, [] => .ok k
  | k, (side, op) :: ops =>
    match k.applyReg side op with
    | .error p => .error p
    | .ok k' => k'.runReg ops

/-- A step `f` taken by one of the two hubs on the shared server. -/
def Cluster.on (k : Cluster) (side : Side) (f : Hub → Except Panic Hub) :
    Except Panic Cluster :=
  match f (k.hub side) with
  | .error p => .error p
  | .ok h =>
    match side with
    | .a => .ok { a := h, b := k.b, redis := h.redis }
    | .b => .ok { a := k.a, b := h, redis := h.redis }

/-- Two new hubs on one Redis server. -/
def NewCluster (redis : RedisClient) (SendA SendB : Client → Chan) : Cluster :=
  { a := NewHub redis SendA, b := NewHub redis SendB, redis := redis }

/-- The cluster a computation ended in; `d` stands in after a panic. -/
def clusterOr (d : Cluster) : Except Panic Cluster → Cluster
  | .ok k => k
  | .error _ => d

/-- Every member of the presence set is the string form of a key of
`userClients`, or of a principal that `other` accounts for. -/
def Hub.PresenceWithin (h : Hub) (other : UUID → Prop) : Prop :=
  ∀ str : String, str ∈ h.presence →
    ∃ u : UUID, u.String = str ∧ (mapGet h.userClients u ≠ none ∨ other u)

/-- The hub a computation ended in; `d` stands in after a panic. -/
def hubOr (d : Hub) : Except Panic Hub → Hub
  | .ok h => h
  | .error _ => d

/-! ## Sample data -/

/-- A principal. -/
def alice : UUID := 10

/-- A second principal. -/
def bob : UUID := 11

/-- A connection of `alice`. -/
def conn1 : Client := { addr := 1, ID := "c1", UserID := alice }

/-- A second connection of `alice`. -/
def conn2 : Client := { addr := 2, ID := "c2", UserID := alice }

/-- A connection of `bob`. -/
def conn3 : Client := { addr := 3, ID := "c3", UserID := bob }

/-- An anonymous connection. -/
def conn4 : Client := { addr := 4, ID := "c4", UserID := uuid.Nil }

/-- The channels as `Handler.Upgrade` makes them: `make(chan []byte, 256)`. -/
def freshSend : Client → Chan := fun _ => Chan.make 256

/-- A new hub on an empty Redis server, every queue fresh. -/
def hub0 : Hub := NewHub RedisClient.empty freshSend

/-- A notification message. -/
def note : Message := { Typ := TypeNotification, Payload := .null }

/-- Two new hubs on an empty Redis server, every queue fresh. -/
def cluster0 : Cluster := NewCluster RedisClient.empty freshSend freshSend

/-- Hub `a` registers `conn1`, hub `b` registers `conn2` (both of `alice`),
then hub `a` unregisters `conn1`. -/
def clusterOps : List (Side × RegOp) :=
  [(.a, .register conn1), (.b, .register conn2), (.a, .unregister conn1)]

/-- The steps that fill the queue of `conn1` while its write pump is stalled:
its registration enqueues one online-count frame, 255 notifications for its
principal take the remaining room. -/
def fillOps : List Op :=
  Op.register conn1 :: List.replicate 255 (Op.sendToUser alice note)

/-- The hub after `fillOps`: `conn1` is registered and its queue holds 256
frames. -/
def hubFull : Hub := hubOr hub0 (hub0.run fillOps)

/-- The hub after `fillOps` and the registration of `conn3`: the queue of
`conn1` is full, the queue of `conn3` holds one frame. -/
def hubMixed : Hub := hubOr hub0 (hubFull.run [.register conn3])

/-- The panic a computation ended in, if it did. -/
def panicOf {α : Type} : Except Panic α → Option Panic
  | .error p => some p
  | .ok _ => none

/-- The serialized `note`. -/
def noteFrame : Bytes := "\x7b\"type\":\"notification\",\"payload\":null\x7d"

/-- Hub `b` registers `conn2` of `alice`; hub `a` calls `SendToUser(alice,
note)`; hub `b` then handles every message its subscription to `ws:broadcast`
has received. -/
def crossSend : Except Panic Cluster :=
  match cluster0.on .b (fun h => h.registerClient conn2) with
  | .error p => .error p
  | .ok k1 =>
    match k1.on .a (fun h => h.SendToUser alice note) with
    | .error p => .error p
    | .ok k2 => k2.on .b (fun h => h.subscribeToRedis (h.redis.Subscribe "ws:broadcast"))

/-- An inbound typing frame for the article `a1`. -/
def typingFrame : Bytes :=
  "\x7b\"type\":\"typing\",\"payload\":\x7b\"articleId\":\"a1\"\x7d\x7d"

/-- An inbound frame of a type the handler does not know. -/
def helloFrame : Bytes := "\x7b\"type\":\"hello\",\"payload\":null\x7d"

/-- A decoder for the three sample frames `pingFrame`, `typingFrame` and
`helloFrame`; everything else is an error. -/
def sampleJSON : Unmarshal :=
  { clientMessage := fun data =>
      if data = pingFrame then some { Typ := "ping", Payload := "null" }
      else if data = typingFrame then
        some { Typ := "typing", Payload := "\x7b\"articleId\":\"a1\"\x7d" }
      else if data = helloFrame then some { Typ := "hello", Payload := "null" }
      else none,
    articleID := fun payload =>
      if payload = "\x7b\"articleId\":\"a1\"\x7d" then some "a1" else none }

/-- Every entry of `h.userClients` is a non-empty set of connections of its
key. -/
def Hub.EntriesOK (h : Hub) : Prop :=
  ∀ u set, mapGet h.userClients u = some set → set ≠ [] ∧ ∀ c ∈ set, c.UserID = u

/-- The hub after the registration of `conn1` alone. -/
def hubOne : Hub := hubOr hub0 (hub0.run [.register conn1])

/-- The hub after the registration of `conn1` and `conn2`. -/
def hubTwo : Hub := hubOr hub0 (hub0.run [.register conn1, .register conn2])

/-- The steps `fillOps`, then the notification that evicts `conn1`, then the
registration of `conn2`. -/
def evictOps : List Op := fillOps ++ [.sendToUser alice note, .register conn2]

/-- The hub after `evictOps`. -/
def hubEvicted : Hub := hubOr hub0 (hub0.run evictOps)

/-! ## The bus as something that can fail -/

/-- The command `PUBLISH` with its outcome given: with `delivered = false` the
call returns an error and nothing is published. -/
def RedisClient.PublishIf (r : RedisClient) (delivered : Bool) (channel : String)
    (data : Bytes) : RedisClient :=
  if delivered then r.Publish channel data else r

/-- The method `Hub.SendToUser` with the outcome of its `Publish` given; the
method does not look at what `Publish` returns. -/
def Hub.SendToUserIf (delivered : Bool) (h : Hub) (userID : UUID) (msg : Message) :
    Except Panic Hub :=
  match jsonMarshal msg with
  | none => .ok h
  | some data =>
    let r :=
      match mapGet h.userClients userID with
      | some clients => forRange (Hub.sendOrEvict data) clients h
      | none => .ok h
    match r with
    | .error p => .error p
    | .ok h =>
      .ok { h with redis := h.redis.PublishIf delivered ("ws:user:" ++ userID.String) data }

/-- The method `Hub.Broadcast` with the outcome of its `Publish` given. -/
def Hub.BroadcastIf (delivered : Bool) (h : Hub) (msg : Message) : Outcome Hub :=
  match jsonMarshal msg with
  | none => .returned h
  | some data =>
    if h.broadcast.length < 256 then
      .returned { h with
        broadcast := h.broadcast ++ [data],
        redis := h.redis.PublishIf delivered "ws:broadcast" data }
    else .blocked

/-- What a call did with its result, through `f`. -/
def Outcome.map {α β : Type} (f : α → β) : Outcome α → Outcome β
  | .returned a => .returned (f a)
  | .panicked p => .panicked p
  | .blocked => .blocked

/-- The part of the state that is local to the hub process: the registry,
the queues and the broadcast channel. -/
def Hub.localState (h : Hub) :
    List Client × List (UUID × List Client) × (Client → Chan) × List Bytes :=
  (h.clients, h.userClients, h.Send, h.broadcast)

/-- The case `message := <-h.broadcast` of the loop of `Hub.Run`: the oldest
frame on the broadcast channel is taken and fanned out.  With no frame pending
the case is not taken. -/
def Hub.runBroadcast (h : Hub) : Except Panic Hub :=
  match h.broadcast with
  | [] => .ok h
  | message :: rest => Hub.broadcastMessage { h with broadcast := rest } message

/-- A third connection of `alice`. -/
def conn5 : Client := { addr := 5, ID := "c5", UserID := alice }

/-- Hub `a` registers `conn1`, hub `b` registers and unregisters `conn2` (all
of `alice`). -/
def gapOps : List (Side × RegOp) :=
  [(.a, .register conn1), (.b, .register conn2), (.b, .unregister conn2)]

/-- Hub `a` as it is after `gapOps`. -/
def hubGap : Hub := (clusterOr cluster0 (cluster0.runReg gapOps)).hub .a

/-- The keys of a map, in list order. -/
def mapKeys {κ ν : Type} (m : List (κ × ν)) : List κ := m.map Prod.fst

/-- The presence set and the keys of `h.userClients` are held without
repetition. -/
def Hub.Counted (h : Hub) : Prop :=
  h.presence.Nodup ∧ (mapKeys h.userClients).Nodup

/-- The case `message := <-h.broadcast` of the loop of `Hub.Run` taken `n`
times in a row: the `n` oldest frames on the broadcast channel are fanned out,
oldest first. -/
def Hub.runBroadcasts : Nat → Hub → Except Panic Hub
  | 0, h => .ok h
  | n + 1, h =>
    match h.runBroadcast with
    | .error p => .error p
    | .ok h' => Hub.runBroadcasts n h'

/-- An article-update message. -/
def update : Message := { Typ := TypeArticleUpdate, Payload := .null }

/-- The serialized `update`. -/
def updateFrame : Bytes := "\x7b\"type\":\"article_update\",\"payload\":null\x7d"

/-- The hub `hubMixed` after `Broadcast(note)`, before its event loop has
taken the frame: one frame is pending on the broadcast channel. -/
def hubBusy : Hub := ((hubMixed.Broadcast note).result).getD hubMixed

/-- The hub `hubBusy` after `Broadcast(update)`: two frames are pending on the
broadcast channel. -/
def hubSent : Hub := ((hubBusy.Broadcast update).result).getD hubBusy

end Websocket

/-! # The notification service

A shallow embedding of the four helpers of
`backend/internal/service/notification_service.go` and of
`notificationRepository.Create`. -/

namespace Service

open Websocket (UUID)

def NotificationNewComment : String := "new_comment"
def NotificationCommentReply : String := "comment_reply"
def NotificationReaction : String := "reaction"
def NotificationNewFollower : String := "new_follower"

/-- The struct `model.Notification`, without its `CreatedAt` and `Actor`
fields, which the helpers leave at their zero values.  A nil pointer is
`none`; the field `Type` is spelled `Typ`. -/
structure Notification where
  ID : UUID
  UserID : UUID
  Typ : String
  Title : String
  Message : String
  Link : Option String
  ImageURL : Option String
  ActorID : Option UUID
  ArticleID : Option UUID
  CommentID : Option UUID
  IsRead : Bool
deriving DecidableEq, Repr

/-- The zero value of `model.Notification`. -/
def Notification.zero : Notification :=
  { ID := Websocket.uuid.Nil, UserID := Websocket.uuid.Nil, Typ := "", Title := "",
    Message := "", Link := none, ImageURL := none, ActorID := none, ArticleID := none,
    CommentID := none, IsRead := false }

/-- The repository `notificationRepository` with the database behind it:
`inserts` are the rows `Create` has sent to the database (oldest first),
`newID n` is what `uuid.New()` returns in the call of `Create` number `n`, and
`exec row` is the error `db.Exec` returns for the `INSERT` of `row` (`none` is
`nil`). -/
structure NotificationRepository where
  inserts : List Notification
  newID : Nat → UUID
  exec : Notification → Option String

/-- The method `notificationRepository.Create`: the error it returns, and the
repository afterwards. -/
def NotificationRepository.Create (r : NotificationRepository) (notification : Notification) :
    Option String × NotificationRepository :=
  let notification := { notification with ID := r.newID r.inserts.length }
  (r.exec notification, { r with inserts := r.inserts ++ [notification] })

/-- The method `notificationService.NotifyNewComment`. -/
def notificationService.NotifyNewComment (r : NotificationRepository)
    (articleAuthorID commentAuthorID articleID commentID : UUID) (articleTitle : String) :
    Option String × NotificationRepository :=
  if articleAuthorID = commentAuthorID then (none, r)
  else
    let notification : Notification :=
      { Notification.zero with
        UserID := articleAuthorID,
        Typ := NotificationNewComment,
        Title := "Новый комментарий",
        Message := "Новый комментарий к вашей статье \"" ++ articleTitle ++ "\"",
        ActorID := some commentAuthorID,
        ArticleID := some articleID,
        CommentID := some commentID }
    let link := "/article/" ++ articleID.String ++ "#comment-" ++ commentID.String
    let notification := { notification with Link := some link }
    r.Create notification

/-- The method `notificationService.NotifyCommentReply`. -/
def notificationService.NotifyCommentReply (r : NotificationRepository)
    (parentAuthorID replyAuthorID articleID commentID : UUID) :
    Option String × NotificationRepository :=
  if parentAuthorID = replyAuthorID then (none, r)
  else
    let notification : Notification :=
      { Notification.zero with
        UserID := parentAuthorID,
        Typ := NotificationCommentReply,
        Title := "Ответ на комментарий",
        Message := "Кто-то ответил на ваш комментарий",
        ActorID := some replyAuthorID,
        ArticleID := some articleID,
        CommentID := some commentID }
    let link := "/article/" ++ articleID.String ++ "#comment-" ++ commentID.String
    let notification := { notification with Link := some link }
    r.Create notification

/-- The method `notificationService.NotifyNewFollower`. -/
def notificationService.NotifyNewFollower (r : NotificationRepository) (userID followerID : UUID) :
    Option String × NotificationRepository :=
  let notification : Notification :=
    { Notification.zero with
      UserID := userID,
      Typ := NotificationNewFollower,
      Title := "Новый подписчик",
      Message := "У вас новый подписчик",
      ActorID := some followerID }
  let link := "/user/" ++ followerID.String
  let notification := { notification with Link := some link }
  r.Create notification

/-- The method `notificationService.NotifyReaction`. -/
def notificationService.NotifyReaction (r : NotificationRepository) (authorID reactorID articleID : UUID)
    (emoji : String) : Option String × NotificationRepository :=
  if authorID = reactorID then (none, r)
  else
    let notification : Notification :=
      { Notification.zero with
        UserID := authorID,
        Typ := NotificationReaction,
        Title := "Новая реакция",
        Message := "Кто-то поставил " ++ emoji ++ " вашей статье",
        ActorID := some reactorID,
        ArticleID := some articleID }
    let link := "/article/" ++ articleID.String
    let notification := { notification with Link := some link }
    r.Create notification

/-- A notification is about the recipient's own action. -/
def Notification.isSelf (n : Notification) : Bool :=
  decide (n.ActorID = some n.UserID)

/-- An empty notifications table on a database that accepts every row. -/
def repo0 : NotificationRepository :=
  { inserts := [], newID := fun n => Fin.ofNat n, exec := fun _ => none }


/-! # The article and comment services: text helpers -/

/-- The function `unicode.IsSpace` of the Go library: the white-space
characters of Unicode. -/
def unicode.IsSpace (r : Char) : Bool :=
  let n := r.toNat
  decide (n = 0x09 ∨ n = 0x0A ∨ n = 0x0B ∨ n = 0x0C ∨ n = 0x0D ∨ n = 0x20 ∨ n = 0x85 ∨ n = 0xA0 ∨
    n = 0x1680 ∨ (0x2000 ≤ n ∧ n ≤ 0x200A) ∨ n = 0x2028 ∨ n = 0x2029 ∨ n = 0x202F ∨
    n = 0x205F ∨ n = 0x3000)

/-- The loop of `strings.Fields`: `cur` is the field being read. -/
def strings.fieldsFrom (cur : List Char) : List Char → List (List Char)
  | [] => if cur = [] then [] else [cur]
  | c :: s =>
    if unicode.IsSpace c then
      if cur = [] then strings.fieldsFrom [] s else cur :: strings.fieldsFrom [] s
    else strings.fieldsFrom (cur ++ [c]) s

/-- The function `strings.Fields` of the Go library, on a string of valid
UTF-8 held as its code points: the maximal runs of characters that are not
white space. -/
def strings.Fields (s : String) : List (List Char) := strings.fieldsFrom [] s.data

/-- The reading time `articleService.Create` stores for `input.Content`
(article_service.go:111-116).  `len` of a slice is not negative and is far
below the range of `int`, so the arithmetic is that of the natural numbers. -/
def articleService.Create.readingTime (content : String) : Nat :=
  let wordCount := (strings.Fields content).length
  let readingTime := (wordCount + 199) / 200
  if readingTime < 1 then 1 else readingTime

/-- The reading time `articleService.Update` stores when `input.Content` is
not nil (article_service.go:207-212). -/
def articleService.Update.readingTime (content : String) : Nat :=
  let wordCount := (strings.Fields content).length
  (wordCount + 199) / 200

/-- The reading time in the words of the specification: `max(1, ceil(w / 200))`
for `w` words. -/
def readingTimeSpec (w : Nat) : Nat := max 1 (Nat.ceil ((w : ℚ) / 200))

/-- The tables of the Go package `unicode` that `generateSlug` reads. -/
structure UnicodeTables where
  ToLower : Char → Char
  IsLetter : Char → Bool
  IsDigit : Char → Bool

/-- The tables of `unicode` on U+0000..U+007F; beyond that range no character
is taken for a letter or a digit. -/
def unicodeASCII : UnicodeTables :=
  { ToLower := fun r => if 'A'.toNat ≤ r.toNat ∧ r.toNat ≤ 'Z'.toNat then Char.ofNat (r.toNat + 32) else r,
    IsLetter := fun r =>
      decide (('a'.toNat ≤ r.toNat ∧ r.toNat ≤ 'z'.toNat) ∨ ('A'.toNat ≤ r.toNat ∧ r.toNat ≤ 'Z'.toNat)),
    IsDigit := fun r => decide ('0'.toNat ≤ r.toNat ∧ r.toNat ≤ '9'.toNat) }

/-- The UTF-8 encoding of a code point, as bytes. -/
def utf8 (r : Char) : List Nat :=
  let n := r.toNat
  if n < 0x80 then [n]
  else if n < 0x800 then [0xC0 + n / 64, 0x80 + n % 64]
  else if n < 0x10000 then [0xE0 + n / 4096, 0x80 + n / 64 % 64, 0x80 + n % 64]
  else [0xF0 + n / 262144, 0x80 + n / 4096 % 64, 0x80 + n / 64 % 64, 0x80 + n % 64]

/-- The bytes of a string. -/
def bytes (s : String) : List Nat := s.data.flatMap utf8

/-- The map `translit` of `generateSlug`: `none` where the map has no entry. -/
def translit (r : Char) : Option String :=
  match r with
  | 'а' => some "a" | 'б' => some "b" | 'в' => some "v" | 'г' => some "g"
  | 'д' => some "d" | 'е' => some "e" | 'ё' => some "yo"
  | 'ж' => some "zh" | 'з' => some "z" | 'и' => some "i" | 'й' => some "y"
  | 'к' => some "k" | 'л' => some "l" | 'м' => some "m"
  | 'н' => some "n" | 'о' => some "o" | 'п' => some "p" | 'р' => some "r"
  | 'с' => some "s" | 'т' => some "t" | 'у' => some "u"
  | 'ф' => some "f" | 'х' => some "h" | 'ц' => some "ts" | 'ч' => some "ch"
  | 'ш' => some "sh" | 'щ' => some "sch"
  | 'ъ' => some "" | 'ы' => some "y" | 'ь' => some "" | 'э' => some "e"
  | 'ю' => some "yu" | 'я' => some "ya"
  | _ => none

/-- The byte of the character `-`. -/
def dash : Nat := 45

/-- The call `regexp.MustCompile("-+").ReplaceAllString(slug, "-")`: every
maximal run of `-` becomes one `-`. -/
def collapseDashes : List Nat → List Nat
  | [] => []
  | [b] => [b]
  | a :: b :: s =>
    if a = dash ∧ b = dash then collapseDashes (b :: s) else a :: collapseDashes (b :: s)

/-- The call `strings.Trim(slug, "-")`. -/
def trimDashes (slug : List Nat) : List Nat :=
  (slug.dropWhile (fun b => decide (b = dash))).rdropWhile (fun b => decide (b = dash))

/-- The function `generateSlug` (article_service.go:397-434), the slug as its
bytes; `id` is what `uuid.New()` returns. -/
def generateSlug (u : UnicodeTables) (title : String) (id : UUID) : List Nat :=
  let title := title.data.map u.ToLower
  let result := title.flatMap (fun r =>
    match translit r with
    | some t => bytes t
    | none =>
      if u.IsLetter r || u.IsDigit r then utf8 r
      else if r = ' ' ∨ r = '-' ∨ r = '_' then utf8 '-'
      else [])
  let slug := collapseDashes result
  let slug := trimDashes slug
  let slug := if slug.length > 100 then slug.take 100 else slug
  slug ++ bytes "-" ++ (bytes id.String).take 8

/-- A title of 101 characters: 99 times `a`, a blank, `b`. -/
def longTitle : String := String.mk (List.replicate 99 'a' ++ [' ', 'b'])

/-- The function `strings.TrimSpace` of the Go library, on the code points of
a string of valid UTF-8: leading and trailing white space removed. -/
def strings.TrimSpace (s : List Char) : List Char :=
  (s.dropWhile unicode.IsSpace).rdropWhile unicode.IsSpace

/-- The scan of `strings.ReplaceAll` for a non-empty `old`, from the left:
`k` is the number of characters of the last match still to be passed over. -/
def strings.replaceFrom (old new : List Char) : Nat → List Char → List Char
  | _, [] => []
  | k + 1, _ :: s => strings.replaceFrom old new k s
  | 0, c :: s =>
    if old.isPrefixOf (c :: s) then new ++ strings.replaceFrom old new (old.length - 1) s
    else c :: strings.replaceFrom old new 0 s

/-- The function `strings.ReplaceAll` of the Go library: the non-overlapping
occurrences of `old`, leftmost first, replaced by `new`; an empty `old` matches
before every character and at the end. -/
def strings.ReplaceAll (s : List Char) (old new : String) : List Char :=
  if old.data = [] then new.data ++ s.flatMap (fun c => c :: new.data)
  else strings.replaceFrom old.data new.data 0 s

/-- The function `convertCommentToHTML` (comment_service.go:242-260). -/
def convertCommentToHTML (content : String) : String :=
  let html := strings.TrimSpace content.data
  let html := strings.ReplaceAll html "&" "&amp;"
  let html := strings.ReplaceAll html "<" "&lt;"
  let html := strings.ReplaceAll html ">" "&gt;"
  let html := strings.ReplaceAll html "\n\n" "</p><p>"
  let html := strings.ReplaceAll html "\n" "<br>"
  String.mk ("<p>".data ++ html ++ "</p>".data)

/-- Every occurrence of the tags `<p>`, `</p>` and `<br>` deleted, in this
order. -/
def deleteTags (s : List Char) : List Char :=
  strings.ReplaceAll (strings.ReplaceAll (strings.ReplaceAll s "<p>" "") "</p>" "") "<br>" ""

/-- The three entities of the escaping step, without their `&`. -/
def entityTails : List (List Char) := ["amp;".data, "lt;".data, "gt;".data]

/-- The string `s` goes on with `amp;`, `lt;` or `gt;`. -/
def entityTail (s : List Char) : Bool := entityTails.any (fun e => e.isPrefixOf s)

/-- Every `&` of the string begins `&amp;`, `&lt;` or `&gt;`. -/
def ampsOK : List Char → Bool
  | [] => true
  | c :: s => (c != '&' || entityTail s) && ampsOK s

/-- A piece of escaped output: a character, an entity or a tag. -/
inductive Piece where
  | chr (c : Char)
  | amp
  | lt
  | gt
  | pOpen
  | pClose
  | br
deriving DecidableEq, Repr

/-- The text of a piece. -/
def Piece.text : Piece → List Char
  | .chr c => [c]
  | .amp => ['&', 'a', 'm', 'p', ';']
  | .lt => ['&', 'l', 't', ';']
  | .gt => ['&', 'g', 't', ';']
  | .pOpen => ['<', 'p', '>']
  | .pClose => ['<', '/', 'p', '>']
  | .br => ['<', 'b', 'r', '>']

/-- A character piece is none of `&`, `<`, `>`. -/
def Piece.ok : Piece → Prop
  | .chr c => c ≠ '&' ∧ c ≠ '<' ∧ c ≠ '>'
  | _ => True

/-- The piece is one of the three tags. -/
def Piece.isTag : Piece → Bool
  | .pOpen => true
  | .pClose => true
  | .br => true
  | _ => false

/-- The text of a list of pieces. -/
def render (ps : List Piece) : List Char := ps.flatMap Piece.text

/-- The piece the escaping step makes of a character. -/
def Piece.ofChar (c : Char) : Piece :=
  if c = '&' then .amp else if c = '<' then .lt else if c = '>' then .gt else .chr c

end Service

namespace Websocket

/-! ## Lemmas: maps and sets -/

section GoMapLemmas
variable {κ : Type} {ν : Type} [DecidableEq κ]

theorem mapGet_mapSet_self (m : List (κ × ν)) (k : κ) (v : ν) :
    mapGet (mapSet m k v) k = some v := by
  induction m with
  | nil => simp [mapSet, mapGet]
  | cons e m ih =>
    obtain ⟨k', v'⟩ := e
    by_cases hk : k' = k <;> simp [mapSet, mapGet, hk, ih]

theorem mapGet_mapSet_ne (m : List (κ × ν)) {k k' : κ} (v : ν) (h : k ≠ k') :
    mapGet (mapSet m k v) k' = mapGet m k' := by
  induction m with
  | nil => simp [mapSet, mapGet, h]
  | cons e m ih =>
    obtain ⟨k₀, v₀⟩ := e
    by_cases hk : k₀ = k
    · subst hk; simp [mapSet, mapGet, h]
    · by_cases hk' : k₀ = k'
      · subst hk'
        simp [mapSet, mapGet, hk]
      · simp [mapSet, mapGet, hk, hk', ih]

theorem mapGet_mapDelete_self (m : List (κ × ν)) (k : κ) :
    mapGet (mapDelete m k) k = none := by
  induction m with
  | nil => simp [mapDelete, mapGet]
  | cons e m ih =>
    obtain ⟨k', v'⟩ := e
    by_cases hk : k' = k <;> simp [mapDelete, hk, mapGet, ih]

theorem mapGet_mapDelete_ne (m : List (κ × ν)) {k k' : κ} (h : k ≠ k') :
    mapGet (mapDelete m k) k' = mapGet m k' := by
  induction m with
  | nil => simp [mapDelete, mapGet]
  | cons e m ih =>
    obtain ⟨k₀, v₀⟩ := e
    by_cases hk : k₀ = k
    · subst hk
      simp [mapDelete, mapGet, h, ih]
    · by_cases hk' : k₀ = k'
      · subst hk'
        simp [mapDelete, hk, mapGet]
      · simp [mapDelete, hk, mapGet, hk', ih]

theorem mapSet_mapSet (m : List (κ × ν)) (k : κ) (v w : ν) :
    mapSet (mapSet m k v) k w = mapSet m k w := by
  induction m with
  | nil => simp [mapSet]
  | cons e m ih =>
    obtain ⟨k', v'⟩ := e
    by_cases hk : k' = k <;> simp [mapSet, hk, ih]

theorem mapSet_of_mapGet (m : List (κ × ν)) (k : κ) (v : ν)
    (h : mapGet m k = some v) : mapSet m k v = m := by
  induction m with
  | nil => simp [mapGet] at h
  | cons e m ih =>
    obtain ⟨k', v'⟩ := e
    by_cases hk : k' = k
    · subst hk
      simp [mapGet] at h
      simp [mapSet, h]
    · simp [mapGet, hk] at h
      simp [mapSet, hk, ih h]

theorem mapDelete_of_mapGet_none (m : List (κ × ν)) (k : κ)
    (h : mapGet m k = none) : mapDelete m k = m := by
  induction m with
  | nil => simp [mapDelete]
  | cons e m ih =>
    obtain ⟨k', v'⟩ := e
    by_cases hk : k' = k
    · simp [mapGet, hk] at h
    · simp [mapGet, hk] at h
      simp [mapDelete, hk, ih h]

theorem mapDelete_mapSet (m : List (κ × ν)) (k : κ) (v : ν) :
    mapDelete (mapSet m k v) k = mapDelete m k := by
  induction m with
  | nil => simp [mapSet, mapDelete]
  | cons e m ih =>
    obtain ⟨k', v'⟩ := e
    by_cases hk : k' = k
    · subst hk
      simp [mapSet, mapDelete]
    · simp [mapSet, mapDelete, hk, ih]

end GoMapLemmas

section GoSetLemmas
variable {α : Type} [DecidableEq α]

theorem mem_setAdd {s : List α} {x y : α} : y ∈ setAdd s x ↔ y = x ∨ y ∈ s := by
  unfold setAdd
  split
  · constructor
    · exact Or.inr
    · rintro (rfl | h)
      · assumption
      · exact h
  · simp [or_comm]

theorem nodup_setAdd {s : List α} (x : α) (h : s.Nodup) : (setAdd s x).Nodup := by
  unfold setAdd
  split
  · exact h
  · rename_i hx
    exact List.nodup_append.mpr ⟨h, List.nodup_singleton x, by simpa using hx⟩

theorem setAdd_ne_nil (s : List α) (x : α) : setAdd s x ≠ [] := by
  intro h
  have : x ∈ setAdd s x := mem_setAdd.mpr (Or.inl rfl)
  rw [h] at this
  exact List.not_mem_nil _ this

theorem mem_setDelete {s : List α} {x y : α} : y ∈ setDelete s x ↔ y ∈ s ∧ y ≠ x := by
  simp [setDelete]

theorem nodup_setDelete {s : List α} (x : α) (h : s.Nodup) : (setDelete s x).Nodup :=
  h.filter _

theorem setDelete_of_not_mem {s : List α} {x : α} (h : x ∉ s) : setDelete s x = s := by
  unfold setDelete
  rw [List.filter_eq_self]
  intro y hy
  have : y ≠ x := fun e => h (e ▸ hy)
  simpa using this

theorem setDelete_setAdd {s : List α} {x : α} (h : x ∉ s) :
    setDelete (setAdd s x) x = s := by
  unfold setAdd
  rw [if_neg h]
  unfold setDelete
  rw [List.filter_append]
  have := setDelete_of_not_mem h
  unfold setDelete at this
  rw [this]
  simp [List.filter]

end GoSetLemmas

/-! ## Lemmas: identifiers -/

theorem hexDigit_inj {a b : Nat} (ha : a < 16) (hb : b < 16)
    (h : hexDigit a = hexDigit b) : a = b := by
  interval_cases a <;> interval_cases b <;>
    first | rfl | exact absurd h (by decide)

theorem mod_pow_eq_of_digits (u v : Nat) :
    ∀ n : Nat, (∀ i, i < n → u / 16 ^ i % 16 = v / 16 ^ i % 16) →
      u % 16 ^ n = v % 16 ^ n
  | 0, _ => by simp [Nat.mod_one]
  | n + 1, h => by
    rw [Nat.mod_pow_succ, Nat.mod_pow_succ, h n (Nat.lt_succ_self n),
      mod_pow_eq_of_digits u v n (fun i hi => h i (Nat.lt_succ_of_lt hi))]

theorem encodeHex_inj {u v : Nat} {ps : List Nat}
    (h : encodeHex u ps = encodeHex v ps) :
    ∀ i ∈ ps, u / 16 ^ i % 16 = v / 16 ^ i % 16 := by
  intro i hi
  have h' := (List.map_inj_left.mp h) i hi
  exact hexDigit_inj (Nat.mod_lt _ (by norm_num)) (Nat.mod_lt _ (by norm_num)) h'

/-- Distinct identifiers have distinct string forms. -/
theorem UUID.String_injective : Function.Injective UUID.String := by
  intro u v h
  have hl : (UUID.String u).data = (UUID.String v).data := congrArg String.data h
  simp only [UUID.String] at hl
  have len : ∀ (x y : Nat) (ps : List Nat),
      (encodeHex x ps).length = (encodeHex y ps).length := by
    intro x y ps; simp [encodeHex]
  obtain ⟨h1, hl⟩ := List.append_inj hl (len _ _ _)
  obtain ⟨h2, hl⟩ := List.append_inj (List.cons.inj hl).2 (len _ _ _)
  obtain ⟨h3, hl⟩ := List.append_inj (List.cons.inj hl).2 (len _ _ _)
  obtain ⟨h4, hl⟩ := List.append_inj (List.cons.inj hl).2 (len _ _ _)
  have h5 := (List.cons.inj hl).2
  have key : ∀ i, i < 32 → u.val / 16 ^ i % 16 = v.val / 16 ^ i % 16 := by
    intro i hi
    have hmem : i ∈ [31, 30, 29, 28, 27, 26, 25, 24] ∨ i ∈ [23, 22, 21, 20] ∨
        i ∈ [19, 18, 17, 16] ∨ i ∈ [15, 14, 13, 12] ∨
        i ∈ [11, 10, 9, 8, 7, 6, 5, 4, 3, 2, 1, 0] := by
      interval_cases i <;> simp
    rcases hmem with m | m | m | m | m
    · exact encodeHex_inj h1 i m
    · exact encodeHex_inj h2 i m
    · exact encodeHex_inj h3 i m
    · exact encodeHex_inj h4 i m
    · exact encodeHex_inj h5 i m
  have hmod := mod_pow_eq_of_digits u.val v.val 32 key
  have hu : u.val < 16 ^ 32 := lt_of_lt_of_eq u.isLt (by norm_num)
  have hv : v.val < 16 ^ 32 := lt_of_lt_of_eq v.isLt (by norm_num)
  rw [Nat.mod_eq_of_lt hu, Nat.mod_eq_of_lt hv] at hmod
  exact Fin.ext hmod

/-! ## Lemmas: the fan-out loops -/

theorem Chan.push_closed (ch : Chan) (data : Bytes) : (ch.push data).closed = ch.closed := rfl

theorem Hub.sendOrSkip_ok {data : Bytes} {h h' : Hub} {c : Client}
    (e : Hub.sendOrSkip data h c = .ok h') :
    (h.Send c).closed = false ∧ h'.clients = h.clients ∧ h'.userClients = h.userClients ∧
      h'.broadcast = h.broadcast ∧ h'.redis = h.redis ∧
      (∀ d, d ≠ c → h'.Send d = h.Send d) ∧
      h'.Send c = if (h.Send c).hasRoom then (h.Send c).push data else h.Send c := by
  unfold Hub.sendOrSkip Chan.trySend at e
  cases hcl : (h.Send c).closed
  · cases hr : (h.Send c).hasRoom
    · simp [hcl, hr] at e
      subst e
      simp
    · simp [hcl, hr] at e
      subst e
      simp [Hub.setSend]
      intro d hd
      simp [hd]
  · simp [hcl] at e

theorem Hub.sendOrSkip_of_open (data : Bytes) {h : Hub} {c : Client}
    (ho : (h.Send c).closed = false) : ∃ h', Hub.sendOrSkip data h c = .ok h' := by
  unfold Hub.sendOrSkip Chan.trySend
  cases hr : (h.Send c).hasRoom <;> simp [ho]

/-- A completed online-count or relay fan-out met only open queues, left the
registry and the Redis state alone, and closed nothing. -/
theorem forRange_sendOrSkip_ok {data : Bytes} :
    ∀ (l : List Client) {h h' : Hub}, forRange (Hub.sendOrSkip data) l h = .ok h' →
      (∀ c ∈ l, (h.Send c).closed = false) ∧ h'.clients = h.clients ∧
        h'.userClients = h.userClients ∧ h'.broadcast = h.broadcast ∧ h'.redis = h.redis ∧
        (∀ c, (h'.Send c).closed = (h.Send c).closed) ∧
        (∀ c, c ∉ l → h'.Send c = h.Send c)
  | [], h, h', e => by
    simp [forRange] at e
    subst e
    simp
  | a :: l, h, h', e => by
    simp only [forRange] at e
    cases e1 : Hub.sendOrSkip data h a with
    | error p => simp [e1] at e
    | ok h1 =>
      simp only [e1] at e
      obtain ⟨ho, hc, hu, hb, hr, hne, hself⟩ := Hub.sendOrSkip_ok e1
      obtain ⟨io, ic, iu, ib, ir, icl, inot⟩ := forRange_sendOrSkip_ok l e
      have hclosed : ∀ d, (h1.Send d).closed = (h.Send d).closed := by
        intro d
        by_cases hd : d = a
        · subst hd
          rw [hself]
          split <;> simp [Chan.push_closed]
        · rw [hne d hd]
      refine ⟨?_, ic.trans hc, iu.trans hu, ib.trans hb, ir.trans hr, ?_, ?_⟩
      · intro c hcm
        rcases List.mem_cons.mp hcm with rfl | hcl
        · exact ho
        · rw [← hclosed c]; exact io c hcl
      · intro c
        rw [icl c, hclosed c]
      · intro c hcm
        have h1' : c ≠ a := fun e' => hcm (e' ▸ List.mem_cons_self _ _)
        have h2' : c ∉ l := fun m => hcm (List.mem_cons_of_mem _ m)
        rw [inot c h2', hne c h1']

/-- On a duplicate-free list of open queues the online-count or relay
fan-out completes, and it appends the frame exactly to the listed queues that
have room. -/
theorem forRange_sendOrSkip_spec (data : Bytes) :
    ∀ (l : List Client) (h : Hub), l.Nodup → (∀ c ∈ l, (h.Send c).closed = false) →
      ∃ h', forRange (Hub.sendOrSkip data) l h = .ok h' ∧
        ∀ c, h'.Send c =
          if c ∈ l ∧ (h.Send c).hasRoom = true then (h.Send c).push data else h.Send c
  | [], h, _, _ => ⟨h, rfl, by simp⟩
  | a :: l, h, nd, ho => by
    obtain ⟨h1, e1⟩ := Hub.sendOrSkip_of_open data (ho a (List.mem_cons_self _ _))
    obtain ⟨-, -, -, -, -, hne, hself⟩ := Hub.sendOrSkip_ok e1
    have nd' := List.nodup_cons.mp nd
    have ho1 : ∀ c ∈ l, (h1.Send c).closed = false := by
      intro c hc
      have : c ≠ a := fun e => nd'.1 (e ▸ hc)
      rw [hne c this]
      exact ho c (List.mem_cons_of_mem _ hc)
    obtain ⟨h2, e2, hs⟩ := forRange_sendOrSkip_spec data l h1 nd'.2 ho1
    refine ⟨h2, by simp [forRange, e1, e2], ?_⟩
    intro c
    rw [hs c]
    by_cases hca : c = a
    · subst hca
      simp only [nd'.1, false_and, if_false, List.mem_cons, true_or, true_and]
      rw [hself]
    · rw [hne c hca]
      simp [hca]

/-! ## Lemmas: register and unregister -/

theorem jsonMarshal_onlineCount (n : Int) :
    jsonMarshal { Typ := TypeOnlineCount, Payload := .onlineCount n } =
      some (onlineCountFrame n) := by
  have hq : jsonQuote TypeOnlineCount = "\"online_count\"" := by decide
  simp only [jsonMarshal, Payload.marshal, hq, onlineCountFrame, String.append_assoc]
  rfl

theorem Hub.broadcastOnlineCount_eq (h : Hub) :
    h.broadcastOnlineCount =
      forRange (Hub.sendOrSkip (onlineCountFrame (h.redis.SCard "online:users")))
        h.clients h := by
  simp only [Hub.broadcastOnlineCount, jsonMarshal_onlineCount]

theorem Hub.registerClient_eq (h : Hub) (c : Client) :
    h.registerClient c = (h.withClient c).broadcastOnlineCount := by
  unfold Hub.registerClient Hub.withClient registeredUsers
  by_cases hn : c.UserID = uuid.Nil
  · simp [hn]
  · by_cases hg : mapGet h.userClients c.UserID = none
    · simp [hn, hg, mapGet_mapSet_self, mapSet_mapSet]
    · simp [hn, hg]

theorem Hub.unregisterClient_not_mem (h : Hub) (c : Client) (hc : c ∉ h.clients) :
    h.unregisterClient c = .ok h := by
  simp [Hub.unregisterClient, hc]

theorem Hub.unregisterClient_closed (h : Hub) (c : Client) (hc : c ∈ h.clients)
    (hcl : (h.Send c).closed = true) : h.unregisterClient c = .error .closeOfClosed := by
  simp [Hub.unregisterClient, hc, Chan.close, hcl]

theorem Hub.unregisterClient_eq (h : Hub) (c : Client) (hc : c ∈ h.clients)
    (hcl : (h.Send c).closed = false) :
    h.unregisterClient c = (h.withoutClient c).broadcastOnlineCount := by
  unfold Hub.unregisterClient Hub.withoutClient unregisteredUsers
  simp only [hc, if_true, Chan.close, hcl, Hub.setSend]
  by_cases hn : c.UserID = uuid.Nil
  · simp [hn]
  · cases hg : mapGet h.userClients c.UserID with
    | none => simp [hn, hg]
    | some set =>
      by_cases he : setDelete set c = []
      · simp [hn, hg, he, mapDelete_mapSet]
      · simp [hn, hg, he]

/-! ## Lemmas: the registry after register and unregister -/

theorem mapGet_registeredUsers (m : List (UUID × List Client)) (c : Client) (u : UUID) :
    mapGet (registeredUsers m c) u =
      if c.UserID ≠ uuid.Nil ∧ u = c.UserID then
        some (setAdd ((mapGet m u).getD []) c)
      else mapGet m u := by
  unfold registeredUsers
  by_cases hn : c.UserID = uuid.Nil
  · simp [hn]
  · by_cases hu : u = c.UserID
    · subst hu
      simp [hn, mapGet_mapSet_self]
    · have : c.UserID ≠ u := fun e => hu e.symm
      simp [hn, hu, mapGet_mapSet_ne _ _ this]

theorem mapGet_unregisteredUsers (m : List (UUID × List Client)) (c : Client) (u : UUID) :
    mapGet (unregisteredUsers m c) u =
      if c.UserID ≠ uuid.Nil ∧ u = c.UserID then
        match mapGet m u with
        | none => none
        | some set => if setDelete set c = [] then none else some (setDelete set c)
      else mapGet m u := by
  unfold unregisteredUsers
  by_cases hn : c.UserID = uuid.Nil
  · simp [hn]
  · by_cases hu : u = c.UserID
    · subst hu
      cases hg : mapGet m c.UserID with
      | none => simp [hn, hg]
      | some set =>
        by_cases he : setDelete set c = []
        · simp [hn, he, mapGet_mapDelete_self]
        · simp [hn, he, mapGet_mapSet_self]
    · have hne : c.UserID ≠ u := fun e => hu e.symm
      cases hg : mapGet m c.UserID with
      | none => simp [hn, hu]
      | some set =>
        by_cases he : setDelete set c = []
        · simp [hn, hu, he, mapGet_mapDelete_ne _ hne]
        · simp [hn, hu, he, mapGet_mapSet_ne _ _ hne]

theorem Hub.userSet_withClient (h : Hub) (c : Client) (u : UUID) :
    (h.withClient c).userSet u =
      if c.UserID ≠ uuid.Nil ∧ u = c.UserID then setAdd (h.userSet u) c else h.userSet u := by
  simp only [Hub.userSet, Hub.withClient, mapGet_registeredUsers]
  split <;> simp

theorem Hub.userSet_withoutClient (h : Hub) (c : Client) (u : UUID) :
    (h.withoutClient c).userSet u =
      if c.UserID ≠ uuid.Nil ∧ u = c.UserID then setDelete (h.userSet u) c
      else h.userSet u := by
  simp only [Hub.userSet, Hub.withoutClient, mapGet_unregisteredUsers]
  split
  · cases hg : mapGet h.userClients u with
    | none => simp [setDelete]
    | some set =>
      by_cases he : setDelete set c = [] <;> simp [he]
  · rfl

theorem Hub.Consistent.mem_of_entry {h : Hub} (hc : h.Consistent) {u : UUID}
    {set : List Client} (hg : mapGet h.userClients u = some set) {c : Client}
    (hm : c ∈ set) : c ∈ h.clients ∧ c.UserID = u ∧ u ≠ uuid.Nil := by
  have hu := hc.entry_user u set hg c hm
  have hn := hc.key_ne_nil u set hg
  refine ⟨?_, hu, hn⟩
  rw [hc.user_iff c (hu ▸ hn), hu]
  simp [Hub.userSet, hg, hm]

theorem Hub.Consistent.withClient {h : Hub} (hc : h.Consistent) (c : Client)
    (ho : (h.Send c).closed = false) : (h.withClient c).Consistent := by
  have hget : ∀ u, mapGet (h.withClient c).userClients u =
      if c.UserID ≠ uuid.Nil ∧ u = c.UserID then some (setAdd ((mapGet h.userClients u).getD []) c)
      else mapGet h.userClients u := fun u => mapGet_registeredUsers _ _ _
  refine ⟨nodup_setAdd c hc.clients_nodup, ?_, ?_, ?_, ?_, ?_, ?_⟩
  · intro d hd
    rcases mem_setAdd.mp hd with rfl | hd
    · exact ho
    · exact hc.clients_open d hd
  · intro d hd
    rw [Hub.userSet_withClient]
    show d ∈ setAdd h.clients c ↔ _
    rw [mem_setAdd]
    by_cases hcu : c.UserID ≠ uuid.Nil ∧ d.UserID = c.UserID
    · rw [if_pos hcu, mem_setAdd, hc.user_iff d hd]
    · rw [if_neg hcu, ← hc.user_iff d hd]
      have : d ≠ c := by
        rintro rfl
        exact hcu ⟨hd, rfl⟩
      simp [this]
  · intro u set hg
    rw [hget] at hg
    split at hg
    · cases hg
      exact setAdd_ne_nil _ _
    · exact hc.entry_ne u set hg
  · intro u set hg
    rw [hget] at hg
    split at hg
    · cases hg
      apply nodup_setAdd
      cases hg' : mapGet h.userClients u with
      | none => simp
      | some s => simpa using hc.entry_nodup u s hg'
    · exact hc.entry_nodup u set hg
  · intro u set hg d hd
    rw [hget] at hg
    split at hg
    · rename_i hcu
      cases hg
      rcases mem_setAdd.mp hd with rfl | hd
      · exact hcu.2.symm
      · cases hg' : mapGet h.userClients u with
        | none => simp [hg'] at hd
        | some s =>
          simp [hg'] at hd
          exact hc.entry_user u s hg' d hd
    · exact hc.entry_user u set hg d hd
  · intro u set hg
    rw [hget] at hg
    split at hg
    · rename_i hcu
      rw [hcu.2]
      exact hcu.1
    · exact hc.key_ne_nil u set hg

theorem Hub.Consistent.withoutClient {h : Hub} (hc : h.Consistent) (c : Client) :
    (h.withoutClient c).Consistent := by
  have hget : ∀ u, mapGet (h.withoutClient c).userClients u =
      if c.UserID ≠ uuid.Nil ∧ u = c.UserID then
        match mapGet h.userClients u with
        | none => none
        | some set => if setDelete set c = [] then none else some (setDelete set c)
      else mapGet h.userClients u := fun u => mapGet_unregisteredUsers _ _ _
  have hsub : ∀ u set, mapGet (h.withoutClient c).userClients u = some set →
      set ≠ [] ∧ ∃ s, mapGet h.userClients u = some s ∧ (set = s ∨ set = setDelete s c) := by
    intro u set hg
    rw [hget] at hg
    split at hg
    · cases hg' : mapGet h.userClients u with
      | none => simp [hg'] at hg
      | some s =>
        simp only [hg'] at hg
        split at hg
        · cases hg
        · rename_i he
          cases hg
          exact ⟨he, s, rfl, Or.inr rfl⟩
    · exact ⟨hc.entry_ne u set hg, set, hg, Or.inl rfl⟩
  refine ⟨nodup_setDelete c hc.clients_nodup, ?_, ?_, ?_, ?_, ?_, ?_⟩
  · intro d hd
    obtain ⟨hd, hdc⟩ := mem_setDelete.mp hd
    simp only [Hub.withoutClient, hdc, if_false]
    exact hc.clients_open d hd
  · intro d hd
    rw [Hub.userSet_withoutClient]
    show d ∈ setDelete h.clients c ↔ _
    rw [mem_setDelete]
    by_cases hcu : c.UserID ≠ uuid.Nil ∧ d.UserID = c.UserID
    · rw [if_pos hcu, mem_setDelete, hc.user_iff d hd]
    · rw [if_neg hcu, ← hc.user_iff d hd]
      have : d ≠ c := by
        rintro rfl
        exact hcu ⟨hd, rfl⟩
      simp [this]
  · intro u set hg
    exact (hsub u set hg).1
  · intro u set hg
    obtain ⟨-, s, hs, rfl | rfl⟩ := hsub u set hg
    · exact hc.entry_nodup u _ hs
    · exact nodup_setDelete c (hc.entry_nodup u _ hs)
  · intro u set hg d hd
    obtain ⟨-, s, hs, rfl | rfl⟩ := hsub u set hg
    · exact hc.entry_user u _ hs d hd
    · exact hc.entry_user u _ hs d (mem_setDelete.mp hd).1
  · intro u set hg
    obtain ⟨-, s, hs, -⟩ := hsub u set hg
    exact hc.key_ne_nil u s hs

/-- A completed online-count broadcast met only open queues, left the registry
and the Redis state alone, and closed nothing. -/
theorem Hub.broadcastOnlineCount_ok {h h' : Hub} (e : h.broadcastOnlineCount = .ok h') :
    (∀ c ∈ h.clients, (h.Send c).closed = false) ∧ h'.clients = h.clients ∧
      h'.userClients = h.userClients ∧ h'.broadcast = h.broadcast ∧ h'.redis = h.redis ∧
      (∀ c, (h'.Send c).closed = (h.Send c).closed) ∧
      (∀ c, c ∉ h.clients → h'.Send c = h.Send c) := by
  rw [Hub.broadcastOnlineCount_eq] at e
  exact forRange_sendOrSkip_ok _ e

theorem Hub.Consistent.transport {h h' : Hub} (hc : h.Consistent)
    (hcl : h'.clients = h.clients) (hu : h'.userClients = h.userClients)
    (hs : ∀ c, (h'.Send c).closed = (h.Send c).closed) : h'.Consistent := by
  refine ⟨hcl ▸ hc.clients_nodup, ?_, ?_, ?_, ?_, ?_, ?_⟩
  · intro c hm
    rw [hs c]
    exact hc.clients_open c (hcl ▸ hm)
  · intro c hn
    simp only [Hub.userSet, hcl, hu]
    exact hc.user_iff c hn
  · intro u set hg
    exact hc.entry_ne u set (hu ▸ hg)
  · intro u set hg
    exact hc.entry_nodup u set (hu ▸ hg)
  · intro u set hg
    exact hc.entry_user u set (hu ▸ hg)
  · intro u set hg
    exact hc.key_ne_nil u set (hu ▸ hg)

theorem Hub.Consistent.registerClient {h h' : Hub} (hc : h.Consistent) {c : Client}
    (e : h.registerClient c = .ok h') : h'.Consistent := by
  rw [Hub.registerClient_eq] at e
  obtain ⟨ho, hcl, hu, -, -, hs, -⟩ := Hub.broadcastOnlineCount_ok e
  have hopen : (h.Send c).closed = false :=
    ho c (mem_setAdd.mpr (Or.inl rfl))
  exact (hc.withClient c hopen).transport hcl hu hs

theorem Hub.Consistent.unregisterClient {h h' : Hub} (hc : h.Consistent) {c : Client}
    (e : h.unregisterClient c = .ok h') : h'.Consistent := by
  by_cases hm : c ∈ h.clients
  · rw [Hub.unregisterClient_eq h c hm (hc.clients_open c hm)] at e
    obtain ⟨-, hcl, hu, -, -, hs, -⟩ := Hub.broadcastOnlineCount_ok e
    exact (hc.withoutClient c).transport hcl hu hs
  · rw [Hub.unregisterClient_not_mem h c hm] at e
    cases e
    exact hc

theorem Hub.Consistent.runReg :
    ∀ (ops : List RegOp) {h h' : Hub}, h.Consistent → h.runReg ops = .ok h' → h'.Consistent
  | [], h, h', hc, e => by
    simp only [Hub.runReg] at e
    cases e
    exact hc
  | op :: ops, h, h', hc, e => by
    simp only [Hub.runReg] at e
    cases e1 : h.applyReg op with
    | error p => simp [e1] at e
    | ok h1 =>
      simp only [e1] at e
      have h1c : h1.Consistent := by
        cases op with
        | register c => exact hc.registerClient e1
        | unregister c => exact hc.unregisterClient e1
      exact Hub.Consistent.runReg ops h1c e

theorem NewHub_consistent (redis : RedisClient) (Send : Client → Chan) :
    (NewHub redis Send).Consistent := by
  refine ⟨List.nodup_nil, ?_, ?_, ?_, ?_, ?_, ?_⟩ <;>
    simp [NewHub, Hub.userSet, mapGet]

/-! ## Lemmas: the presence set -/

theorem Hub.PresenceExact.addClient {h : Hub} (hp : h.PresenceExact) (c : Client) :
    (h.withClient c).PresenceExact := by
  intro str
  by_cases hn : c.UserID = uuid.Nil
  · have h1 : (h.withClient c).presence = h.presence := by
      simp [Hub.presence, Hub.withClient, hn]
    have h2 : (h.withClient c).userClients = h.userClients := by
      simp [Hub.withClient, registeredUsers, hn]
    rw [h1, h2]
    exact hp str
  · have h1 : (h.withClient c).presence = setAdd h.presence c.UserID.String := by
      simp [Hub.presence, Hub.withClient, hn, RedisClient.SAdd]
    rw [h1, mem_setAdd, hp str]
    simp only [Hub.withClient, mapGet_registeredUsers]
    constructor
    · rintro (rfl | ⟨u, hu, hg⟩)
      · exact ⟨c.UserID, rfl, by simp [hn]⟩
      · refine ⟨u, hu, ?_⟩
        split
        · simp
        · exact hg
    · rintro ⟨u, hu, hg⟩
      by_cases huc : u = c.UserID
      · left
        rw [← hu, huc]
      · right
        refine ⟨u, hu, ?_⟩
        simpa [huc] using hg

theorem Hub.PresenceExact.dropClient {h : Hub} (hp : h.PresenceExact) (c : Client) :
    (h.withoutClient c).PresenceExact := by
  intro str
  by_cases hn : c.UserID = uuid.Nil
  · have h1 : (h.withoutClient c).presence = h.presence := by
      simp [Hub.presence, Hub.withoutClient, hn]
    have h2 : (h.withoutClient c).userClients = h.userClients := by
      simp [Hub.withoutClient, unregisteredUsers, hn]
    rw [h1, h2]
    exact hp str
  · cases hg : mapGet h.userClients c.UserID with
    | none =>
      have h1 : (h.withoutClient c).presence = h.presence := by
        simp [Hub.presence, Hub.withoutClient, hn, hg]
      have h2 : (h.withoutClient c).userClients = h.userClients := by
        simp [Hub.withoutClient, unregisteredUsers, hn, hg]
      rw [h1, h2]
      exact hp str
    | some set =>
      by_cases he : setDelete set c = []
      · have h1 : (h.withoutClient c).presence = setDelete h.presence c.UserID.String := by
          simp [Hub.presence, Hub.withoutClient, hn, hg, he, RedisClient.SRem]
        have h2 : (h.withoutClient c).userClients = mapDelete h.userClients c.UserID := by
          simp [Hub.withoutClient, unregisteredUsers, hn, hg, he]
        rw [h1, h2, mem_setDelete, hp str]
        constructor
        · rintro ⟨⟨u, hu, hgu⟩, hne⟩
          have huc : c.UserID ≠ u := by
            rintro rfl
            exact hne hu.symm
          exact ⟨u, hu, by rwa [mapGet_mapDelete_ne _ huc]⟩
        · rintro ⟨u, hu, hgu⟩
          have huc : c.UserID ≠ u := by
            rintro rfl
            exact hgu (mapGet_mapDelete_self _ _)
          rw [mapGet_mapDelete_ne _ huc] at hgu
          refine ⟨⟨u, hu, hgu⟩, ?_⟩
          intro hs
          exact huc (UUID.String_injective (hu.trans hs)).symm
      · have h1 : (h.withoutClient c).presence = h.presence := by
          simp [Hub.presence, Hub.withoutClient, hn, hg, he]
        have h2 : (h.withoutClient c).userClients =
            mapSet h.userClients c.UserID (setDelete set c) := by
          simp [Hub.withoutClient, unregisteredUsers, hn, hg, he]
        rw [h1, h2, hp str]
        constructor
        · rintro ⟨u, hu, hgu⟩
          refine ⟨u, hu, ?_⟩
          by_cases huc : c.UserID = u
          · subst huc
            simp [mapGet_mapSet_self]
          · rwa [mapGet_mapSet_ne _ _ huc]
        · rintro ⟨u, hu, hgu⟩
          refine ⟨u, hu, ?_⟩
          by_cases huc : c.UserID = u
          · subst huc
            simp [hg]
          · rwa [mapGet_mapSet_ne _ _ huc] at hgu

theorem Hub.PresenceExact.carry {h h' : Hub} (hp : h.PresenceExact)
    (hu : h'.userClients = h.userClients) (hr : h'.redis = h.redis) : h'.PresenceExact := by
  intro str
  simp only [Hub.presence, hu, hr]
  exact hp str

theorem Hub.PresenceExact.applyReg {h h' : Hub} (hc : h.Consistent) (hp : h.PresenceExact)
    {op : RegOp} (e : h.applyReg op = .ok h') : h'.PresenceExact := by
  cases op with
  | register c =>
    simp only [Hub.applyReg, Hub.registerClient_eq] at e
    obtain ⟨-, -, hu, -, hr, -, -⟩ := Hub.broadcastOnlineCount_ok e
    exact (hp.addClient c).carry hu hr
  | unregister c =>
    simp only [Hub.applyReg] at e
    by_cases hm : c ∈ h.clients
    · rw [Hub.unregisterClient_eq h c hm (hc.clients_open c hm)] at e
      obtain ⟨-, -, hu, -, hr, -, -⟩ := Hub.broadcastOnlineCount_ok e
      exact (hp.dropClient c).carry hu hr
    · rw [Hub.unregisterClient_not_mem h c hm] at e
      cases e
      exact hp

theorem Hub.PresenceExact.runRegs :
    ∀ (ops : List RegOp) {h h' : Hub}, h.Consistent → h.PresenceExact →
      h.runReg ops = .ok h' → h'.PresenceExact
  | [], h, h', _, hp, e => by
    simp only [Hub.runReg] at e
    cases e
    exact hp
  | op :: ops, h, h', hc, hp, e => by
    simp only [Hub.runReg] at e
    cases e1 : h.applyReg op with
    | error p => simp [e1] at e
    | ok h1 =>
      simp only [e1] at e
      have h1c : h1.Consistent := Hub.Consistent.runReg [op] hc (by simp [Hub.runReg, e1])
      exact Hub.PresenceExact.runRegs ops h1c (hp.applyReg hc e1) e

/-! ## The registry invariant (C1) -/

/-- C1: starting from an empty hub, after every prefix of every sequence of
registerClient / unregisterClient operations, a connection with a known
principal is in `h.clients` if and only if it is in
`h.userClients[c.UserID]`. -/
theorem C1_registry_invariant (redis : RedisClient) (Send : Client → Chan)
    (ops : List RegOp) (n : Nat) (h : Hub)
    (hrun : (NewHub redis Send).runReg (ops.take n) = .ok h)
    (c : Client) (hc : c.UserID ≠ uuid.Nil) :
    c ∈ h.clients ↔ c ∈ h.userSet c.UserID :=
  ((NewHub_consistent redis Send).runReg _ hrun).user_iff c hc

set_option maxRecDepth 4000 in
theorem C1_registry_invariant_witness :
    hub0.runReg
        ([RegOp.register conn1, .register conn2, .register conn4, .unregister conn1,
          .unregister conn2].take 4) =
        .ok (hubOr hub0 (hub0.runReg [.register conn1, .register conn2, .register conn4,
          .unregister conn1])) ∧
      conn2.UserID ≠ uuid.Nil ∧
      (conn2 ∈ (hubOr hub0 (hub0.runReg [.register conn1, .register conn2, .register conn4,
          .unregister conn1])).clients ↔
        conn2 ∈ (hubOr hub0 (hub0.runReg [.register conn1, .register conn2, .register conn4,
          .unregister conn1])).userSet conn2.UserID) :=
  ⟨rfl, by decide,
    C1_registry_invariant RedisClient.empty freshSend
      [.register conn1, .register conn2, .register conn4, .unregister conn1,
        .unregister conn2] 4 _ rfl conn2 (by decide)⟩

/-! ## Presence on a single hub (C4) -/

theorem Hub.PresenceExact.mem_iff {h : Hub} (hc : h.Consistent) (hp : h.PresenceExact)
    (P : UUID) : P.String ∈ h.presence ↔ h.userSet P ≠ [] := by
  rw [hp P.String]
  constructor
  · rintro ⟨u, hu, hg⟩
    have := UUID.String_injective hu
    subst this
    cases hg' : mapGet h.userClients u with
    | none => exact absurd hg' hg
    | some set => simpa [Hub.userSet, hg'] using hc.entry_ne u set hg'
  · intro hne
    refine ⟨P, rfl, ?_⟩
    intro hg
    simp [Hub.userSet, hg] at hne

/-- C4: for a single hub starting with an empty registry and an empty presence
set, after every sequence of registerClient / unregisterClient operations a
principal `P` is a member of the presence set `online:users` if and only if
`h.userClients[P]` is non-empty. -/
theorem C4_presence_iff_user_set (redis : RedisClient) (Send : Client → Chan)
    (hempty : redis.sets "online:users" = [])
    (ops : List RegOp) (h : Hub) (hrun : (NewHub redis Send).runReg ops = .ok h)
    (P : UUID) : P.String ∈ h.presence ↔ h.userSet P ≠ [] := by
  have hc0 := NewHub_consistent redis Send
  have hp0 : (NewHub redis Send).PresenceExact := by
    intro str
    simp [Hub.presence, NewHub, hempty, mapGet]
  exact (hp0.runRegs ops hc0 hrun).mem_iff (hc0.runReg ops hrun) P

set_option maxRecDepth 4000 in
theorem C4_presence_iff_user_set_witness :
    RedisClient.empty.sets "online:users" = [] ∧
      hub0.runReg [.register conn1, .register conn3, .register conn2, .unregister conn3,
          .unregister conn1] =
        .ok (hubOr hub0 (hub0.runReg [.register conn1, .register conn3, .register conn2,
          .unregister conn3, .unregister conn1])) ∧
      (alice.String ∈ (hubOr hub0 (hub0.runReg [.register conn1, .register conn3,
          .register conn2, .unregister conn3, .unregister conn1])).presence ↔
        (hubOr hub0 (hub0.runReg [.register conn1, .register conn3, .register conn2,
          .unregister conn3, .unregister conn1])).userSet alice ≠ []) :=
  ⟨rfl, rfl,
    C4_presence_iff_user_set RedisClient.empty freshSend rfl
      [.register conn1, .register conn3, .register conn2, .unregister conn3,
        .unregister conn1] _ rfl alice⟩

/-! ## Idempotent unregister (C7) -/

/-- C7: unregisterClient is idempotent on the whole hub state: running it a
second time on its own result gives that result again (and a first call that
panics is the same panic either way), and for a connection that is not in
`h.clients` it returns the state it was given, so no frame is sent and no
queue is closed. -/
theorem C7_unregister_idempotent (s : Hub) (c : Client) :
    (match s.unregisterClient c with
      | .ok s' => s'.unregisterClient c
      | .error p => .error p) = s.unregisterClient c ∧
      (c ∉ s.clients → s.unregisterClient c = .ok s) := by
  refine ⟨?_, Hub.unregisterClient_not_mem s c⟩
  cases e : s.unregisterClient c with
  | error p => rfl
  | ok s' =>
    show s'.unregisterClient c = .ok s'
    apply Hub.unregisterClient_not_mem
    by_cases hm : c ∈ s.clients
    · cases hcl : (s.Send c).closed with
      | true =>
        rw [Hub.unregisterClient_closed s c hm hcl] at e
        cases e
      | false =>
        rw [Hub.unregisterClient_eq s c hm hcl] at e
        obtain ⟨-, hcl', -⟩ := Hub.broadcastOnlineCount_ok e
        rw [hcl']
        show c ∉ setDelete s.clients c
        simp [mem_setDelete]
    · rw [Hub.unregisterClient_not_mem s c hm] at e
      cases e
      exact hm

set_option maxRecDepth 4000 in
theorem C7_unregister_idempotent_witness :
    conn2 ∉ (hubOr hub0 (hub0.registerClient conn1)).clients ∧
      (hubOr hub0 (hub0.registerClient conn1)).unregisterClient conn2 =
        .ok (hubOr hub0 (hub0.registerClient conn1)) :=
  ⟨by decide,
    (C7_unregister_idempotent (hubOr hub0 (hub0.registerClient conn1)) conn2).2 (by decide)⟩

/-! ## Register and unregister on a consistent hub -/

/-- On a duplicate-free registry of open queues the online-count broadcast
completes: it appends one frame to every registered queue with room and
changes nothing else. -/
theorem Hub.broadcastOnlineCount_spec (h : Hub) (nd : h.clients.Nodup)
    (ho : ∀ c ∈ h.clients, (h.Send c).closed = false) :
    ∃ h', h.broadcastOnlineCount = .ok h' ∧ h'.clients = h.clients ∧
      h'.userClients = h.userClients ∧ h'.broadcast = h.broadcast ∧ h'.redis = h.redis ∧
      ∀ c, h'.Send c =
        if c ∈ h.clients ∧ (h.Send c).hasRoom = true then
          (h.Send c).push (onlineCountFrame (h.redis.SCard "online:users"))
        else h.Send c := by
  obtain ⟨h', e, hs⟩ := forRange_sendOrSkip_spec
    (onlineCountFrame (h.redis.SCard "online:users")) h.clients h nd ho
  have e' : h.broadcastOnlineCount = .ok h' := by
    rw [Hub.broadcastOnlineCount_eq]; exact e
  obtain ⟨-, hcl, hu, hb, hr, -, -⟩ := Hub.broadcastOnlineCount_ok e'
  exact ⟨h', e', hcl, hu, hb, hr, hs⟩

theorem Hub.registerClient_spec {h : Hub} (hc : h.Consistent) (c : Client)
    (ho : (h.Send c).closed = false) :
    ∃ h', h.registerClient c = .ok h' ∧ h'.Consistent ∧
      h'.clients = setAdd h.clients c ∧
      h'.userClients = registeredUsers h.userClients c ∧
      h'.redis = (h.withClient c).redis ∧
      ∀ d, h'.Send d =
        if d ∈ setAdd h.clients c ∧ (h.Send d).hasRoom = true then
          (h.Send d).push (onlineCountFrame ((h.withClient c).redis.SCard "online:users"))
        else h.Send d := by
  have hw := hc.withClient c ho
  obtain ⟨h', e, hcl, hu, -, hr, hs⟩ :=
    Hub.broadcastOnlineCount_spec (h.withClient c) hw.clients_nodup hw.clients_open
  have e' : h.registerClient c = .ok h' := by
    rw [Hub.registerClient_eq]; exact e
  exact ⟨h', e', hc.registerClient e', hcl, hu, hr, hs⟩

theorem Hub.unregisterClient_spec {h : Hub} (hc : h.Consistent) (c : Client)
    (hm : c ∈ h.clients) :
    ∃ h', h.unregisterClient c = .ok h' ∧ h'.Consistent ∧
      h'.clients = setDelete h.clients c ∧
      h'.userClients = unregisteredUsers h.userClients c ∧
      h'.redis = (h.withoutClient c).redis ∧
      ∀ d, h'.Send d =
        if d ∈ setDelete h.clients c ∧ (h.Send d).hasRoom = true then
          (h.Send d).push (onlineCountFrame ((h.withoutClient c).redis.SCard "online:users"))
        else if d = c then (h.Send c).shut
        else h.Send d := by
  have hw := hc.withoutClient c
  obtain ⟨h', e, hcl, hu, -, hr, hs⟩ :=
    Hub.broadcastOnlineCount_spec (h.withoutClient c) hw.clients_nodup hw.clients_open
  have e' : h.unregisterClient c = .ok h' := by
    rw [Hub.unregisterClient_eq h c hm (hc.clients_open c hm)]; exact e
  refine ⟨h', e', hc.unregisterClient e', hcl, hu, hr, ?_⟩
  intro d
  rw [hs d]
  by_cases hd : d = c
  · subst hd
    have : d ∉ setDelete h.clients d := by simp [mem_setDelete]
    simp [Hub.withoutClient, this]
  · simp [Hub.withoutClient, hd]

/-! ## Register, then unregister twice (C8) -/

theorem unregisteredUsers_registeredUsers {h : Hub} (hc : h.Consistent) {c : Client}
    (hm : c ∉ h.clients) :
    unregisteredUsers (registeredUsers h.userClients c) c = h.userClients := by
  by_cases hn : c.UserID = uuid.Nil
  · simp [unregisteredUsers, registeredUsers, hn]
  · have hreg : registeredUsers h.userClients c =
        mapSet h.userClients c.UserID
          (setAdd ((mapGet h.userClients c.UserID).getD []) c) := by
      simp [registeredUsers, hn]
    unfold unregisteredUsers
    rw [if_neg hn, hreg, mapGet_mapSet_self]
    cases hg : mapGet h.userClients c.UserID with
    | none =>
      have hd : setDelete (setAdd ([] : List Client) c) c = [] :=
        setDelete_setAdd (List.not_mem_nil c)
      simp only [Option.getD_none, hd, if_true, mapDelete_mapSet]
      exact mapDelete_of_mapGet_none _ _ hg
    | some set =>
      have hcs : c ∉ set := fun hin => hm (hc.mem_of_entry hg hin).1
      have hd : setDelete (setAdd set c) c = set := setDelete_setAdd hcs
      simp only [Option.getD_some, hd, if_neg (hc.entry_ne _ _ hg), mapSet_mapSet]
      exact mapSet_of_mapGet _ _ _ hg

/-- C8: for every hub state reachable by registerClient / unregisterClient and
every fresh connection (not registered, its queue open): registering it and
then unregistering it twice succeeds at each step and yields `h.clients` and
`h.userClients` equal to those of the state before. -/
theorem C8_register_unregister_twice (redis : RedisClient) (Send : Client → Chan)
    (ops : List RegOp) (s : Hub) (hrun : (NewHub redis Send).runReg ops = .ok s)
    (c : Client) (hfresh : c ∉ s.clients) (hopen : (s.Send c).closed = false) :
    ∃ s1 s2 s3, s.registerClient c = .ok s1 ∧ s1.unregisterClient c = .ok s2 ∧
      s2.unregisterClient c = .ok s3 ∧
      s3.clients = s.clients ∧ s3.userClients = s.userClients := by
  have hc := (NewHub_consistent redis Send).runReg ops hrun
  obtain ⟨s1, e1, hc1, hcl1, hu1, -, -⟩ := Hub.registerClient_spec hc c hopen
  have hm1 : c ∈ s1.clients := by
    rw [hcl1]; exact mem_setAdd.mpr (Or.inl rfl)
  obtain ⟨s2, e2, -, hcl2, hu2, -, -⟩ := Hub.unregisterClient_spec hc1 c hm1
  have hcl : s2.clients = s.clients := by
    rw [hcl2, hcl1]; exact setDelete_setAdd hfresh
  have hm2 : c ∉ s2.clients := by
    rw [hcl]; exact hfresh
  refine ⟨s1, s2, s2, e1, e2, Hub.unregisterClient_not_mem s2 c hm2, hcl, ?_⟩
  rw [hu2, hu1]
  exact unregisteredUsers_registeredUsers hc hfresh

set_option maxRecDepth 4000 in
theorem C8_register_unregister_twice_witness :
    hub0.runReg [.register conn1, .register conn3] =
        .ok (hubOr hub0 (hub0.runReg [.register conn1, .register conn3])) ∧
      conn2 ∉ (hubOr hub0 (hub0.runReg [.register conn1, .register conn3])).clients ∧
      ((hubOr hub0 (hub0.runReg [.register conn1, .register conn3])).Send conn2).closed =
        false ∧
      ∃ s1 s2 s3,
        (hubOr hub0 (hub0.runReg [.register conn1, .register conn3])).registerClient conn2 =
          .ok s1 ∧
        s1.unregisterClient conn2 = .ok s2 ∧ s2.unregisterClient conn2 = .ok s3 ∧
        s3.clients = (hubOr hub0 (hub0.runReg [.register conn1, .register conn3])).clients ∧
        s3.userClients =
          (hubOr hub0 (hub0.runReg [.register conn1, .register conn3])).userClients :=
  ⟨rfl, by decide, by decide,
    C8_register_unregister_twice RedisClient.empty freshSend
      [.register conn1, .register conn3] _ rfl conn2 (by decide) (by decide)⟩

/-! ## Eviction of a connection with a full queue (C2, C3, C5)

`SendToUser` and `broadcastMessage` close the queue of a connection that has
no room and delete it from `h.clients`, but leave it in `h.userClients`. -/

set_option maxRecDepth 100000 in
/-- C2 (evaluation at the failing input): `conn1` registers once, 255
notifications fill its queue, the next notification evicts it, and the one
after that sends on its closed queue: the run ends in the send-on-closed
panic. -/
theorem C2_send_on_closed_after_eviction :
    panicOf (hub0.run fillOps) = none ∧
      (hubFull.Send conn1).buf.length = 256 ∧ (hubFull.Send conn1).closed = false ∧
      panicOf (hubFull.run [.sendToUser alice note]) = none ∧
      panicOf (hubFull.run [.sendToUser alice note, .sendToUser alice note]) =
        some Panic.sendOnClosed := by
  decide

set_option maxRecDepth 100000 in
/-- C3 (evaluation at the failing input): when `SendToUser`, or the broadcast
fan-out, finds the queue of `conn1` full, it closes the queue and removes
`conn1` from `h.clients`, and `conn1` stays in `h.userClients[alice]`, whose
entry stays in the map. -/
theorem C3_eviction_keeps_user_entry :
    conn1 ∈ hubFull.clients ∧ (hubFull.Send conn1).hasRoom = false ∧
      (hubFull.Send conn1).closed = false ∧
      panicOf (hubFull.SendToUser alice note) = none ∧
      ((hubOr hub0 (hubFull.SendToUser alice note)).Send conn1).closed = true ∧
      conn1 ∉ (hubOr hub0 (hubFull.SendToUser alice note)).clients ∧
      conn1 ∈ (hubOr hub0 (hubFull.SendToUser alice note)).userSet alice ∧
      panicOf (hubFull.broadcastMessage "\x7b\x7d") = none ∧
      ((hubOr hub0 (hubFull.broadcastMessage "\x7b\x7d")).Send conn1).closed = true ∧
      conn1 ∉ (hubOr hub0 (hubFull.broadcastMessage "\x7b\x7d")).clients ∧
      conn1 ∈ (hubOr hub0 (hubFull.broadcastMessage "\x7b\x7d")).userSet alice := by
  decide

set_option maxRecDepth 100000 in
/-- C5 (evaluation at the failing input): after `conn1` has been evicted for a
full queue, `unregisterClient conn1` returns without a change: `conn1` is
still in `h.userClients[alice]` and `alice` is still in the presence set,
although no connection is registered any more. -/
theorem C5_unregister_after_eviction :
    panicOf (hubFull.run [.sendToUser alice note, .unregister conn1]) = none ∧
      (hubOr hub0 (hubFull.run [.sendToUser alice note, .unregister conn1])).clients = [] ∧
      conn1 ∈ (hubOr hub0
        (hubFull.run [.sendToUser alice note, .unregister conn1])).userSet alice ∧
      mapGet (hubOr hub0
        (hubFull.run [.sendToUser alice note, .unregister conn1])).userClients alice ≠ none ∧
      (hubOr hub0
        (hubFull.run [.sendToUser alice note, .unregister conn1])).IsUserOnline alice = true := by
  decide

/-! ## Two hubs sharing the presence set (C6) -/

theorem Hub.PresenceWithin.insertClient {h : Hub} {other : UUID → Prop}
    (hp : h.PresenceWithin other) (c : Client) : (h.withClient c).PresenceWithin other := by
  intro str hs
  have keep : ∀ u, mapGet h.userClients u ≠ none →
      mapGet (h.withClient c).userClients u ≠ none := by
    intro u hu
    simp only [Hub.withClient, mapGet_registeredUsers]
    split
    · simp
    · exact hu
  have old : str ∈ h.presence →
      ∃ u : UUID, u.String = str ∧ (mapGet (h.withClient c).userClients u ≠ none ∨ other u) := by
    intro hs'
    obtain ⟨u, hu, hg | ho⟩ := hp str hs'
    · exact ⟨u, hu, Or.inl (keep u hg)⟩
    · exact ⟨u, hu, Or.inr ho⟩
  by_cases hn : c.UserID = uuid.Nil
  · have h1 : (h.withClient c).presence = h.presence := by
      simp [Hub.presence, Hub.withClient, hn]
    exact old (h1 ▸ hs)
  · have h1 : (h.withClient c).presence = setAdd h.presence c.UserID.String := by
      simp [Hub.presence, Hub.withClient, hn, RedisClient.SAdd]
    rw [h1, mem_setAdd] at hs
    rcases hs with rfl | hs
    · refine ⟨c.UserID, rfl, Or.inl ?_⟩
      simp [Hub.withClient, mapGet_registeredUsers, hn]
    · exact old hs

theorem Hub.PresenceWithin.removeClient {h : Hub} {other : UUID → Prop}
    (hp : h.PresenceWithin other) (c : Client) :
    (h.withoutClient c).PresenceWithin other := by
  intro str hs
  by_cases hn : c.UserID = uuid.Nil
  · have h1 : (h.withoutClient c).presence = h.presence := by
      simp [Hub.presence, Hub.withoutClient, hn]
    have h2 : (h.withoutClient c).userClients = h.userClients := by
      simp [Hub.withoutClient, unregisteredUsers, hn]
    rw [h2]
    exact hp str (h1 ▸ hs)
  · cases hg : mapGet h.userClients c.UserID with
    | none =>
      have h1 : (h.withoutClient c).presence = h.presence := by
        simp [Hub.presence, Hub.withoutClient, hn, hg]
      have h2 : (h.withoutClient c).userClients = h.userClients := by
        simp [Hub.withoutClient, unregisteredUsers, hn, hg]
      rw [h2]
      exact hp str (h1 ▸ hs)
    | some set =>
      by_cases he : setDelete set c = []
      · have h1 : (h.withoutClient c).presence = setDelete h.presence c.UserID.String := by
          simp [Hub.presence, Hub.withoutClient, hn, hg, he, RedisClient.SRem]
        have h2 : (h.withoutClient c).userClients = mapDelete h.userClients c.UserID := by
          simp [Hub.withoutClient, unregisteredUsers, hn, hg, he]
        rw [h1, mem_setDelete] at hs
        obtain ⟨u, hu, hgu | ho⟩ := hp str hs.1
        · have huc : c.UserID ≠ u := by
            rintro rfl
            exact hs.2 hu.symm
          exact ⟨u, hu, Or.inl (by rwa [h2, mapGet_mapDelete_ne _ huc])⟩
        · exact ⟨u, hu, Or.inr ho⟩
      · have h1 : (h.withoutClient c).presence = h.presence := by
          simp [Hub.presence, Hub.withoutClient, hn, hg, he]
        have h2 : (h.withoutClient c).userClients =
            mapSet h.userClients c.UserID (setDelete set c) := by
          simp [Hub.withoutClient, unregisteredUsers, hn, hg, he]
        obtain ⟨u, hu, hgu | ho⟩ := hp str (h1 ▸ hs)
        · refine ⟨u, hu, Or.inl ?_⟩
          rw [h2]
          by_cases huc : c.UserID = u
          · subst huc
            simp [mapGet_mapSet_self]
          · rwa [mapGet_mapSet_ne _ _ huc]
        · exact ⟨u, hu, Or.inr ho⟩

theorem Hub.PresenceWithin.step {h h' : Hub} {other : UUID → Prop} (hc : h.Consistent)
    (hp : h.PresenceWithin other) {op : RegOp} (e : h.applyReg op = .ok h') :
    h'.PresenceWithin other := by
  have carry : ∀ g : Hub, g.PresenceWithin other → h'.userClients = g.userClients →
      h'.redis = g.redis → h'.PresenceWithin other := by
    intro g hg hu hr str hs
    simp only [Hub.presence, hr] at hs
    rw [hu]
    exact hg str hs
  cases op with
  | register c =>
    simp only [Hub.applyReg, Hub.registerClient_eq] at e
    obtain ⟨-, -, hu, -, hr, -, -⟩ := Hub.broadcastOnlineCount_ok e
    exact carry _ (hp.insertClient c) hu hr
  | unregister c =>
    simp only [Hub.applyReg] at e
    by_cases hm : c ∈ h.clients
    · rw [Hub.unregisterClient_eq h c hm (hc.clients_open c hm)] at e
      obtain ⟨-, -, hu, -, hr, -, -⟩ := Hub.broadcastOnlineCount_ok e
      exact carry _ (hp.removeClient c) hu hr
    · rw [Hub.unregisterClient_not_mem h c hm] at e
      cases e
      exact hp

/-- What holds of two hubs on one server after any run: both registries are
consistent, and every member of the shared presence set is the string form of
a key of one of the two `userClients` maps. -/
theorem Cluster.runReg_sound :
    ∀ (ops : List (Side × RegOp)) {k k' : Cluster},
      (k.hub .a).Consistent → (k.hub .b).Consistent →
      (∀ str : String, str ∈ k.presence → ∃ u : UUID, u.String = str ∧
        (mapGet k.a.userClients u ≠ none ∨ mapGet k.b.userClients u ≠ none)) →
      k.runReg ops = .ok k' →
      (k'.hub .a).Consistent ∧ (k'.hub .b).Consistent ∧
        ∀ str : String, str ∈ k'.presence → ∃ u : UUID, u.String = str ∧
          (mapGet k'.a.userClients u ≠ none ∨ mapGet k'.b.userClients u ≠ none)
  | [], k, k', ha, hb, hp, e => by
    simp only [Cluster.runReg] at e
    cases e
    exact ⟨ha, hb, hp⟩
  | (side, op) :: ops, k, k', ha, hb, hp, e => by
    simp only [Cluster.runReg] at e
    cases e1 : k.applyReg side op with
    | error p => simp [e1] at e
    | ok k1 =>
      simp only [e1] at e
      unfold Cluster.applyReg at e1
      cases e2 : (k.hub side).applyReg op with
      | error p => simp [e2] at e1
      | ok h =>
        simp only [e2] at e1
        cases side with
        | a =>
          simp only [Except.ok.injEq] at e1
          subst e1
          have hc : h.Consistent := Hub.Consistent.runReg [op] ha (by simp [Hub.runReg, e2])
          have hw : (k.hub .a).PresenceWithin (fun u => mapGet k.b.userClients u ≠ none) := hp
          have hw' := hw.step ha e2
          refine Cluster.runReg_sound ops ?_ ?_ ?_ e
          · exact hc.transport rfl rfl (fun _ => rfl)
          · exact hb.transport rfl rfl (fun _ => rfl)
          · exact hw'
        | b =>
          simp only [Except.ok.injEq] at e1
          subst e1
          have hc : h.Consistent := Hub.Consistent.runReg [op] hb (by simp [Hub.runReg, e2])
          have hw : (k.hub .b).PresenceWithin (fun u => mapGet k.a.userClients u ≠ none) := by
            intro str hs
            obtain ⟨u, hu, hg⟩ := hp str hs
            exact ⟨u, hu, hg.symm⟩
          have hw' := hw.step hb e2
          refine Cluster.runReg_sound ops ?_ ?_ ?_ e
          · exact ha.transport rfl rfl (fun _ => rfl)
          · exact hc.transport rfl rfl (fun _ => rfl)
          · intro str hs
            obtain ⟨u, hu, hg⟩ := hw' str hs
            exact ⟨u, hu, hg.symm⟩

set_option maxRecDepth 4000 in
/-- C6 (counterexample): hub `a` registers `conn1` and hub `b` registers
`conn2`, both of `alice`; when hub `a` unregisters `conn1`, `alice` leaves the
shared presence set although hub `b` still holds `conn2`. -/
theorem C6_shared_presence_counterexample :
    panicOf (cluster0.runReg clusterOps) = none ∧
      conn2 ∈ (clusterOr cluster0 (cluster0.runReg clusterOps)).b.clients ∧
      conn2.UserID = alice ∧
      ¬ (alice.String ∈ (clusterOr cluster0 (cluster0.runReg clusterOps)).presence ↔
          ((clusterOr cluster0 (cluster0.runReg clusterOps)).a.userSet alice ≠ [] ∨
           (clusterOr cluster0 (cluster0.runReg clusterOps)).b.userSet alice ≠ [])) := by
  decide

/-- C6 (amended): for two hubs sharing one presence set, both starting empty
on an empty presence set, after every sequence of registerClient /
unregisterClient operations on either hub: if a principal `P` is in the shared
presence set then one of the two hubs has a registered connection of `P`. -/
theorem C6_shared_presence_sound (redis : RedisClient) (SendA SendB : Client → Chan)
    (hempty : redis.sets "online:users" = [])
    (ops : List (Side × RegOp)) (k : Cluster)
    (hrun : (NewCluster redis SendA SendB).runReg ops = .ok k)
    (P : UUID) (hP : P.String ∈ k.presence) :
    ∃ c : Client, c.UserID = P ∧ (c ∈ k.a.clients ∨ c ∈ k.b.clients) := by
  have h0 : ∀ Send, ((NewCluster redis SendA SendB).hub .a).Consistent ∧
      ({ NewHub redis Send with redis := redis } : Hub).Consistent :=
    fun Send => ⟨NewHub_consistent redis SendA, NewHub_consistent redis Send⟩
  obtain ⟨ha, hb, hp⟩ := Cluster.runReg_sound ops (h0 SendA).1 (h0 SendB).2
    (by intro str hs; simp [Cluster.presence, NewCluster, hempty] at hs) hrun
  obtain ⟨u, hu, hg⟩ := hp P.String hP
  have := UUID.String_injective hu
  subst this
  have pick : ∀ side : Side, mapGet (k.hub side).userClients u ≠ none →
      (k.hub side).Consistent → ∃ c : Client, c.UserID = u ∧ c ∈ (k.hub side).clients := by
    intro side hne hc
    cases hg' : mapGet (k.hub side).userClients u with
    | none => exact absurd hg' hne
    | some set =>
      obtain ⟨c, hcm⟩ := List.exists_mem_of_ne_nil set (hc.entry_ne u set hg')
      obtain ⟨h1, h2, -⟩ := hc.mem_of_entry hg' hcm
      exact ⟨c, h2, h1⟩
  rcases hg with hg | hg
  · obtain ⟨c, h1, h2⟩ := pick .a hg ha
    exact ⟨c, h1, Or.inl h2⟩
  · obtain ⟨c, h1, h2⟩ := pick .b hg hb
    exact ⟨c, h1, Or.inr h2⟩

set_option maxRecDepth 4000 in
theorem C6_shared_presence_sound_witness :
    RedisClient.empty.sets "online:users" = [] ∧
      cluster0.runReg [(.a, .register conn1), (.b, .register conn2)] =
        .ok (clusterOr cluster0 (cluster0.runReg [(.a, .register conn1), (.b, .register conn2)])) ∧
      alice.String ∈
        (clusterOr cluster0
          (cluster0.runReg [(.a, .register conn1), (.b, .register conn2)])).presence ∧
      ∃ c : Client, c.UserID = alice ∧
        (c ∈ (clusterOr cluster0
            (cluster0.runReg [(.a, .register conn1), (.b, .register conn2)])).a.clients ∨
          c ∈ (clusterOr cluster0
            (cluster0.runReg [(.a, .register conn1), (.b, .register conn2)])).b.clients) :=
  ⟨rfl, rfl, by decide,
    C6_shared_presence_sound RedisClient.empty freshSend freshSend rfl
      [(.a, .register conn1), (.b, .register conn2)] _ rfl alice (by decide)⟩

/-! ## Per-user delivery (C10) -/

theorem Hub.sendOrEvict_of_open (data : Bytes) {h : Hub} {c : Client}
    (ho : (h.Send c).closed = false) :
    ∃ h', Hub.sendOrEvict data h c = .ok h' ∧ h'.userClients = h.userClients ∧
      h'.broadcast = h.broadcast ∧ h'.redis = h.redis ∧
      h'.clients = (if (h.Send c).hasRoom = true then h.clients else setDelete h.clients c) ∧
      (∀ d, d ≠ c → h'.Send d = h.Send d) ∧
      h'.Send c = if (h.Send c).hasRoom = true then (h.Send c).push data
        else (h.Send c).shut := by
  unfold Hub.sendOrEvict Chan.trySend Chan.close
  cases hr : (h.Send c).hasRoom
  · refine ⟨_, by simp only [ho, hr]; rfl, ?_⟩
    simp [Hub.setSend]
    intro d hd
    simp [hd]
  · refine ⟨_, by simp only [ho, hr]; rfl, ?_⟩
    simp [Hub.setSend]
    intro d hd
    simp [hd]

/-- On a duplicate-free list of open queues the evicting fan-out completes: a
listed queue with room gets the frame, a listed queue without room is closed
and its connection deleted from `h.clients`; `h.userClients` is not touched. -/
theorem forRange_sendOrEvict_spec (data : Bytes) :
    ∀ (l : List Client) (h : Hub), l.Nodup → (∀ c ∈ l, (h.Send c).closed = false) →
      ∃ h', forRange (Hub.sendOrEvict data) l h = .ok h' ∧
        h'.userClients = h.userClients ∧ h'.broadcast = h.broadcast ∧ h'.redis = h.redis ∧
        (∀ c, c ∈ h'.clients ↔
          c ∈ h.clients ∧ ¬ (c ∈ l ∧ (h.Send c).hasRoom = false)) ∧
        ∀ c, h'.Send c =
          if c ∈ l then
            if (h.Send c).hasRoom = true then (h.Send c).push data else (h.Send c).shut
          else h.Send c
  | [], h, _, _ => ⟨h, rfl, rfl, rfl, rfl, by simp, by simp⟩
  | a :: l, h, nd, ho => by
    obtain ⟨h1, e1, hu1, hb1, hr1, hcl1, hne1, hself1⟩ :=
      Hub.sendOrEvict_of_open data (ho a (List.mem_cons_self _ _))
    have nd' := List.nodup_cons.mp nd
    have ho1 : ∀ c ∈ l, (h1.Send c).closed = false := by
      intro c hc
      have : c ≠ a := fun e => nd'.1 (e ▸ hc)
      rw [hne1 c this]
      exact ho c (List.mem_cons_of_mem _ hc)
    obtain ⟨h2, e2, hu2, hb2, hr2, hcl2, hs2⟩ :=
      forRange_sendOrEvict_spec data l h1 nd'.2 ho1
    refine ⟨h2, by simp [forRange, e1, e2], hu2.trans hu1, hb2.trans hb1, hr2.trans hr1,
      ?_, ?_⟩
    · intro c
      rw [hcl2 c, hcl1]
      by_cases hca : c = a
      · subst hca
        cases hr : (h.Send c).hasRoom
        · simp [nd'.1, mem_setDelete]
        · simp [nd'.1, hr]
      · rw [hne1 c hca]
        cases hr : (h.Send a).hasRoom
        · simp [hca, mem_setDelete]
        · simp [hca]
    · intro c
      rw [hs2 c]
      by_cases hca : c = a
      · subst hca
        simp only [nd'.1, if_false, List.mem_cons, true_or, if_true]
        rw [hself1]
      · rw [hne1 c hca]
        simp [hca]

/-- On a consistent hub `SendToUser` of a message that serializes completes;
it runs the evicting fan-out over `h.userClients[userID]` and publishes the
frame. -/
theorem Hub.SendToUser_spec {h : Hub} (hc : h.Consistent) (userID : UUID) {msg : Message}
    {data : Bytes} (hm : jsonMarshal msg = some data) :
    ∃ h', h.SendToUser userID msg = .ok h' ∧ h'.userClients = h.userClients ∧
      h'.redis = h.redis.Publish ("ws:user:" ++ userID.String) data ∧
      (∀ c, c ∈ h'.clients ↔
        c ∈ h.clients ∧ ¬ (c ∈ h.userSet userID ∧ (h.Send c).hasRoom = false)) ∧
      ∀ c, h'.Send c =
        if c ∈ h.userSet userID then
          if (h.Send c).hasRoom = true then (h.Send c).push data else (h.Send c).shut
        else h.Send c := by
  unfold Hub.SendToUser
  simp only [hm]
  cases hg : mapGet h.userClients userID with
  | none =>
    refine ⟨_, rfl, rfl, rfl, ?_, ?_⟩ <;> simp [Hub.userSet, hg]
  | some set =>
    have ho : ∀ c ∈ set, (h.Send c).closed = false := fun c hcm =>
      hc.clients_open c (hc.mem_of_entry hg hcm).1
    obtain ⟨h1, e1, hu1, -, hr1, hcl1, hs1⟩ :=
      forRange_sendOrEvict_spec data set h (hc.entry_nodup _ _ hg) ho
    refine ⟨{ h1 with redis := h1.redis.Publish ("ws:user:" ++ userID.String) data },
      by simp only [e1], hu1, by simp [hr1], ?_, ?_⟩
    · simpa [Hub.userSet, hg] using hcl1
    · simpa [Hub.userSet, hg] using hs1

/-- C10: for every hub state reachable by registerClient / unregisterClient,
every principal `P` and every message that serializes, `SendToUser(P, m)`
returns, appends the serialized message exactly once to the outbound queue of
every connection in `h.userClients[P]` whose queue has room, and leaves
unchanged the outbound queue of every connection whose principal differs from
`P` or that is anonymous. -/
theorem C10_send_to_user_delivery (redis : RedisClient) (Send : Client → Chan)
    (ops : List RegOp) (h : Hub) (hrun : (NewHub redis Send).runReg ops = .ok h)
    (P : UUID) (m : Message) (data : Bytes) (hm : jsonMarshal m = some data) :
    ∃ h', h.SendToUser P m = .ok h' ∧
      (∀ c, c ∈ h.userSet P → (h.Send c).hasRoom = true →
        h'.Send c = (h.Send c).push data) ∧
      (∀ c : Client, c.UserID ≠ P ∨ c.UserID = uuid.Nil → h'.Send c = h.Send c) := by
  have hc := (NewHub_consistent redis Send).runReg ops hrun
  obtain ⟨h', e, -, -, -, hs⟩ := Hub.SendToUser_spec hc P hm
  refine ⟨h', e, ?_, ?_⟩
  · intro c hcm hr
    rw [hs c, if_pos hcm, if_pos hr]
  · intro c hcu
    have hnot : c ∉ h.userSet P := by
      intro hcm
      cases hg : mapGet h.userClients P with
      | none => simp [Hub.userSet, hg] at hcm
      | some set =>
        simp only [Hub.userSet, hg, Option.getD_some] at hcm
        obtain ⟨-, h1, h2⟩ := hc.mem_of_entry hg hcm
        rcases hcu with hcu | hcu
        · exact hcu h1
        · exact h2 (h1 ▸ hcu)
    rw [hs c, if_neg hnot]

set_option maxRecDepth 4000 in
theorem C10_send_to_user_delivery_witness :
    hub0.runReg [.register conn1, .register conn3, .register conn4] =
        .ok (hubOr hub0 (hub0.runReg [.register conn1, .register conn3, .register conn4])) ∧
      jsonMarshal note = some "\x7b\"type\":\"notification\",\"payload\":null\x7d" ∧
      ∃ h', (hubOr hub0 (hub0.runReg [.register conn1, .register conn3,
          .register conn4])).SendToUser alice note = .ok h' ∧
        (∀ c, c ∈ (hubOr hub0 (hub0.runReg [.register conn1, .register conn3,
            .register conn4])).userSet alice →
          ((hubOr hub0 (hub0.runReg [.register conn1, .register conn3,
            .register conn4])).Send c).hasRoom = true →
          h'.Send c = ((hubOr hub0 (hub0.runReg [.register conn1, .register conn3,
            .register conn4])).Send c).push
              "\x7b\"type\":\"notification\",\"payload\":null\x7d") ∧
        (∀ c : Client, c.UserID ≠ alice ∨ c.UserID = uuid.Nil →
          h'.Send c = (hubOr hub0 (hub0.runReg [.register conn1, .register conn3,
            .register conn4])).Send c) :=
  ⟨rfl, by decide,
    C10_send_to_user_delivery RedisClient.empty freshSend
      [.register conn1, .register conn3, .register conn4] _ rfl alice note _ (by decide)⟩

/-! ## Two connections of one principal (C9) -/

theorem Hub.IsUserOnline_iff (h : Hub) (u : UUID) :
    h.IsUserOnline u = true ↔ u.String ∈ h.presence := by
  simp [Hub.IsUserOnline, RedisClient.SIsMember, Hub.presence]

/-- C9: starting from an empty hub and an empty presence set, with two distinct
connections `c1` and `c2` of the same principal `A`, each with a fresh queue:
registering `c1` sends it one online_count frame; registering `c2` sends one
more to `c1` and one to `c2`; then `IsUserOnline(A)` is true; after
unregistering `c1` it is still true; after unregistering `c2` it is false and
`A` has no entry in `h.userClients`. -/
theorem C9_two_connections_scenario (redis : RedisClient) (Send : Client → Chan)
    (hempty : redis.sets "online:users" = [])
    (A : UUID) (hA : A ≠ uuid.Nil) (c1 c2 : Client)
    (h1 : c1.UserID = A) (h2 : c2.UserID = A) (hne : c1 ≠ c2)
    (hs1 : Send c1 = Chan.make 256) (hs2 : Send c2 = Chan.make 256) :
    ∃ s1 s2 s3 s4,
      (NewHub redis Send).registerClient c1 = .ok s1 ∧
      (s1.Send c1).buf = [onlineCountFrame 1] ∧
      s1.registerClient c2 = .ok s2 ∧
      (s2.Send c1).buf = [onlineCountFrame 1, onlineCountFrame 1] ∧
      (s2.Send c2).buf = [onlineCountFrame 1] ∧
      s2.IsUserOnline A = true ∧
      s2.unregisterClient c1 = .ok s3 ∧ s3.IsUserOnline A = true ∧
      s3.unregisterClient c2 = .ok s4 ∧ s4.IsUserOnline A = false ∧
      mapGet s4.userClients A = none := by
  subst h1
  have hne' : c2 ≠ c1 := fun e => hne e.symm
  have hc0 := NewHub_consistent redis Send
  -- register c1
  obtain ⟨s1, e1, hc1, hcl1, hu1, hr1, hsend1⟩ :=
    Hub.registerClient_spec hc0 c1 (by rw [show (NewHub redis Send).Send c1 = Send c1 from rfl, hs1]; rfl)
  have cl1 : s1.clients = [c1] := by
    rw [hcl1]; simp [NewHub, setAdd]
  have u1 : s1.userClients = [(c1.UserID, [c1])] := by
    rw [hu1]; simp [NewHub, registeredUsers, hA, mapGet, mapSet, setAdd]
  have p1 : s1.redis.sets "online:users" = [c1.UserID.String] := by
    rw [hr1]; simp [Hub.withClient, NewHub, hA, RedisClient.SAdd, hempty, setAdd]
  have q1 : s1.Send c1 = (Chan.make 256).push (onlineCountFrame 1) := by
    rw [hsend1 c1, ← hr1]
    simp [NewHub, setAdd, hs1, RedisClient.SCard, p1, Chan.make, Chan.hasRoom]
  have q1' : s1.Send c2 = Chan.make 256 := by
    rw [hsend1 c2]
    simp [NewHub, setAdd, hs2, hne']
  -- register c2
  obtain ⟨s2, e2, hc2, hcl2, hu2, hr2, hsend2⟩ :=
    Hub.registerClient_spec hc1 c2 (by rw [q1']; rfl)
  have cl2 : s2.clients = [c1, c2] := by
    rw [hcl2, cl1]; simp [setAdd, hne']
  have u2 : s2.userClients = [(c1.UserID, [c1, c2])] := by
    rw [hu2, u1]; simp [registeredUsers, h2, hA, mapGet, mapSet, setAdd, hne']
  have p2 : s2.redis.sets "online:users" = [c1.UserID.String] := by
    rw [hr2]; simp [Hub.withClient, h2, hA, RedisClient.SAdd, p1, setAdd]
  have q2 : s2.Send c1 =
      ((Chan.make 256).push (onlineCountFrame 1)).push (onlineCountFrame 1) := by
    rw [hsend2 c1, ← hr2]
    simp [cl1, setAdd, hne', q1, RedisClient.SCard, p2, Chan.make, Chan.hasRoom, Chan.push]
  have q2' : s2.Send c2 = (Chan.make 256).push (onlineCountFrame 1) := by
    rw [hsend2 c2, ← hr2]
    simp [cl1, setAdd, hne', q1', RedisClient.SCard, p2, Chan.make, Chan.hasRoom]
  -- unregister c1
  obtain ⟨s3, e3, hc3, hcl3, hu3, hr3, -⟩ :=
    Hub.unregisterClient_spec hc2 c1 (by rw [cl2]; simp)
  have cl3 : s3.clients = [c2] := by
    rw [hcl3, cl2]; simp [setDelete, List.filter, hne']
  have u3 : s3.userClients = [(c1.UserID, [c2])] := by
    rw [hu3, u2]
    simp [unregisteredUsers, hA, mapGet, mapSet, setDelete, List.filter, hne']
  have p3 : s3.redis.sets "online:users" = [c1.UserID.String] := by
    rw [hr3]
    simp [Hub.withoutClient, hA, u2, mapGet, setDelete, List.filter, hne', p2]
  -- unregister c2
  obtain ⟨s4, e4, hc4, hcl4, hu4, hr4, -⟩ :=
    Hub.unregisterClient_spec hc3 c2 (by rw [cl3]; simp)
  have u4 : s4.userClients = [] := by
    rw [hu4, u3]
    simp [unregisteredUsers, h2, hA, mapGet, mapDelete, setDelete, List.filter]
  have p4 : s4.redis.sets "online:users" = [] := by
    rw [hr4]
    simp [Hub.withoutClient, h2, hA, u3, mapGet, setDelete, List.filter, p3,
      RedisClient.SRem]
  refine ⟨s1, s2, s3, s4, e1, ?_, e2, ?_, ?_, ?_, e3, ?_, e4, ?_, ?_⟩
  · rw [q1]; rfl
  · rw [q2]; rfl
  · rw [q2']; rfl
  · simp [Hub.IsUserOnline, RedisClient.SIsMember, p2]
  · simp [Hub.IsUserOnline, RedisClient.SIsMember, p3]
  · simp [Hub.IsUserOnline, RedisClient.SIsMember, p4]
  · rw [u4]; rfl

theorem C9_two_connections_scenario_witness :
    RedisClient.empty.sets "online:users" = [] ∧ alice ≠ uuid.Nil ∧
      conn1.UserID = alice ∧ conn2.UserID = alice ∧ conn1 ≠ conn2 ∧
      freshSend conn1 = Chan.make 256 ∧ freshSend conn2 = Chan.make 256 ∧
      ∃ s1 s2 s3 s4,
        (NewHub RedisClient.empty freshSend).registerClient conn1 = .ok s1 ∧
        (s1.Send conn1).buf = [onlineCountFrame 1] ∧
        s1.registerClient conn2 = .ok s2 ∧
        (s2.Send conn1).buf = [onlineCountFrame 1, onlineCountFrame 1] ∧
        (s2.Send conn2).buf = [onlineCountFrame 1] ∧
        s2.IsUserOnline alice = true ∧
        s2.unregisterClient conn1 = .ok s3 ∧ s3.IsUserOnline alice = true ∧
        s3.unregisterClient conn2 = .ok s4 ∧ s4.IsUserOnline alice = false ∧
        mapGet s4.userClients alice = none :=
  ⟨rfl, by decide, rfl, rfl, by decide, rfl, rfl,
    C9_two_connections_scenario RedisClient.empty freshSend rfl alice (by decide)
      conn1 conn2 rfl rfl (by decide) rfl rfl⟩

/-! ## States the hub reaches -/

theorem Hub.Consistent.live {h : Hub} (hc : h.Consistent) : h.Live :=
  ⟨hc.clients_nodup, hc.clients_open⟩

theorem Hub.sendOrEvict_ok {data : Bytes} {h h' : Hub} {c : Client}
    (e : Hub.sendOrEvict data h c = .ok h') :
    (h.Send c).closed = false ∧
      h'.clients = (if (h.Send c).hasRoom = true then h.clients else setDelete h.clients c) ∧
      (∀ d, d ≠ c → h'.Send d = h.Send d) ∧
      h'.Send c = if (h.Send c).hasRoom = true then (h.Send c).push data
        else (h.Send c).shut := by
  cases hcl : (h.Send c).closed with
  | true =>
    simp [Hub.sendOrEvict, Chan.trySend, hcl] at e
  | false =>
    obtain ⟨h1, e1, -, -, -, hcl1, hne1, hself1⟩ := Hub.sendOrEvict_of_open data hcl
    rw [e1] at e
    cases e
    exact ⟨rfl, hcl1, hne1, hself1⟩

theorem Hub.Live.sendOrEvict {data : Bytes} {h h' : Hub} {c : Client} (hl : h.Live)
    (e : Hub.sendOrEvict data h c = .ok h') : h'.Live := by
  obtain ⟨ho, hcl, hne, hself⟩ := Hub.sendOrEvict_ok e
  cases hr : (h.Send c).hasRoom with
  | true =>
    simp only [hr, if_true] at hcl hself
    refine ⟨hcl ▸ hl.1, ?_⟩
    intro d hd
    rw [hcl] at hd
    by_cases hdc : d = c
    · subst hdc
      rw [hself, Chan.push_closed]
      exact ho
    · rw [hne d hdc]
      exact hl.2 d hd
  | false =>
    simp only [hr] at hcl hself
    refine ⟨hcl ▸ nodup_setDelete c hl.1, ?_⟩
    intro d hd
    rw [hcl] at hd
    obtain ⟨hd1, hd2⟩ := mem_setDelete.mp hd
    rw [hne d hd2]
    exact hl.2 d hd1

theorem Hub.Live.forRange_sendOrEvict {data : Bytes} :
    ∀ (l : List Client) {h h' : Hub}, h.Live →
      forRange (Hub.sendOrEvict data) l h = .ok h' → h'.Live
  | [], h, h', hl, e => by
    simp only [forRange] at e
    cases e
    exact hl
  | a :: l, h, h', hl, e => by
    simp only [forRange] at e
    cases e1 : Hub.sendOrEvict data h a with
    | error p => simp [e1] at e
    | ok h1 =>
      simp only [e1] at e
      exact Hub.Live.forRange_sendOrEvict l (hl.sendOrEvict e1) e

theorem Hub.Live.afterRegister {h h' : Hub} (hl : h.Live) {c : Client}
    (e : h.registerClient c = .ok h') : h'.Live := by
  rw [Hub.registerClient_eq] at e
  obtain ⟨ho, hcl, -, -, -, hs, -⟩ := Hub.broadcastOnlineCount_ok e
  refine ⟨?_, ?_⟩
  · rw [hcl]
    exact nodup_setAdd c hl.1
  · intro d hd
    rw [hs d]
    exact ho d (hcl ▸ hd)

theorem Hub.Live.afterUnregister {h h' : Hub} (hl : h.Live) {c : Client}
    (e : h.unregisterClient c = .ok h') : h'.Live := by
  by_cases hm : c ∈ h.clients
  · rw [Hub.unregisterClient_eq h c hm (hl.2 c hm)] at e
    obtain ⟨ho, hcl, -, -, -, hs, -⟩ := Hub.broadcastOnlineCount_ok e
    refine ⟨?_, ?_⟩
    · rw [hcl]
      exact nodup_setDelete c hl.1
    · intro d hd
      rw [hs d]
      exact ho d (hcl ▸ hd)
  · rw [Hub.unregisterClient_not_mem h c hm] at e
    cases e
    exact hl

theorem Hub.Live.afterSendToUser {h h' : Hub} (hl : h.Live) {u : UUID} {m : Message}
    (e : h.SendToUser u m = .ok h') : h'.Live := by
  unfold Hub.SendToUser at e
  cases hm : jsonMarshal m with
  | none =>
    simp only [hm] at e
    cases e
    exact hl
  | some data =>
    simp only [hm] at e
    cases hg : mapGet h.userClients u with
    | none =>
      simp only [hg] at e
      cases e
      exact hl
    | some set =>
      simp only [hg] at e
      cases e1 : forRange (Hub.sendOrEvict data) set h with
      | error p => simp [e1] at e
      | ok h1 =>
        simp only [e1] at e
        cases e
        have hl1 : h1.Live := Hub.Live.forRange_sendOrEvict set hl e1
        exact hl1

/-- Every state the hub reaches from `NewHub` by registerClient,
unregisterClient, SendToUser and the broadcast fan-out has `h.clients` a set of
connections with open queues. -/
theorem Hub.Live.afterRun :
    ∀ (ops : List Op) {h h' : Hub}, h.Live → h.run ops = .ok h' → h'.Live
  | [], h, h', hl, e => by
    simp only [Hub.run] at e
    cases e
    exact hl
  | op :: ops, h, h', hl, e => by
    simp only [Hub.run] at e
    cases e1 : h.apply op with
    | error p => simp [e1] at e
    | ok h1 =>
      simp only [e1] at e
      have hl1 : h1.Live := by
        cases op with
        | register c => exact hl.afterRegister e1
        | unregister c => exact hl.afterUnregister e1
        | sendToUser u m => exact hl.afterSendToUser e1
        | broadcastMessage data => exact Hub.Live.forRange_sendOrEvict _ hl e1
      exact Hub.Live.afterRun ops hl1 e

theorem NewHub_live (redis : RedisClient) (Send : Client → Chan) : (NewHub redis Send).Live :=
  (NewHub_consistent redis Send).live

/-! ## The local fan-out of a broadcast (C12) -/

/-- C12: in every state the hub reaches (`h.clients` a set of connections with
open queues) and for every message that serializes, the local fan-out
`broadcastMessage` returns; it appends the serialized message exactly once to
the queue of every registered connection whose queue has room, whatever the
other queues are like, and keeps that connection registered; it closes the
queue of every registered connection without room and removes it from
`h.clients`; and it leaves the queue of every connection that is not
registered unchanged. -/
theorem C12_broadcast_fan_out (h : Hub) (hl : h.Live) (m : Message) (data : Bytes)
    (_hm : jsonMarshal m = some data) :
    ∃ h', h.broadcastMessage data = .ok h' ∧
      (∀ c ∈ h.clients, (h.Send c).hasRoom = true →
        h'.Send c = (h.Send c).push data ∧ c ∈ h'.clients) ∧
      (∀ c ∈ h.clients, (h.Send c).hasRoom = false →
        h'.Send c = (h.Send c).shut ∧ c ∉ h'.clients) ∧
      (∀ c, c ∉ h.clients → h'.Send c = h.Send c) := by
  obtain ⟨h', e, -, -, -, hcl, hs⟩ := forRange_sendOrEvict_spec data h.clients h hl.1 hl.2
  refine ⟨h', e, ?_, ?_, ?_⟩
  · intro c hc hr
    refine ⟨by rw [hs c, if_pos hc, if_pos hr], (hcl c).mpr ⟨hc, ?_⟩⟩
    simp [hr]
  · intro c hc hr
    refine ⟨by rw [hs c, if_pos hc]; simp [hr], ?_⟩
    intro hin
    exact ((hcl c).mp hin).2 ⟨hc, hr⟩
  · intro c hc
    rw [hs c, if_neg hc]

set_option maxRecDepth 100000 in
theorem C12_broadcast_fan_out_witness :
    hubMixed.Live ∧ jsonMarshal note = some noteFrame ∧
      (hubMixed.Send conn1).hasRoom = false ∧ (hubMixed.Send conn3).hasRoom = true ∧
      ∃ h', hubMixed.broadcastMessage noteFrame = .ok h' ∧
        (∀ c ∈ hubMixed.clients, (hubMixed.Send c).hasRoom = true →
          h'.Send c = (hubMixed.Send c).push noteFrame ∧ c ∈ h'.clients) ∧
        (∀ c ∈ hubMixed.clients, (hubMixed.Send c).hasRoom = false →
          h'.Send c = (hubMixed.Send c).shut ∧ c ∉ h'.clients) ∧
        (∀ c, c ∉ hubMixed.clients → h'.Send c = hubMixed.Send c) :=
  ⟨by decide, by decide, by decide, by decide,
    C12_broadcast_fan_out hubMixed (by decide) note noteFrame (by decide)⟩

/-! ## A full queue on the online-count and relay paths (C13) -/

set_option maxRecDepth 100000 in
/-- C13 (counterexample): the queue of the registered connection `conn1` is
full; the online-count broadcast and the bus relay both return, and afterwards
`conn1` is still registered, its queue is still open and holds the same 256
frames. -/
theorem C13_full_queue_counterexample :
    conn1 ∈ hubFull.clients ∧ (hubFull.Send conn1).hasRoom = false ∧
      panicOf hubFull.broadcastOnlineCount = none ∧
      conn1 ∈ (hubOr hub0 hubFull.broadcastOnlineCount).clients ∧
      (hubOr hub0 hubFull.broadcastOnlineCount).Send conn1 = hubFull.Send conn1 ∧
      ((hubOr hub0 hubFull.broadcastOnlineCount).Send conn1).closed = false ∧
      panicOf (hubFull.relay noteFrame) = none ∧
      conn1 ∈ (hubOr hub0 (hubFull.relay noteFrame)).clients ∧
      (hubOr hub0 (hubFull.relay noteFrame)).Send conn1 = hubFull.Send conn1 ∧
      ((hubOr hub0 (hubFull.relay noteFrame)).Send conn1).closed = false := by
  decide

/-- In a state the hub reaches the relay of one bus message returns; it
appends the payload to the registered queues with room and changes nothing
else. -/
theorem Hub.relay_spec (h : Hub) (hl : h.Live) (payload : Bytes) :
    ∃ h', h.relay payload = .ok h' ∧ h'.clients = h.clients ∧
      h'.userClients = h.userClients ∧ h'.broadcast = h.broadcast ∧ h'.redis = h.redis ∧
      ∀ c, h'.Send c =
        if c ∈ h.clients ∧ (h.Send c).hasRoom = true then (h.Send c).push payload
        else h.Send c := by
  obtain ⟨h', e, hs⟩ := forRange_sendOrSkip_spec payload h.clients h hl.1 hl.2
  obtain ⟨-, hcl, hu, hb, hr, -, -⟩ := forRange_sendOrSkip_ok _ e
  exact ⟨h', e, hcl, hu, hb, hr, hs⟩

/-- C13 (amended): in every state the hub reaches, the online-count broadcast
and the relay of a bus message return and leave `h.clients` and
`h.userClients` as they were; a registered connection whose queue is full
keeps its queue exactly as it was (open, the frame not enqueued) and stays
registered. -/
theorem C13_full_queue_skipped (h : Hub) (hl : h.Live) (payload : Bytes) :
    ∃ h1 h2, h.broadcastOnlineCount = .ok h1 ∧ h.relay payload = .ok h2 ∧
      h1.clients = h.clients ∧ h1.userClients = h.userClients ∧
      h2.clients = h.clients ∧ h2.userClients = h.userClients ∧
      ∀ c ∈ h.clients, (h.Send c).hasRoom = false →
        h1.Send c = h.Send c ∧ h2.Send c = h.Send c := by
  obtain ⟨h1, e1, hcl1, hu1, -, -, hs1⟩ := Hub.broadcastOnlineCount_spec h hl.1 hl.2
  obtain ⟨h2, e2, hcl2, hu2, -, -, hs2⟩ := Hub.relay_spec h hl payload
  refine ⟨h1, h2, e1, e2, hcl1, hu1, hcl2, hu2, ?_⟩
  intro c _ hr
  rw [hs1 c, hs2 c]
  simp [hr]

set_option maxRecDepth 100000 in
theorem C13_full_queue_skipped_witness :
    hubMixed.Live ∧ conn1 ∈ hubMixed.clients ∧ (hubMixed.Send conn1).hasRoom = false ∧
      ∃ h1 h2, hubMixed.broadcastOnlineCount = .ok h1 ∧ hubMixed.relay noteFrame = .ok h2 ∧
        h1.clients = hubMixed.clients ∧ h1.userClients = hubMixed.userClients ∧
        h2.clients = hubMixed.clients ∧ h2.userClients = hubMixed.userClients ∧
        ∀ c ∈ hubMixed.clients, (hubMixed.Send c).hasRoom = false →
          h1.Send c = hubMixed.Send c ∧ h2.Send c = hubMixed.Send c :=
  ⟨by decide, by decide, by decide, C13_full_queue_skipped hubMixed (by decide) noteFrame⟩

/-! ## Anonymous connections (C18) -/

/-- C18: in every state the hub reaches and for every anonymous connection
whose queue is open, `registerClient` returns, adds the connection to
`h.clients` and leaves `h.userClients` and the presence set unchanged; the
`unregisterClient` that follows returns, removes the connection from
`h.clients` and also leaves `h.userClients` and the presence set unchanged. -/
theorem C18_anonymous_connection (h : Hub) (hl : h.Live) (c : Client)
    (hc : c.UserID = uuid.Nil) (ho : (h.Send c).closed = false) :
    ∃ h1 h2, h.registerClient c = .ok h1 ∧ c ∈ h1.clients ∧
      h1.userClients = h.userClients ∧ h1.presence = h.presence ∧
      h1.unregisterClient c = .ok h2 ∧ c ∉ h2.clients ∧
      h2.userClients = h.userClients ∧ h2.presence = h.presence := by
  have hw : (h.withClient c).Live := by
    refine ⟨nodup_setAdd c hl.1, ?_⟩
    intro d hd
    rcases mem_setAdd.mp hd with rfl | hd
    · exact ho
    · exact hl.2 d hd
  obtain ⟨h1, e1, hcl1, hu1, -, hr1, -⟩ :=
    Hub.broadcastOnlineCount_spec (h.withClient c) hw.1 hw.2
  have e1' : h.registerClient c = .ok h1 := by
    rw [Hub.registerClient_eq]; exact e1
  have hl1 : h1.Live := hl.afterRegister e1'
  have hm1 : c ∈ h1.clients := by
    rw [hcl1]; exact mem_setAdd.mpr (Or.inl rfl)
  have hu1' : h1.userClients = h.userClients := by
    rw [hu1]; simp [Hub.withClient, registeredUsers, hc]
  have hr1' : h1.redis = h.redis := by
    rw [hr1]; simp [Hub.withClient, hc]
  have hw2 : (h1.withoutClient c).clients.Nodup ∧
      ∀ d ∈ (h1.withoutClient c).clients, ((h1.withoutClient c).Send d).closed = false := by
    refine ⟨nodup_setDelete c hl1.1, ?_⟩
    intro d hd
    obtain ⟨hd1, hd2⟩ := mem_setDelete.mp hd
    simp only [Hub.withoutClient, hd2, if_false]
    exact hl1.2 d hd1
  obtain ⟨h2, e2, hcl2, hu2, -, hr2, -⟩ :=
    Hub.broadcastOnlineCount_spec (h1.withoutClient c) hw2.1 hw2.2
  have e2' : h1.unregisterClient c = .ok h2 := by
    rw [Hub.unregisterClient_eq h1 c hm1 (hl1.2 c hm1)]; exact e2
  refine ⟨h1, h2, e1', hm1, hu1', by rw [Hub.presence, hr1']; rfl, e2', ?_, ?_, ?_⟩
  · rw [hcl2]
    show c ∉ setDelete h1.clients c
    simp [mem_setDelete]
  · rw [hu2, ← hu1']
    simp [Hub.withoutClient, unregisteredUsers, hc]
  · rw [Hub.presence, hr2]
    simp [Hub.withoutClient, hc, hr1', Hub.presence]

set_option maxRecDepth 100000 in
theorem C18_anonymous_connection_witness :
    hubMixed.Live ∧ conn4.UserID = uuid.Nil ∧ (hubMixed.Send conn4).closed = false ∧
      ∃ h1 h2, hubMixed.registerClient conn4 = .ok h1 ∧ conn4 ∈ h1.clients ∧
        h1.userClients = hubMixed.userClients ∧ h1.presence = hubMixed.presence ∧
        h1.unregisterClient conn4 = .ok h2 ∧ conn4 ∉ h2.clients ∧
        h2.userClients = hubMixed.userClients ∧ h2.presence = hubMixed.presence :=
  ⟨by decide, rfl, by decide,
    C18_anonymous_connection hubMixed (by decide) conn4 rfl (by decide)⟩

/-! ## Per-user messages across two hubs (C11) -/

theorem user_channel_ne_broadcast (u : String) : "ws:user:" ++ u ≠ "ws:broadcast" := by
  intro h
  have hd := congrArg String.data h
  rw [String.data_append] at hd
  have h1 : ("ws:user:" : String).data = ['w', 's', ':', 'u', 's', 'e', 'r', ':'] := rfl
  have h2 : ("ws:broadcast" : String).data =
      ['w', 's', ':', 'b', 'r', 'o', 'a', 'd', 'c', 'a', 's', 't'] := rfl
  rw [h1, h2] at hd
  simp at hd

/-- A message published on a per-user channel is not delivered to a
subscription to `ws:broadcast`. -/
theorem RedisClient.Subscribe_Publish_user (r : RedisClient) (u : String) (data : Bytes) :
    (r.Publish ("ws:user:" ++ u) data).Subscribe "ws:broadcast" =
      r.Subscribe "ws:broadcast" := by
  simp [RedisClient.Subscribe, RedisClient.Publish, List.filter_append, List.filter,
    user_channel_ne_broadcast u]

set_option maxRecDepth 100000 in
/-- C11 (evaluation at the failing input): hub `b` holds the registered
connection `conn2` of `alice`; hub `a` calls `SendToUser(alice, note)`, which
publishes the frame on `ws:user:<alice>`; hub `b` is subscribed to
`ws:broadcast` only, receives nothing, and the queue of `conn2` holds only the
online-count frame of its registration. -/
theorem C11_per_user_message_not_relayed :
    panicOf crossSend = none ∧
      conn2 ∈ (clusterOr cluster0 crossSend).b.clients ∧ conn2.UserID = alice ∧
      (clusterOr cluster0 crossSend).redis.published =
        [("ws:user:" ++ alice.String, noteFrame)] ∧
      (clusterOr cluster0 crossSend).redis.Subscribe "ws:broadcast" = [] ∧
      ((clusterOr cluster0 crossSend).b.Send conn2).buf = [onlineCountFrame 1] ∧
      noteFrame ∉ ((clusterOr cluster0 crossSend).b.Send conn2).buf := by
  decide

/-! ## The ping handler (C14, C15) -/

theorem jsonMarshal_pong : jsonMarshal { Typ := "pong", Payload := .null } = some pongFrame := by
  decide

/-- C14: for every hub state and every connection `C` whose queue is open
and has room, `handleMessage` on the frame `{"type":"ping","payload":null}`
(which `json.Unmarshal` decodes to an envelope of type `ping`) returns and
appends exactly one frame, `{"type":"pong","payload":null}`, to the queue of
`C`; no other queue, the broadcast channel, the Redis state (nothing is
published) and the registry change. -/
theorem C14_ping_pong (json : Unmarshal) (h : Hub) (C : Client) (msg : ClientMessage)
    (hdec : json.clientMessage pingFrame = some msg) (htyp : msg.Typ = "ping")
    (hopen : (h.Send C).closed = false) (hroom : (h.Send C).hasRoom = true) :
    ∃ h', Handler.handleMessage json h C pingFrame = .returned h' ∧
      h'.Send C = (h.Send C).push pongFrame ∧
      (∀ d, d ≠ C → h'.Send d = h.Send d) ∧
      h'.broadcast = h.broadcast ∧ h'.redis = h.redis ∧
      h'.clients = h.clients ∧ h'.userClients = h.userClients := by
  refine ⟨h.setSend C ((h.Send C).push pongFrame), ?_, ?_, ?_, rfl, rfl, rfl, rfl⟩
  · simp [Handler.handleMessage, hdec, htyp, jsonMarshal_pong, Chan.send, hopen, hroom]
  · simp [Hub.setSend]
  · intro d hd
    simp [Hub.setSend, hd]

set_option maxRecDepth 100000 in
theorem C14_ping_pong_witness :
    sampleJSON.clientMessage pingFrame = some { Typ := "ping", Payload := "null" } ∧
      (hubMixed.Send conn3).closed = false ∧ (hubMixed.Send conn3).hasRoom = true ∧
      ∃ h', Handler.handleMessage sampleJSON hubMixed conn3 pingFrame = .returned h' ∧
        h'.Send conn3 = (hubMixed.Send conn3).push pongFrame ∧
        (∀ d, d ≠ conn3 → h'.Send d = hubMixed.Send d) ∧
        h'.broadcast = hubMixed.broadcast ∧ h'.redis = hubMixed.redis ∧
        h'.clients = hubMixed.clients ∧ h'.userClients = hubMixed.userClients :=
  ⟨by decide, by decide, by decide,
    C14_ping_pong sampleJSON hubMixed conn3 { Typ := "ping", Payload := "null" }
      (by decide) rfl (by decide) (by decide)⟩

set_option maxRecDepth 100000 in
/-- C15 (evaluation at the failing input): the queue of the registered
connection `conn1` is open and holds 256 of 256 frames.  The ping handler
executes the plain send `client.Send <- data` and blocks; nothing is closed
and nothing is removed from the registry.  Once the write pump has taken one
frame the same call returns, with `conn1` still registered and its queue
still open.  If instead a `SendToUser` evicts `conn1` first, the send of the
ping handler is a send on a closed channel. -/
theorem C15_ping_blocks_on_full_queue :
    conn1 ∈ hubFull.clients ∧ (hubFull.Send conn1).buf.length = 256 ∧
      (hubFull.Send conn1).cap = 256 ∧ (hubFull.Send conn1).closed = false ∧
      (Handler.handleMessage sampleJSON hubFull conn1 pingFrame).isBlocked = true ∧
      ((Handler.handleMessage sampleJSON
          (hubFull.setSend conn1 (hubFull.Send conn1).recv) conn1 pingFrame).result.map
        (fun h => (decide (conn1 ∈ h.clients), (h.Send conn1).closed,
          (h.Send conn1).buf.length))) = some (true, false, 256) ∧
      (Handler.handleMessage sampleJSON (hubOr hub0 (hubFull.SendToUser alice note))
        conn1 pingFrame).panic = some Panic.sendOnClosed := by
  decide

/-! ## Typing frames and ignored frames (C19, C20) -/

/-- C19: for every inbound frame that decodes to an envelope of type
`typing`: on an anonymous connection `handleMessage` returns with the state
unchanged; on a connection of principal `U` whose payload decodes with
`articleId = a` it is exactly one call of `Broadcast` with the message of type
`typing` and payload `{articleId: a, userId: U.String()}`, and when that call
returns it has put the one serialized frame on the broadcast channel and
published it on `ws:broadcast`, with every connection's queue and the registry
unchanged. -/
theorem C19_typing_dispatch (json : Unmarshal) (h : Hub) (c : Client) (data : Bytes)
    (msg : ClientMessage) (hdec : json.clientMessage data = some msg)
    (htyp : msg.Typ = "typing") :
    (c.UserID = uuid.Nil → Handler.handleMessage json h c data = .returned h) ∧
      ∀ a : String, c.UserID ≠ uuid.Nil → json.articleID msg.Payload = some a →
        Handler.handleMessage json h c data =
          h.Broadcast { Typ := "typing", Payload := .typing a c.UserID.String } ∧
        ∃ frame, jsonMarshal { Typ := "typing", Payload := .typing a c.UserID.String } =
            some frame ∧
          ∀ h', h.Broadcast { Typ := "typing", Payload := .typing a c.UserID.String } =
              .returned h' →
            h'.broadcast = h.broadcast ++ [frame] ∧
            h'.redis = h.redis.Publish "ws:broadcast" frame ∧
            h'.Send = h.Send ∧ h'.clients = h.clients ∧ h'.userClients = h.userClients := by
  have hne : ("typing" : String) ≠ "ping" ∧ ("typing" : String) ≠ "subscribe_article" ∧
      ("typing" : String) ≠ "unsubscribe_article" := by decide
  constructor
  · intro hn
    simp [Handler.handleMessage, hdec, htyp, hne, hn]
  · intro a hn ha
    constructor
    · simp [Handler.handleMessage, hdec, htyp, hne, hn, ha, TypeTyping]
    · refine ⟨_, rfl, ?_⟩
      intro h' e
      unfold Hub.Broadcast at e
      simp only [jsonMarshal, Payload.marshal] at e
      split at e
      · cases e
        exact ⟨rfl, rfl, rfl, rfl, rfl⟩
      · cases e

theorem C19_typing_dispatch_witness :
    sampleJSON.clientMessage typingFrame =
        some { Typ := "typing", Payload := "\x7b\"articleId\":\"a1\"\x7d" } ∧
      conn1.UserID ≠ uuid.Nil ∧
      sampleJSON.articleID "\x7b\"articleId\":\"a1\"\x7d" = some "a1" ∧
      Handler.handleMessage sampleJSON hub0 conn1 typingFrame =
        hub0.Broadcast { Typ := "typing", Payload := .typing "a1" conn1.UserID.String } ∧
      ∃ frame, jsonMarshal { Typ := "typing", Payload := .typing "a1" conn1.UserID.String } =
          some frame ∧
        ∀ h', hub0.Broadcast { Typ := "typing", Payload := .typing "a1" conn1.UserID.String } =
            .returned h' →
          h'.broadcast = hub0.broadcast ++ [frame] ∧
          h'.redis = hub0.redis.Publish "ws:broadcast" frame ∧
          h'.Send = hub0.Send ∧ h'.clients = hub0.clients ∧
          h'.userClients = hub0.userClients :=
  ⟨by decide, by decide, by decide,
    (C19_typing_dispatch sampleJSON hub0 conn1 typingFrame
      { Typ := "typing", Payload := "\x7b\"articleId\":\"a1\"\x7d" } (by decide) rfl).2
      "a1" (by decide) (by decide)⟩

/-- C20: for every inbound frame that does not decode to an envelope, or whose
type is neither `ping` nor `typing`, or that is a typing frame whose payload
does not decode: `handleMessage` returns (the read loop goes on) with the hub
state it was given, so the registry, the presence set, every queue, the
broadcast channel and the bus are unchanged. -/
theorem C20_ignored_frames (json : Unmarshal) (h : Hub) (c : Client) (data : Bytes)
    (hcase : json.clientMessage data = none ∨
      (∃ msg, json.clientMessage data = some msg ∧ msg.Typ ≠ "ping" ∧ msg.Typ ≠ "typing") ∨
      (∃ msg, json.clientMessage data = some msg ∧ msg.Typ = "typing" ∧
        json.articleID msg.Payload = none)) :
    Handler.handleMessage json h c data = .returned h := by
  rcases hcase with hnone | ⟨msg, hdec, h1, h2⟩ | ⟨msg, hdec, htyp, hpay⟩
  · simp [Handler.handleMessage, hnone]
  · simp only [Handler.handleMessage, hdec, h1, h2, if_false]
    split
    · split <;> rfl
    · split
      · split <;> rfl
      · rfl
  · have hne : ("typing" : String) ≠ "ping" ∧ ("typing" : String) ≠ "subscribe_article" ∧
        ("typing" : String) ≠ "unsubscribe_article" := by decide
    simp [Handler.handleMessage, hdec, htyp, hne, hpay]

theorem C20_ignored_frames_witness :
    (sampleJSON.clientMessage helloFrame = none ∨
      (∃ msg, sampleJSON.clientMessage helloFrame = some msg ∧ msg.Typ ≠ "ping" ∧
        msg.Typ ≠ "typing") ∨
      (∃ msg, sampleJSON.clientMessage helloFrame = some msg ∧ msg.Typ = "typing" ∧
        sampleJSON.articleID msg.Payload = none)) ∧
      Handler.handleMessage sampleJSON hub0 conn1 helloFrame = .returned hub0 :=
  ⟨Or.inr (Or.inl ⟨{ Typ := "hello", Payload := "null" }, by decide, by decide, by decide⟩),
    C20_ignored_frames sampleJSON hub0 conn1 helloFrame
      (Or.inr (Or.inl ⟨{ Typ := "hello", Payload := "null" }, by decide, by decide,
        by decide⟩))⟩

/-! ## The online-count broadcast after a registry change (C21) -/

theorem Hub.registerClient_live {h : Hub} (hl : h.Live) (c : Client)
    (ho : (h.Send c).closed = false) :
    ∃ h', h.registerClient c = .ok h' ∧ h'.Live ∧
      h'.clients = setAdd h.clients c ∧
      h'.userClients = registeredUsers h.userClients c ∧
      h'.redis = (h.withClient c).redis ∧
      ∀ d, h'.Send d =
        if d ∈ setAdd h.clients c ∧ (h.Send d).hasRoom = true then
          (h.Send d).push (onlineCountFrame ((h.withClient c).redis.SCard "online:users"))
        else h.Send d := by
  have hw : (h.withClient c).Live := by
    refine ⟨nodup_setAdd c hl.1, ?_⟩
    intro d hd
    rcases mem_setAdd.mp hd with rfl | hd
    · exact ho
    · exact hl.2 d hd
  obtain ⟨h', e, hcl, hu, -, hr, hs⟩ :=
    Hub.broadcastOnlineCount_spec (h.withClient c) hw.1 hw.2
  have e' : h.registerClient c = .ok h' := by
    rw [Hub.registerClient_eq]; exact e
  exact ⟨h', e', hl.afterRegister e', hcl, hu, hr, hs⟩

theorem Hub.unregisterClient_live {h : Hub} (hl : h.Live) (c : Client)
    (hm : c ∈ h.clients) :
    ∃ h', h.unregisterClient c = .ok h' ∧ h'.Live ∧
      h'.clients = setDelete h.clients c ∧
      h'.userClients = unregisteredUsers h.userClients c ∧
      h'.redis = (h.withoutClient c).redis ∧
      ∀ d, h'.Send d =
        if d ∈ setDelete h.clients c ∧ (h.Send d).hasRoom = true then
          (h.Send d).push (onlineCountFrame ((h.withoutClient c).redis.SCard "online:users"))
        else if d = c then (h.Send c).shut
        else h.Send d := by
  have hw : (h.withoutClient c).clients.Nodup ∧
      ∀ d ∈ (h.withoutClient c).clients, ((h.withoutClient c).Send d).closed = false := by
    refine ⟨nodup_setDelete c hl.1, ?_⟩
    intro d hd
    obtain ⟨hd1, hd2⟩ := mem_setDelete.mp hd
    simp only [Hub.withoutClient, hd2, if_false]
    exact hl.2 d hd1
  obtain ⟨h', e, hcl, hu, -, hr, hs⟩ :=
    Hub.broadcastOnlineCount_spec (h.withoutClient c) hw.1 hw.2
  have e' : h.unregisterClient c = .ok h' := by
    rw [Hub.unregisterClient_eq h c hm (hl.2 c hm)]; exact e
  refine ⟨h', e', hl.afterUnregister e', hcl, hu, hr, ?_⟩
  intro d
  rw [hs d]
  by_cases hd : d = c
  · subst hd
    have : d ∉ setDelete h.clients d := by simp [mem_setDelete]
    simp [Hub.withoutClient, this]
  · simp [Hub.withoutClient, hd]

/-- C21: in every state the hub reaches, `registerClient(c)` (for a connection
with an open queue) and `unregisterClient(c)` of a registered `c` return, and
every connection that is in `h.clients` after the change (for register this
includes `c`) and whose queue has room has had exactly one frame
`{"type":"online_count","payload":{"count":N}}` appended, where `N` is the
cardinality of the presence set after the presence update of that call. -/
theorem C21_online_count_after_change (h : Hub) (hl : h.Live) (c : Client) :
    ((h.Send c).closed = false →
      ∃ h', h.registerClient c = .ok h' ∧ c ∈ h'.clients ∧
        h'.presence = (h.withClient c).presence ∧
        ∀ d ∈ h'.clients, (h.Send d).hasRoom = true →
          h'.Send d = (h.Send d).push (onlineCountFrame (h'.presence.length : Int))) ∧
    (c ∈ h.clients →
      ∃ h', h.unregisterClient c = .ok h' ∧ c ∉ h'.clients ∧
        h'.presence = (h.withoutClient c).presence ∧
        ∀ d ∈ h'.clients, (h.Send d).hasRoom = true →
          h'.Send d = (h.Send d).push (onlineCountFrame (h'.presence.length : Int))) := by
  constructor
  · intro ho
    obtain ⟨h', e, -, hcl, -, hr, hs⟩ := Hub.registerClient_live hl c ho
    refine ⟨h', e, by rw [hcl]; exact mem_setAdd.mpr (Or.inl rfl),
      by rw [Hub.presence, hr]; rfl, ?_⟩
    intro d hd hroom
    rw [hs d, if_pos ⟨hcl ▸ hd, hroom⟩, Hub.presence, hr]
    rfl
  · intro hm
    obtain ⟨h', e, -, hcl, -, hr, hs⟩ := Hub.unregisterClient_live hl c hm
    refine ⟨h', e, by rw [hcl]; simp [mem_setDelete], by rw [Hub.presence, hr]; rfl, ?_⟩
    intro d hd hroom
    rw [hs d, if_pos ⟨hcl ▸ hd, hroom⟩, Hub.presence, hr]
    rfl

set_option maxRecDepth 100000 in
theorem C21_online_count_after_change_witness :
    hubMixed.Live ∧ (hubMixed.Send conn2).closed = false ∧ conn3 ∈ hubMixed.clients ∧
      (∃ h', hubMixed.registerClient conn2 = .ok h' ∧ conn2 ∈ h'.clients ∧
        h'.presence = (hubMixed.withClient conn2).presence ∧
        ∀ d ∈ h'.clients, (hubMixed.Send d).hasRoom = true →
          h'.Send d = (hubMixed.Send d).push (onlineCountFrame (h'.presence.length : Int))) ∧
      (∃ h', hubMixed.unregisterClient conn3 = .ok h' ∧ conn3 ∉ h'.clients ∧
        h'.presence = (hubMixed.withoutClient conn3).presence ∧
        ∀ d ∈ h'.clients, (hubMixed.Send d).hasRoom = true →
          h'.Send d = (hubMixed.Send d).push (onlineCountFrame (h'.presence.length : Int))) :=
  ⟨by decide, by decide, by decide,
    (C21_online_count_after_change hubMixed (by decide) conn2).1 (by decide),
    (C21_online_count_after_change hubMixed (by decide) conn3).2 (by decide)⟩

/-! ## The presence queries (C22) -/

/-- C22: `GetOnlineCount` is the cardinality of the presence set and
`IsUserOnline(P)` is the membership of `P.String()` in it; two hub states with
the same presence set give the same answers, whatever their registries. -/
theorem C22_queries_read_presence_only (h1 h2 : Hub) (P : UUID)
    (hp : h1.presence = h2.presence) :
    h1.GetOnlineCount = (h1.presence.length : Int) ∧
      h1.IsUserOnline P = decide (P.String ∈ h1.presence) ∧
      h1.GetOnlineCount = h2.GetOnlineCount ∧
      h1.IsUserOnline P = h2.IsUserOnline P := by
  have e : h1.redis.sets "online:users" = h2.redis.sets "online:users" := hp
  refine ⟨rfl, rfl, ?_, ?_⟩
  · simp only [Hub.GetOnlineCount, RedisClient.SCard, e]
  · simp only [Hub.IsUserOnline, RedisClient.SIsMember, e]

set_option maxRecDepth 100000 in
theorem C22_queries_read_presence_only_witness :
    hubOne.presence = hubTwo.presence ∧ hubOne.clients ≠ hubTwo.clients ∧
      hubOne.userClients ≠ hubTwo.userClients ∧
      hubOne.GetOnlineCount = (hubOne.presence.length : Int) ∧
      hubOne.IsUserOnline alice = decide (alice.String ∈ hubOne.presence) ∧
      hubOne.GetOnlineCount = hubTwo.GetOnlineCount ∧
      hubOne.IsUserOnline alice = hubTwo.IsUserOnline alice :=
  ⟨by decide, by decide, by decide,
    C22_queries_read_presence_only hubOne hubTwo alice (by decide)⟩

/-! ## The entries of `userClients` in every reachable state (C23) -/

theorem Hub.EntriesOK.afterAdd {h : Hub} (he : h.EntriesOK) (c : Client) :
    (h.withClient c).EntriesOK := by
  intro u set hg
  simp only [Hub.withClient, mapGet_registeredUsers] at hg
  split at hg
  · rename_i hcu
    cases hg
    refine ⟨setAdd_ne_nil _ _, ?_⟩
    intro d hd
    rcases mem_setAdd.mp hd with rfl | hd
    · exact hcu.2.symm
    · cases hg' : mapGet h.userClients u with
      | none => simp [hg'] at hd
      | some s0 =>
        simp only [hg', Option.getD_some] at hd
        exact (he u s0 hg').2 d hd
  · exact he u set hg

theorem Hub.EntriesOK.afterDrop {h : Hub} (he : h.EntriesOK) (c : Client) :
    (h.withoutClient c).EntriesOK := by
  intro u set hg
  simp only [Hub.withoutClient, mapGet_unregisteredUsers] at hg
  split at hg
  · cases hg' : mapGet h.userClients u with
    | none => simp [hg'] at hg
    | some s0 =>
      simp only [hg'] at hg
      split at hg
      · cases hg
      · rename_i hne
        cases hg
        exact ⟨hne, fun d hd => (he u s0 hg').2 d (mem_setDelete.mp hd).1⟩
  · exact he u set hg

theorem forRange_sendOrEvict_userClients {data : Bytes} :
    ∀ (l : List Client) {h h' : Hub}, forRange (Hub.sendOrEvict data) l h = .ok h' →
      h'.userClients = h.userClients ∧ h'.redis = h.redis ∧ h'.broadcast = h.broadcast
  | [], h, h', e => by
    simp only [forRange] at e
    cases e
    exact ⟨rfl, rfl, rfl⟩
  | a :: l, h, h', e => by
    simp only [forRange] at e
    cases e1 : Hub.sendOrEvict data h a with
    | error p => simp [e1] at e
    | ok h1 =>
      simp only [e1] at e
      obtain ⟨ho, -⟩ := Hub.sendOrEvict_ok e1
      obtain ⟨h1', e1', hu, hb, hr, -⟩ := Hub.sendOrEvict_of_open data ho
      rw [e1'] at e1
      cases e1
      obtain ⟨iu, ir, ib⟩ := forRange_sendOrEvict_userClients l e
      exact ⟨iu.trans hu, ir.trans hr, ib.trans hb⟩

theorem Hub.SendToUser_userClients {h h' : Hub} {u : UUID} {m : Message}
    (e : h.SendToUser u m = .ok h') : h'.userClients = h.userClients := by
  unfold Hub.SendToUser at e
  cases hm : jsonMarshal m with
  | none =>
    simp only [hm] at e
    cases e
    rfl
  | some data =>
    simp only [hm] at e
    cases hg : mapGet h.userClients u with
    | none =>
      simp only [hg] at e
      cases e
      rfl
    | some set =>
      simp only [hg] at e
      cases e1 : forRange (Hub.sendOrEvict data) set h with
      | error p => simp [e1] at e
      | ok h1 =>
        simp only [e1] at e
        cases e
        exact (forRange_sendOrEvict_userClients set e1).1

theorem Hub.EntriesOK.afterStep {h h' : Hub} (hl : h.Live) (he : h.EntriesOK) {op : Op}
    (e : h.apply op = .ok h') : h'.EntriesOK := by
  have carry : ∀ g : Hub, g.EntriesOK → h'.userClients = g.userClients → h'.EntriesOK := by
    intro g hg hu u set hget
    exact hg u set (hu ▸ hget)
  cases op with
  | register c =>
    simp only [Hub.apply, Hub.registerClient_eq] at e
    obtain ⟨-, -, hu, -⟩ := Hub.broadcastOnlineCount_ok e
    exact carry _ (he.afterAdd c) hu
  | unregister c =>
    simp only [Hub.apply] at e
    by_cases hm : c ∈ h.clients
    · rw [Hub.unregisterClient_eq h c hm (hl.2 c hm)] at e
      obtain ⟨-, -, hu, -⟩ := Hub.broadcastOnlineCount_ok e
      exact carry _ (he.afterDrop c) hu
    · rw [Hub.unregisterClient_not_mem h c hm] at e
      cases e
      exact he
  | sendToUser u m => exact carry _ he (Hub.SendToUser_userClients e)
  | broadcastMessage data =>
    exact carry _ he (forRange_sendOrEvict_userClients _ e).1

theorem Hub.EntriesOK.afterSteps :
    ∀ (ops : List Op) {h h' : Hub}, h.Live → h.EntriesOK → h.run ops = .ok h' →
      h'.EntriesOK
  | [], h, h', _, he, e => by
    simp only [Hub.run] at e
    cases e
    exact he
  | op :: ops, h, h', hl, he, e => by
    simp only [Hub.run] at e
    cases e1 : h.apply op with
    | error p => simp [e1] at e
    | ok h1 =>
      simp only [e1] at e
      have hl1 : h1.Live := Hub.Live.afterRun [op] hl (by simp [Hub.run, e1])
      exact Hub.EntriesOK.afterSteps ops hl1 (he.afterStep hl e1) e

/-- C23: in every hub state reachable from the empty hub by registerClient,
unregisterClient, SendToUser and the broadcast fan-out (queue-full evictions
included), every key present in `h.userClients` maps to a non-empty set of
connections, and every connection in `h.userClients[u]` has `UserID == u`. -/
theorem C23_user_entries_nonempty (redis : RedisClient) (Send : Client → Chan)
    (ops : List Op) (h : Hub) (hrun : (NewHub redis Send).run ops = .ok h)
    (u : UUID) (set : List Client) (hg : mapGet h.userClients u = some set) :
    set ≠ [] ∧ ∀ c ∈ set, c.UserID = u := by
  have he0 : (NewHub redis Send).EntriesOK := by
    intro u set hg
    simp [NewHub, mapGet] at hg
  exact Hub.EntriesOK.afterSteps ops (NewHub_live redis Send) he0 hrun u set hg

theorem eq_ok_hubOr (r : Except Panic Hub) (d : Hub) (hr : panicOf r = none) :
    r = .ok (hubOr d r) := by
  cases r with
  | error p => simp [panicOf] at hr
  | ok h => rfl

set_option maxRecDepth 100000 in
theorem C23_user_entries_nonempty_witness :
    hub0.run evictOps = .ok hubEvicted ∧
      mapGet hubEvicted.userClients alice = some [conn1, conn2] ∧
      conn1 ∉ hubEvicted.clients ∧
      ([conn1, conn2] ≠ [] ∧ ∀ c ∈ [conn1, conn2], c.UserID = alice) :=
  ⟨eq_ok_hubOr _ _ (by decide), by decide, by decide,
    C23_user_entries_nonempty RedisClient.empty freshSend evictOps hubEvicted
      (eq_ok_hubOr _ _ (by decide)) alice [conn1, conn2] (by decide)⟩

/-! ## The presence add of registerClient (C24) -/

set_option maxRecDepth 100000 in
/-- C24 (counterexample): after `gapOps` hub `a` holds the connection `conn1`
of `alice` and `alice` is not in the presence set (hub `b` has removed her).
Registering the further connection `conn5` of `alice` on hub `a` puts `alice`
into the presence set: the add is issued although `h.userClients` had an entry
for `alice` before the call. -/
theorem C24_add_on_further_connection :
    panicOf (cluster0.runReg gapOps) = none ∧
      mapGet hubGap.userClients alice = some [conn1] ∧
      alice.String ∉ hubGap.presence ∧
      panicOf (hubGap.registerClient conn5) = none ∧
      mapGet (hubOr hub0 (hubGap.registerClient conn5)).userClients alice =
        some [conn1, conn5] ∧
      (hubOr hub0 (hubGap.registerClient conn5)).presence = [alice.String] := by
  decide

/-- C24 (amended): in every state the hub reaches, `registerClient` of a
connection with an open queue returns; for a connection with a principal it
applies the add to the presence set on every registration, first or further
(afterwards the principal is a member, and the set is the old one with that
member added, hence unchanged when the principal was a member already); for an
anonymous connection the presence set is unchanged. -/
theorem C24_presence_add_every_registration (h : Hub) (hl : h.Live) (c : Client)
    (ho : (h.Send c).closed = false) :
    ∃ h', h.registerClient c = .ok h' ∧
      (c.UserID ≠ uuid.Nil →
        h'.presence = setAdd h.presence c.UserID.String ∧
        c.UserID.String ∈ h'.presence ∧
        (c.UserID.String ∈ h.presence → h'.presence = h.presence)) ∧
      (c.UserID = uuid.Nil → h'.presence = h.presence) := by
  obtain ⟨h', e, -, -, -, hr, -⟩ := Hub.registerClient_live hl c ho
  refine ⟨h', e, ?_, ?_⟩
  · intro hn
    have hp : h'.presence = setAdd h.presence c.UserID.String := by
      rw [Hub.presence, hr]
      simp [Hub.withClient, hn, RedisClient.SAdd, Hub.presence]
    refine ⟨hp, by rw [hp]; exact mem_setAdd.mpr (Or.inl rfl), ?_⟩
    intro hin
    rw [hp]
    simp [setAdd, hin]
  · intro hn
    rw [Hub.presence, hr]
    simp [Hub.withClient, hn, Hub.presence]

set_option maxRecDepth 100000 in
theorem C24_presence_add_every_registration_witness :
    hubOne.Live ∧ (hubOne.Send conn2).closed = false ∧ conn2.UserID ≠ uuid.Nil ∧
      mapGet hubOne.userClients conn2.UserID = some [conn1] ∧
      ∃ h', hubOne.registerClient conn2 = .ok h' ∧
        (conn2.UserID ≠ uuid.Nil →
          h'.presence = setAdd hubOne.presence conn2.UserID.String ∧
          conn2.UserID.String ∈ h'.presence ∧
          (conn2.UserID.String ∈ hubOne.presence → h'.presence = hubOne.presence)) ∧
        (conn2.UserID = uuid.Nil → h'.presence = hubOne.presence) :=
  ⟨by decide, by decide, by decide, by decide,
    C24_presence_add_every_registration hubOne (by decide) conn2 (by decide)⟩

/-! ## Local delivery and the outcome of the publish (C25) -/

theorem Hub.SendToUserIf_true (h : Hub) (u : UUID) (m : Message) :
    Hub.SendToUserIf true h u m = h.SendToUser u m := by
  simp [Hub.SendToUserIf, Hub.SendToUser, RedisClient.PublishIf]

theorem Hub.BroadcastIf_true (h : Hub) (m : Message) :
    Hub.BroadcastIf true h m = h.Broadcast m := by
  simp [Hub.BroadcastIf, Hub.Broadcast, RedisClient.PublishIf]

/-- C25: for every hub state, principal and message, `SendToUser` ends the
same way (returns or panics) and leaves the same registry, the same queues and
the same broadcast channel whether its bus publish succeeds or fails; and
`Broadcast` ends the same way and leaves the same frame on the broadcast
channel (with the same registry and queues) whether its bus publish succeeds
or fails.  The variants with a successful publish are `SendToUser` and
`Broadcast` themselves. -/
theorem C25_local_delivery_independent_of_bus (h : Hub) (P : UUID) (m : Message) :
    (Hub.SendToUserIf true h P m).map Hub.localState =
        (Hub.SendToUserIf false h P m).map Hub.localState ∧
      (Hub.BroadcastIf true h m).map Hub.localState =
        (Hub.BroadcastIf false h m).map Hub.localState ∧
      Hub.SendToUserIf true h P m = h.SendToUser P m ∧
      Hub.BroadcastIf true h m = h.Broadcast m := by
  refine ⟨?_, ?_, Hub.SendToUserIf_true h P m, Hub.BroadcastIf_true h m⟩
  · unfold Hub.SendToUserIf
    cases jsonMarshal m with
    | none => rfl
    | some data =>
      simp only
      cases mapGet h.userClients P with
      | none => rfl
      | some set =>
        simp only
        cases forRange (Hub.sendOrEvict data) set h with
        | error p => rfl
        | ok h1 => rfl
  · unfold Hub.BroadcastIf
    cases jsonMarshal m with
    | none => rfl
    | some data =>
      simp only
      split <;> rfl

/-! ## A broadcast delivered twice (C26) -/

theorem RedisClient.Subscribe_Publish_same (r : RedisClient) (channel : String)
    (data : Bytes) :
    (r.Publish channel data).Subscribe channel = r.Subscribe channel ++ [data] := by
  simp [RedisClient.Subscribe, RedisClient.Publish, List.filter_append, List.filter]

theorem Chan.hasRoom_push {ch : Chan} (data : Bytes) (h2 : ch.buf.length + 2 ≤ ch.cap) :
    ch.hasRoom = true ∧ (ch.push data).hasRoom = true := by
  simp only [Chan.hasRoom, Chan.push, List.length_append, List.length_singleton,
    decide_eq_true_eq]
  omega

theorem Hub.Live.afterRelay {h h' : Hub} (hl : h.Live) {payload : Bytes}
    (e : h.relay payload = .ok h') : h'.Live := by
  obtain ⟨-, hcl, -, -, -, hclosed, -⟩ := forRange_sendOrSkip_ok _ e
  refine ⟨hcl ▸ hl.1, ?_⟩
  intro c hc
  rw [hclosed c]
  exact hl.2 c (hcl ▸ hc)

theorem Hub.subscribeToRedis_single (h : Hub) (payload : Bytes) :
    h.subscribeToRedis [payload] = h.relay payload := by
  simp only [Hub.subscribeToRedis]
  cases h.relay payload <;> rfl

/-- In a state the hub reaches the relay loop handles every message it is
given and touches only the queues. -/
theorem Hub.subscribeToRedis_spec :
    ∀ (ch : List Bytes) (h : Hub), h.Live →
      ∃ h', h.subscribeToRedis ch = .ok h' ∧ h'.Live ∧ h'.clients = h.clients ∧
        h'.userClients = h.userClients ∧ h'.broadcast = h.broadcast ∧ h'.redis = h.redis
  | [], h, hl => ⟨h, rfl, hl, rfl, rfl, rfl, rfl⟩
  | payload :: ch, h, hl => by
    obtain ⟨h1, e1, hcl1, hu1, hb1, hr1, -⟩ := Hub.relay_spec h hl payload
    obtain ⟨h2, e2, hl2, hcl2, hu2, hb2, hr2⟩ :=
      Hub.subscribeToRedis_spec ch h1 (hl.afterRelay e1)
    refine ⟨h2, ?_, hl2, hcl2.trans hcl1, hu2.trans hu1, hb2.trans hb1, hr2.trans hr1⟩
    simp only [Hub.subscribeToRedis, e1]
    exact e2

/-- In a state the hub reaches, the event loop's fan-out of the oldest pending
frame returns: a registered queue with room gets the frame, a registered queue
without room is closed and its connection removed. -/
theorem Hub.runBroadcast_spec (h : Hub) (hl : h.Live) (f : Bytes) (rest : List Bytes)
    (hb : h.broadcast = f :: rest) :
    ∃ h', h.runBroadcast = .ok h' ∧ h'.Live ∧ h'.broadcast = rest ∧ h'.redis = h.redis ∧
      h'.userClients = h.userClients ∧
      (∀ c, c ∈ h'.clients ↔ c ∈ h.clients ∧ (h.Send c).hasRoom = true) ∧
      ∀ c ∈ h.clients, h'.Send c =
        if (h.Send c).hasRoom = true then (h.Send c).push f else (h.Send c).shut := by
  have hl0 : Hub.Live { h with broadcast := rest } := hl
  obtain ⟨h', e, hu, hbr, hr, hcl, hs⟩ :=
    forRange_sendOrEvict_spec f h.clients { h with broadcast := rest } hl0.1 hl0.2
  have hrun : h.runBroadcast = .ok h' := by
    simp only [Hub.runBroadcast, hb, Hub.broadcastMessage]
    exact e
  refine ⟨h', hrun, Hub.Live.forRange_sendOrEvict _ hl0 e, hbr, hr, hu, ?_, ?_⟩
  · intro c
    rw [hcl c]
    show c ∈ h.clients ∧ ¬ (c ∈ h.clients ∧ (h.Send c).hasRoom = false) ↔ _
    constructor
    · rintro ⟨hc, hn⟩
      refine ⟨hc, ?_⟩
      cases hroom : (h.Send c).hasRoom
      · exact absurd ⟨hc, hroom⟩ hn
      · rfl
    · rintro ⟨hc, hroom⟩
      exact ⟨hc, fun hn => by simp [hroom] at hn⟩
  · intro c hc
    rw [hs c]
    show (if c ∈ h.clients then
      (if (h.Send c).hasRoom = true then (h.Send c).push f else (h.Send c).shut)
      else h.Send c) = _
    rw [if_pos hc]

/-- In a state the hub reaches, the fan-out of the `n` oldest pending frames
returns; a registered connection whose queue has room for `n` frames stays
registered and holds these frames, oldest first, at the back of its queue. -/
theorem Hub.runBroadcasts_spec :
    ∀ (n : Nat) (h : Hub), h.Live → n ≤ h.broadcast.length →
      ∃ h', h.runBroadcasts n = .ok h' ∧ h'.Live ∧ h'.broadcast = h.broadcast.drop n ∧
        h'.redis = h.redis ∧ h'.userClients = h.userClients ∧
        (∀ c ∈ h'.clients, c ∈ h.clients) ∧
        ∀ c ∈ h.clients, (h.Send c).buf.length + n ≤ (h.Send c).cap →
          c ∈ h'.clients ∧
          h'.Send c = { h.Send c with buf := (h.Send c).buf ++ h.broadcast.take n }
  | 0, h, hl, _ => ⟨h, rfl, hl, rfl, rfl, rfl, fun _ hc => hc, fun c hc _ => ⟨hc, by simp⟩⟩
  | n + 1, h, hl, hn => by
    cases hb : h.broadcast with
    | nil => simp [hb] at hn
    | cons f rest =>
      obtain ⟨h1, e1, hl1, hb1, hr1, hu1, hcl1, hs1⟩ := Hub.runBroadcast_spec h hl f rest hb
      have hn1 : n ≤ h1.broadcast.length := by
        rw [hb1]
        simpa [hb] using hn
      obtain ⟨h2, e2, hl2, hb2, hr2, hu2, hcl2, hs2⟩ := Hub.runBroadcasts_spec n h1 hl1 hn1
      refine ⟨h2, ?_, hl2, ?_, hr2.trans hr1, hu2.trans hu1, ?_, ?_⟩
      · simp only [Hub.runBroadcasts, e1]
        exact e2
      · rw [hb2, hb1]
        rfl
      · intro c hc
        exact ((hcl1 c).mp (hcl2 c hc)).1
      · intro c hc hroom
        have hr : (h.Send c).hasRoom = true := by
          simp only [Chan.hasRoom, decide_eq_true_eq]
          omega
        have hc1 : c ∈ h1.clients := (hcl1 c).mpr ⟨hc, hr⟩
        have hsend1 : h1.Send c = (h.Send c).push f := by
          rw [hs1 c hc, if_pos hr]
        have hroom1 : (h1.Send c).buf.length + n ≤ (h1.Send c).cap := by
          rw [hsend1]
          simp only [Chan.push, List.length_append, List.length_singleton]
          omega
        obtain ⟨hc2, hsend2⟩ := hs2 c hc1 hroom1
        refine ⟨hc2, ?_⟩
        rw [hsend2, hsend1, hb1]
        simp [Chan.push]

theorem Outcome.eq_returned {α : Type} (o : Outcome α) (d : α)
    (hr : o.result.isSome = true) : o = .returned (o.result.getD d) := by
  cases o <;> simp [Outcome.result] at hr ⊢

/-- C26: in every state the hub reaches, a `Broadcast(m)` that completes
(returns `h1`), whatever is pending on the broadcast channel, has appended the
serialized `m` to the broadcast channel and published exactly one copy of it
on `ws:broadcast`, which the hub's own subscription receives as one further
message.

Once the event loop has fanned out the frames that were pending before it and
`g` is the state in which the frame of `m` is the next one, the local fan-out
of this frame and `subscribeToRedis` handling the hub's own bus message, in
either order, leave the frame twice at the back of the queue of every
connection registered in `g` whose queue had room for both.

More generally, wherever the hub's own bus message is handled among the
fan-outs (after `k` of them), a connection registered at the time of the
`Broadcast` whose queue had room for the pending frames and for both copies
stays registered and ends with the pending frames and the two copies at the
back of its queue, the second copy where the relay put it.

`subscribeToRedis` never changes `h.clients` or `h.userClients`, whatever
messages it handles. -/
theorem C26_broadcast_delivered_twice (h : Hub) (hl : h.Live)
    (m : Message) (data : Bytes) (hm : jsonMarshal m = some data)
    (h1 : Hub) (hb : h.Broadcast m = .returned h1) :
    h1.redis.published = h.redis.published ++ [("ws:broadcast", data)] ∧
      h1.redis.Subscribe "ws:broadcast" = h.redis.Subscribe "ws:broadcast" ++ [data] ∧
      h1.broadcast = h.broadcast ++ [data] ∧
      (∃ g, h1.runBroadcasts h.broadcast.length = .ok g ∧ g.broadcast = [data] ∧
        (∃ g2 g3, g.runBroadcast = .ok g2 ∧ g2.subscribeToRedis [data] = .ok g3 ∧
          g3.clients = g2.clients ∧ g3.userClients = g2.userClients ∧
          ∀ c ∈ g.clients, (g.Send c).buf.length + 2 ≤ (g.Send c).cap →
            c ∈ g3.clients ∧ g3.Send c = ((g.Send c).push data).push data) ∧
        (∃ g2 g3, g.subscribeToRedis [data] = .ok g2 ∧ g2.runBroadcast = .ok g3 ∧
          g2.clients = g.clients ∧ g2.userClients = g.userClients ∧
          ∀ c ∈ g.clients, (g.Send c).buf.length + 2 ≤ (g.Send c).cap →
            c ∈ g3.clients ∧ g3.Send c = ((g.Send c).push data).push data)) ∧
      (∀ k, k ≤ h.broadcast.length + 1 →
        ∃ h2 h3 h4, h1.runBroadcasts k = .ok h2 ∧ h2.subscribeToRedis [data] = .ok h3 ∧
          h3.runBroadcasts (h.broadcast.length + 1 - k) = .ok h4 ∧
          h3.clients = h2.clients ∧ h3.userClients = h2.userClients ∧
          ∀ c ∈ h.clients,
            (h.Send c).buf.length + h.broadcast.length + 2 ≤ (h.Send c).cap →
            c ∈ h4.clients ∧
            h4.Send c = { h.Send c with
              buf := (h.Send c).buf ++ ((h.broadcast ++ [data]).take k ++
                data :: (h.broadcast ++ [data]).drop k) }) ∧
      ∀ ch, ∃ h', h.subscribeToRedis ch = .ok h' ∧ h'.clients = h.clients ∧
        h'.userClients = h.userClients := by
  have hroom : h.broadcast.length < 256 := by
    by_contra hn
    simp [Hub.Broadcast, hm, hn] at hb
  have hb1 : ∃ h1, h.Broadcast m = .returned h1 ∧ h1.clients = h.clients ∧
      h1.userClients = h.userClients ∧ h1.Send = h.Send ∧
      h1.broadcast = h.broadcast ++ [data] ∧
      h1.redis = h.redis.Publish "ws:broadcast" data := by
    let r1 := h.redis.Publish "ws:broadcast" data
    refine ⟨{ h with broadcast := h.broadcast ++ [data], redis := r1 }, ?_, rfl, rfl, rfl,
      rfl, rfl⟩
    simp [Hub.Broadcast, hm, hroom, r1]
  obtain ⟨h1', e1, hcl1, hu1, hs1, hbr1, hr1⟩ := hb1
  have hsame : h1' = h1 := by
    rw [e1] at hb
    cases hb
    rfl
  subst hsame
  have hl1 : h1'.Live := by
    refine ⟨hcl1 ▸ hl.1, ?_⟩
    intro c hc
    rw [hs1]
    exact hl.2 c (hcl1 ▸ hc)
  refine ⟨by rw [hr1]; rfl,
    by rw [hr1]; exact RedisClient.Subscribe_Publish_same _ _ _, hbr1, ?_, ?_, ?_⟩
  · -- the frames pending before are fanned out first
    obtain ⟨g, eg, hlg, hbg, -, -, -, -⟩ :=
      Hub.runBroadcasts_spec h.broadcast.length h1' hl1 (by simp [hbr1])
    have hbg' : g.broadcast = [data] := by
      rw [hbg, hbr1]
      simp
    refine ⟨g, eg, hbg', ?_, ?_⟩
    · -- the local fan-out first, then the relay
      obtain ⟨g2, e2, hl2, -, -, -, hcl2, hs2⟩ := Hub.runBroadcast_spec g hlg data [] hbg'
      obtain ⟨g3, e3, hcl3, hu3, -, -, hs3⟩ := Hub.relay_spec g2 hl2 data
      refine ⟨g2, g3, e2, by rw [Hub.subscribeToRedis_single]; exact e3, hcl3, hu3, ?_⟩
      intro c hc hr
      obtain ⟨r1, r2⟩ := Chan.hasRoom_push data hr
      have hc2 : c ∈ g2.clients := (hcl2 c).mpr ⟨hc, r1⟩
      have hsend2 : g2.Send c = (g.Send c).push data := by
        rw [hs2 c hc, if_pos r1]
      refine ⟨hcl3 ▸ hc2, ?_⟩
      rw [hs3 c, hsend2, if_pos ⟨hc2, r2⟩]
    · -- the relay first, then the local fan-out
      obtain ⟨g2, e2, hcl2, hu2, hb2, -, hs2⟩ := Hub.relay_spec g hlg data
      have hl2 : g2.Live := hlg.afterRelay e2
      obtain ⟨g3, e3, -, -, -, -, hcl3, hs3⟩ :=
        Hub.runBroadcast_spec g2 hl2 data [] (hb2.trans hbg')
      refine ⟨g2, g3, by rw [Hub.subscribeToRedis_single]; exact e2, e3, hcl2, hu2, ?_⟩
      intro c hc hr
      obtain ⟨r1, r2⟩ := Chan.hasRoom_push data hr
      have hc2 : c ∈ g2.clients := hcl2 ▸ hc
      have hsend2 : g2.Send c = (g.Send c).push data := by
        rw [hs2 c, if_pos ⟨hc, r1⟩]
      have r2' : (g2.Send c).hasRoom = true := by rw [hsend2]; exact r2
      refine ⟨(hcl3 c).mpr ⟨hc2, r2'⟩, ?_⟩
      rw [hs3 c hc2, if_pos r2', hsend2]
  · -- the relay after `k` fan-outs
    intro k hk
    have hlen1 : h1'.broadcast.length = h.broadcast.length + 1 := by simp [hbr1]
    obtain ⟨h2, e2, hl2, hb2, -, -, -, hs2⟩ :=
      Hub.runBroadcasts_spec k h1' hl1 (by omega)
    obtain ⟨h3, e3, hcl3, hu3, hb3, -, hs3⟩ := Hub.relay_spec h2 hl2 data
    have hl3 : h3.Live := hl2.afterRelay e3
    have hlen3 : h.broadcast.length + 1 - k ≤ h3.broadcast.length := by
      rw [hb3, hb2, List.length_drop, hlen1]
    obtain ⟨h4, e4, -, -, -, -, -, hs4⟩ :=
      Hub.runBroadcasts_spec (h.broadcast.length + 1 - k) h3 hl3 hlen3
    refine ⟨h2, h3, h4, e2, by rw [Hub.subscribeToRedis_single]; exact e3, e4, hcl3, hu3, ?_⟩
    intro c hc hr
    have hc1 : c ∈ h1'.clients := hcl1 ▸ hc
    have hsend1 : h1'.Send c = h.Send c := by rw [hs1]
    obtain ⟨hc2, hsend2⟩ := hs2 c hc1 (by rw [hsend1]; omega)
    have hlen2 : (h2.Send c).buf.length = (h.Send c).buf.length + k := by
      rw [hsend2, hsend1]
      simp only [List.length_append, List.length_take, hlen1]
      omega
    have hcap2 : (h2.Send c).cap = (h.Send c).cap := by rw [hsend2, hsend1]
    have hroom2 : (h2.Send c).hasRoom = true := by
      simp only [Chan.hasRoom, decide_eq_true_eq]
      omega
    have hc3 : c ∈ h3.clients := hcl3 ▸ hc2
    have hsend3 : h3.Send c = (h2.Send c).push data := by
      rw [hs3 c, if_pos ⟨hc2, hroom2⟩]
    obtain ⟨hc4, hsend4⟩ := hs4 c hc3 (by
      rw [hsend3]
      simp only [Chan.push, List.length_append, List.length_singleton]
      omega)
    refine ⟨hc4, ?_⟩
    have htake : h3.broadcast.take (h.broadcast.length + 1 - k) = h1'.broadcast.drop k := by
      rw [hb3, hb2]
      apply List.take_of_length_le
      rw [List.length_drop, hlen1]
    rw [hsend4, htake, hsend3, hsend2, hsend1, hbr1]
    simp [Chan.push]
  · intro ch
    obtain ⟨h', e, -, hcl, hu, -, -⟩ := Hub.subscribeToRedis_spec ch h hl
    exact ⟨h', e, hcl, hu⟩

set_option maxRecDepth 100000 in
theorem C26_broadcast_delivered_twice_witness :
    hubBusy.Live ∧ hubBusy.broadcast = [noteFrame] ∧
      jsonMarshal update = some updateFrame ∧
      hubBusy.Broadcast update = .returned hubSent ∧ conn3 ∈ hubBusy.clients ∧
      (hubBusy.Send conn3).buf.length + hubBusy.broadcast.length + 2 ≤
        (hubBusy.Send conn3).cap ∧
      (hubSent.redis.published =
          hubBusy.redis.published ++ [("ws:broadcast", updateFrame)] ∧
        hubSent.redis.Subscribe "ws:broadcast" =
          hubBusy.redis.Subscribe "ws:broadcast" ++ [updateFrame] ∧
        hubSent.broadcast = hubBusy.broadcast ++ [updateFrame] ∧
        (∃ g, hubSent.runBroadcasts hubBusy.broadcast.length = .ok g ∧
          g.broadcast = [updateFrame] ∧
          (∃ g2 g3, g.runBroadcast = .ok g2 ∧ g2.subscribeToRedis [updateFrame] = .ok g3 ∧
            g3.clients = g2.clients ∧ g3.userClients = g2.userClients ∧
            ∀ c ∈ g.clients, (g.Send c).buf.length + 2 ≤ (g.Send c).cap →
              c ∈ g3.clients ∧
              g3.Send c = ((g.Send c).push updateFrame).push updateFrame) ∧
          (∃ g2 g3, g.subscribeToRedis [updateFrame] = .ok g2 ∧ g2.runBroadcast = .ok g3 ∧
            g2.clients = g.clients ∧ g2.userClients = g.userClients ∧
            ∀ c ∈ g.clients, (g.Send c).buf.length + 2 ≤ (g.Send c).cap →
              c ∈ g3.clients ∧
              g3.Send c = ((g.Send c).push updateFrame).push updateFrame)) ∧
        (∀ k, k ≤ hubBusy.broadcast.length + 1 →
          ∃ h2 h3 h4, hubSent.runBroadcasts k = .ok h2 ∧
            h2.subscribeToRedis [updateFrame] = .ok h3 ∧
            h3.runBroadcasts (hubBusy.broadcast.length + 1 - k) = .ok h4 ∧
            h3.clients = h2.clients ∧ h3.userClients = h2.userClients ∧
            ∀ c ∈ hubBusy.clients,
              (hubBusy.Send c).buf.length + hubBusy.broadcast.length + 2 ≤
                (hubBusy.Send c).cap →
              c ∈ h4.clients ∧
              h4.Send c = { hubBusy.Send c with
                buf := (hubBusy.Send c).buf ++
                  ((hubBusy.broadcast ++ [updateFrame]).take k ++
                    updateFrame :: (hubBusy.broadcast ++ [updateFrame]).drop k) }) ∧
        ∀ ch, ∃ h', hubBusy.subscribeToRedis ch = .ok h' ∧ h'.clients = hubBusy.clients ∧
          h'.userClients = hubBusy.userClients) :=
  ⟨by decide, by decide, by decide, Outcome.eq_returned _ _ (by decide), by decide,
    by decide,
    C26_broadcast_delivered_twice hubBusy (by decide) update updateFrame (by decide) hubSent
      (Outcome.eq_returned _ _ (by decide))⟩

/-! ## The online count and the keys of `userClients` (C29) -/

section KeysLemmas
variable {κ : Type} {ν : Type} [DecidableEq κ]

theorem mem_mapKeys_iff (m : List (κ × ν)) (k : κ) : k ∈ mapKeys m ↔ mapGet m k ≠ none := by
  induction m with
  | nil => simp [mapKeys, mapGet]
  | cons e m ih =>
    obtain ⟨k', v'⟩ := e
    by_cases hk : k' = k
    · simp [mapKeys, mapGet, hk]
    · have hk' : k ≠ k' := fun e => hk e.symm
      simp only [mapKeys, List.map_cons, List.mem_cons, hk', false_or, mapGet, hk, if_false]
      exact ih

theorem mapKeys_mapSet (m : List (κ × ν)) (k : κ) (v : ν) :
    mapKeys (mapSet m k v) = if k ∈ mapKeys m then mapKeys m else mapKeys m ++ [k] := by
  induction m with
  | nil => simp [mapKeys, mapSet]
  | cons e m ih =>
    obtain ⟨k', v'⟩ := e
    by_cases hk : k' = k
    · simp [mapKeys, mapSet, hk]
    · have hk' : k ≠ k' := fun e => hk e.symm
      simp only [mapKeys, List.map_cons, List.mem_cons, hk', false_or, mapSet, hk, if_false]
      simp only [mapKeys] at ih
      rw [ih]
      split <;> simp

theorem nodup_mapKeys_mapSet {m : List (κ × ν)} (k : κ) (v : ν) (h : (mapKeys m).Nodup) :
    (mapKeys (mapSet m k v)).Nodup := by
  rw [mapKeys_mapSet]
  split
  · exact h
  · rename_i hk
    exact List.nodup_append.mpr ⟨h, List.nodup_singleton k, by simpa using hk⟩

theorem mapKeys_mapDelete_sublist (m : List (κ × ν)) (k : κ) :
    (mapKeys (mapDelete m k)).Sublist (mapKeys m) := by
  induction m with
  | nil => simp [mapKeys, mapDelete]
  | cons e m ih =>
    obtain ⟨k', v'⟩ := e
    by_cases hk : k' = k
    · simp only [mapDelete, hk, if_true, mapKeys, List.map_cons]
      exact List.Sublist.cons _ ih
    · simp only [mapDelete, hk, if_false, mapKeys, List.map_cons]
      exact List.Sublist.cons₂ _ ih

end KeysLemmas

theorem Hub.Counted.countedAdd {h : Hub} (hk : h.Counted) (c : Client) :
    (h.withClient c).Counted := by
  constructor
  · by_cases hn : c.UserID = uuid.Nil
    · simpa [Hub.presence, Hub.withClient, hn] using hk.1
    · have : (h.withClient c).presence = setAdd h.presence c.UserID.String := by
        simp [Hub.presence, Hub.withClient, hn, RedisClient.SAdd]
      rw [this]
      exact nodup_setAdd _ hk.1
  · show (mapKeys (registeredUsers h.userClients c)).Nodup
    unfold registeredUsers
    split
    · exact hk.2
    · exact nodup_mapKeys_mapSet _ _ hk.2

theorem Hub.Counted.countedDrop {h : Hub} (hk : h.Counted) (c : Client) :
    (h.withoutClient c).Counted := by
  constructor
  · have hsub : ∀ r : RedisClient, r = h.redis ∨
        r = h.redis.SRem "online:users" c.UserID.String →
        (r.sets "online:users").Nodup := by
      rintro r (rfl | rfl)
      · exact hk.1
      · simpa [RedisClient.SRem] using nodup_setDelete c.UserID.String hk.1
    apply hsub
    simp only [Hub.withoutClient]
    split
    · exact Or.inl rfl
    · split
      · exact Or.inl rfl
      · split
        · exact Or.inr rfl
        · exact Or.inl rfl
  · show (mapKeys (unregisteredUsers h.userClients c)).Nodup
    unfold unregisteredUsers
    split
    · exact hk.2
    · split
      · exact hk.2
      · split
        · exact hk.2.sublist (mapKeys_mapDelete_sublist _ _)
        · exact nodup_mapKeys_mapSet _ _ hk.2

theorem Hub.Counted.afterReg {h h' : Hub} (hc : h.Consistent) (hk : h.Counted) {op : RegOp}
    (e : h.applyReg op = .ok h') : h'.Counted := by
  have carry : ∀ g : Hub, g.Counted → h'.userClients = g.userClients → h'.redis = g.redis →
      h'.Counted := by
    intro g hg hu hr
    unfold Hub.Counted Hub.presence at hg ⊢
    rw [hu, hr]
    exact hg
  cases op with
  | register c =>
    simp only [Hub.applyReg, Hub.registerClient_eq] at e
    obtain ⟨-, -, hu, -, hr, -, -⟩ := Hub.broadcastOnlineCount_ok e
    exact carry _ (hk.countedAdd c) hu hr
  | unregister c =>
    simp only [Hub.applyReg] at e
    by_cases hm : c ∈ h.clients
    · rw [Hub.unregisterClient_eq h c hm (hc.clients_open c hm)] at e
      obtain ⟨-, -, hu, -, hr, -, -⟩ := Hub.broadcastOnlineCount_ok e
      exact carry _ (hk.countedDrop c) hu hr
    · rw [Hub.unregisterClient_not_mem h c hm] at e
      cases e
      exact hk

theorem Hub.Counted.afterRegs :
    ∀ (ops : List RegOp) {h h' : Hub}, h.Consistent → h.Counted → h.runReg ops = .ok h' →
      h'.Counted
  | [], h, h', _, hk, e => by
    simp only [Hub.runReg] at e
    cases e
    exact hk
  | op :: ops, h, h', hc, hk, e => by
    simp only [Hub.runReg] at e
    cases e1 : h.applyReg op with
    | error p => simp [e1] at e
    | ok h1 =>
      simp only [e1] at e
      have h1c : h1.Consistent := Hub.Consistent.runReg [op] hc (by simp [Hub.runReg, e1])
      exact Hub.Counted.afterRegs ops h1c (hk.afterReg hc e1) e

/-- With the presence set exact and nothing held twice, the online count is
the number of keys of `h.userClients`. -/
theorem Hub.onlineCount_eq_keys {h : Hub} (hp : h.PresenceExact) (hk : h.Counted) :
    h.GetOnlineCount = (h.userClients.length : Int) := by
  have hperm : h.presence.Perm ((mapKeys h.userClients).map UUID.String) := by
    rw [List.perm_ext_iff_of_nodup hk.1 (hk.2.map UUID.String_injective)]
    intro str
    rw [hp str, List.mem_map]
    constructor
    · rintro ⟨u, hu, hg⟩
      exact ⟨u, (mem_mapKeys_iff _ _).mpr hg, hu⟩
    · rintro ⟨u, hu, hs⟩
      exact ⟨u, hs, (mem_mapKeys_iff _ _).mp hu⟩
  have hlen := hperm.length_eq
  simp only [List.length_map, mapKeys] at hlen
  show ((h.redis.sets "online:users").length : Int) = _
  have : (h.redis.sets "online:users").length = h.userClients.length := hlen
  rw [this]

/-- C29: for a single hub starting empty with an empty presence set, after
every sequence of registerClient / unregisterClient operations and one more
such operation: the online count after it is the number of keys of
`h.userClients` (the principals with a registered connection); when the
operation is effective, every connection registered after it whose queue had
room has had the frame `online_count` carrying that number appended; and the
registration of an anonymous connection, or of a further connection of a
principal that has an entry already, leaves the count as it was. -/
theorem C29_online_count_is_key_count (redis : RedisClient) (Send : Client → Chan)
    (hempty : redis.sets "online:users" = [])
    (ops : List RegOp) (h : Hub) (hrun : (NewHub redis Send).runReg ops = .ok h)
    (op : RegOp) (h' : Hub) (hstep : h.applyReg op = .ok h') :
    h'.GetOnlineCount = (h'.userClients.length : Int) ∧
      ((∃ c, op = .register c ∨ (op = .unregister c ∧ c ∈ h.clients)) →
        ∀ d ∈ h'.clients, (h.Send d).hasRoom = true →
          h'.Send d = (h.Send d).push (onlineCountFrame (h'.userClients.length : Int))) ∧
      (∀ c, op = .register c →
        c.UserID = uuid.Nil ∨ mapGet h.userClients c.UserID ≠ none →
        h'.GetOnlineCount = h.GetOnlineCount) := by
  have hc0 := NewHub_consistent redis Send
  have hp0 : (NewHub redis Send).PresenceExact := by
    intro str
    simp [Hub.presence, NewHub, hempty, mapGet]
  have hk0 : (NewHub redis Send).Counted := by
    simp [Hub.Counted, Hub.presence, NewHub, hempty, mapKeys]
  have hc := hc0.runReg ops hrun
  have hp := hp0.runRegs ops hc0 hrun
  have hk := hk0.afterRegs ops hc0 hrun
  have hc' : h'.Consistent := Hub.Consistent.runReg [op] hc (by simp [Hub.runReg, hstep])
  have hp' := hp.applyReg hc hstep
  have hk' := hk.afterReg hc hstep
  have hcount' := Hub.onlineCount_eq_keys hp' hk'
  have hcount := Hub.onlineCount_eq_keys hp hk
  refine ⟨hcount', ?_, ?_⟩
  · rintro ⟨c, rfl | ⟨rfl, hm⟩⟩
    · have hs := hstep
      simp only [Hub.applyReg, Hub.registerClient_eq] at hs
      obtain ⟨ho, -⟩ := Hub.broadcastOnlineCount_ok hs
      have hopen : (h.Send c).closed = false := ho c (mem_setAdd.mpr (Or.inl rfl))
      obtain ⟨h'', e, -, hcl, -, hr, hsend⟩ := Hub.registerClient_live hc.live c hopen
      have heq : h'' = h' := by
        have := e.symm.trans hstep
        cases this
        rfl
      subst heq
      intro d hd hroom
      rw [hsend d, if_pos ⟨hcl ▸ hd, hroom⟩, ← hr]
      exact congrArg _ (congrArg _ hcount')
    · obtain ⟨h'', e, -, hcl, -, hr, hsend⟩ := Hub.unregisterClient_live hc.live c hm
      have heq : h'' = h' := by
        have := e.symm.trans hstep
        cases this
        rfl
      subst heq
      intro d hd hroom
      rw [hsend d, if_pos ⟨hcl ▸ hd, hroom⟩, ← hr]
      exact congrArg _ (congrArg _ hcount')
  · rintro c rfl hcase
    have hs := hstep
    simp only [Hub.applyReg, Hub.registerClient_eq] at hs
    obtain ⟨-, -, hu, -, -⟩ := Hub.broadcastOnlineCount_ok hs
    rw [hcount', hcount, hu]
    show ((registeredUsers h.userClients c).length : Int) = _
    have hlen : (registeredUsers h.userClients c).length = h.userClients.length := by
      unfold registeredUsers
      rcases hcase with hn | hg
      · simp [hn]
      · split
        · rfl
        · have := congrArg List.length
            (mapKeys_mapSet h.userClients c.UserID
              (setAdd ((mapGet h.userClients c.UserID).getD []) c))
          rw [if_pos ((mem_mapKeys_iff _ _).mpr hg)] at this
          simpa [mapKeys] using this
    rw [hlen]

set_option maxRecDepth 100000 in
theorem C29_online_count_is_key_count_witness :
    RedisClient.empty.sets "online:users" = [] ∧
      hub0.runReg [.register conn1, .register conn3, .register conn4] =
        .ok (hubOr hub0 (hub0.runReg [.register conn1, .register conn3, .register conn4])) ∧
      (hubOr hub0 (hub0.runReg [.register conn1, .register conn3, .register conn4])).applyReg
          (.register conn2) =
        .ok (hubOr hub0 (hub0.runReg [.register conn1, .register conn3, .register conn4,
          .register conn2])) ∧
      (hubOr hub0 (hub0.runReg [.register conn1, .register conn3, .register conn4,
          .register conn2])).GetOnlineCount = 2 ∧
      (hubOr hub0 (hub0.runReg [.register conn1, .register conn3, .register conn4,
          .register conn2])).GetOnlineCount =
        ((hubOr hub0 (hub0.runReg [.register conn1, .register conn3, .register conn4,
          .register conn2])).userClients.length : Int) :=
  ⟨rfl, rfl, rfl, by decide,
    (C29_online_count_is_key_count RedisClient.empty freshSend rfl
      [.register conn1, .register conn3, .register conn4] _ rfl (.register conn2) _ rfl).1⟩

end Websocket

namespace Service

open Websocket

/-! ## Self-action suppression (C16, C17) -/

/-- C16: for all ids and strings, `NotifyNewComment`, `NotifyCommentReply` and
`NotifyReaction` called with recipient and actor equal return nil and leave the
repository as it was (`Create` is not called); called with two different ids
each calls `Create` exactly once, with a notification whose `UserID` is the
recipient and whose `ActorID` is the actor, and returns what `Create`
returns. -/
theorem C16_self_action_suppression (r : NotificationRepository)
    (a b articleID commentID : UUID) (title emoji : String) :
    notificationService.NotifyNewComment r a a articleID commentID title = (none, r) ∧
      notificationService.NotifyCommentReply r a a articleID commentID = (none, r) ∧
      notificationService.NotifyReaction r a a articleID emoji = (none, r) ∧
      (a ≠ b →
        (∃ n, notificationService.NotifyNewComment r a b articleID commentID title =
            (r.exec n, { r with inserts := r.inserts ++ [n] }) ∧
          n.UserID = a ∧ n.ActorID = some b) ∧
        (∃ n, notificationService.NotifyCommentReply r a b articleID commentID =
            (r.exec n, { r with inserts := r.inserts ++ [n] }) ∧
          n.UserID = a ∧ n.ActorID = some b) ∧
        (∃ n, notificationService.NotifyReaction r a b articleID emoji =
            (r.exec n, { r with inserts := r.inserts ++ [n] }) ∧
          n.UserID = a ∧ n.ActorID = some b)) := by
  refine ⟨?_, ?_, ?_, ?_⟩
  · simp [notificationService.NotifyNewComment]
  · simp [notificationService.NotifyCommentReply]
  · simp [notificationService.NotifyReaction]
  · intro hab
    refine ⟨?_, ?_, ?_⟩
    · rw [notificationService.NotifyNewComment, if_neg hab]
      exact ⟨_, rfl, rfl, rfl⟩
    · rw [notificationService.NotifyCommentReply, if_neg hab]
      exact ⟨_, rfl, rfl, rfl⟩
    · rw [notificationService.NotifyReaction, if_neg hab]
      exact ⟨_, rfl, rfl, rfl⟩

theorem C16_self_action_suppression_witness :
    alice ≠ bob ∧
      (∃ n, notificationService.NotifyNewComment repo0 alice bob 20 21 "t" =
          (repo0.exec n, { repo0 with inserts := repo0.inserts ++ [n] }) ∧
        n.UserID = alice ∧ n.ActorID = some bob) ∧
      (∃ n, notificationService.NotifyCommentReply repo0 alice bob 20 21 =
          (repo0.exec n, { repo0 with inserts := repo0.inserts ++ [n] }) ∧
        n.UserID = alice ∧ n.ActorID = some bob) ∧
      (∃ n, notificationService.NotifyReaction repo0 alice bob 20 "+" =
          (repo0.exec n, { repo0 with inserts := repo0.inserts ++ [n] }) ∧
        n.UserID = alice ∧ n.ActorID = some bob) :=
  ⟨by decide, (C16_self_action_suppression repo0 alice bob 20 21 "t" "+").2.2.2 (by decide)⟩

/-- C17 (counterexample): `NotifyNewFollower(alice, alice)` calls `Create`
with a notification whose recipient and actor are both `alice`. -/
theorem C17_self_follow_counterexample :
    (notificationService.NotifyNewFollower repo0 alice alice).2.inserts.map
        (fun n => (n.UserID, n.ActorID, n.isSelf)) = [(alice, some alice, true)] := by
  decide

/-- C17 (amended): `NotifyNewComment`, `NotifyCommentReply` and
`NotifyReaction` with any arguments either leave the repository as it was or
call `Create` once with a notification whose actor is not its recipient;
`NotifyNewFollower(u, f)` has no such guard and always calls `Create` once,
with recipient `u` and actor `f`. -/
theorem C17_no_self_notification (r : NotificationRepository)
    (a b articleID commentID : UUID) (title emoji : String) :
    ((notificationService.NotifyNewComment r a b articleID commentID title).2 = r ∨
        ∃ n, (notificationService.NotifyNewComment r a b articleID commentID title).2.inserts =
          r.inserts ++ [n] ∧ n.isSelf = false) ∧
      ((notificationService.NotifyCommentReply r a b articleID commentID).2 = r ∨
        ∃ n, (notificationService.NotifyCommentReply r a b articleID commentID).2.inserts =
          r.inserts ++ [n] ∧ n.isSelf = false) ∧
      ((notificationService.NotifyReaction r a b articleID emoji).2 = r ∨
        ∃ n, (notificationService.NotifyReaction r a b articleID emoji).2.inserts =
          r.inserts ++ [n] ∧ n.isSelf = false) ∧
      ∃ n, (notificationService.NotifyNewFollower r a b).2.inserts = r.inserts ++ [n] ∧
        n.UserID = a ∧ n.ActorID = some b := by
  have hself : ∀ x y : UUID, x ≠ y → decide (some y = some x) = false := by
    intro x y hxy
    simp only [decide_eq_false_iff_not, Option.some.injEq]
    exact fun e => hxy e.symm
  refine ⟨?_, ?_, ?_, ⟨_, rfl, rfl, rfl⟩⟩
  · by_cases hab : a = b
    · left
      simp [notificationService.NotifyNewComment, hab]
    · right
      rw [notificationService.NotifyNewComment, if_neg hab]
      exact ⟨_, rfl, hself a b hab⟩
  · by_cases hab : a = b
    · left
      simp [notificationService.NotifyCommentReply, hab]
    · right
      rw [notificationService.NotifyCommentReply, if_neg hab]
      exact ⟨_, rfl, hself a b hab⟩
  · by_cases hab : a = b
    · left
      simp [notificationService.NotifyReaction, hab]
    · right
      rw [notificationService.NotifyReaction, if_neg hab]
      exact ⟨_, rfl, hself a b hab⟩


/-! ## Escaping of comments (C27) -/

theorem strings.replaceFrom_skip (old new : List Char) :
    ∀ (k : Nat) (e rest : List Char), e.length = k →
      strings.replaceFrom old new k (e ++ rest) = strings.replaceFrom old new 0 rest
  | 0, e, rest, h => by
    have : e = [] := List.length_eq_zero.mp h
    simp [this]
  | k + 1, [], rest, h => by simp at h
  | k + 1, c :: e, rest, h => by
    simp only [List.cons_append, strings.replaceFrom]
    exact strings.replaceFrom_skip old new k e rest (by simpa using h)

theorem strings.replaceFrom_single (a : Char) (new : List Char) :
    ∀ s : List Char, strings.replaceFrom [a] new 0 s =
      s.flatMap (fun c => if c = a then new else [c])
  | [] => by simp [strings.replaceFrom]
  | c :: s => by
    have ih := strings.replaceFrom_single a new s
    by_cases h : c = a
    · simp [strings.replaceFrom, List.isPrefixOf, h, ih]
    · have h' : ¬ a = c := fun e => h e.symm
      simp [strings.replaceFrom, List.isPrefixOf, h, h', ih]

theorem strings.replaceFrom_pass (a : Char) (o new : List Char) :
    ∀ (e rest : List Char), (∀ c ∈ e, c ≠ a) →
      strings.replaceFrom (a :: o) new 0 (e ++ rest) =
        e ++ strings.replaceFrom (a :: o) new 0 rest
  | [], rest, _ => by simp
  | c :: e, rest, h => by
    have hc : ¬ a = c := fun e' => h c (List.mem_cons_self _ _) e'.symm
    have ih := strings.replaceFrom_pass a o new e rest
      (fun x hx => h x (List.mem_cons_of_mem _ hx))
    simp [strings.replaceFrom, List.isPrefixOf, hc, ih]

theorem render_cons (p : Piece) (ps : List Piece) : render (p :: ps) = p.text ++ render ps := by
  simp [render]

theorem render_append (ps qs : List Piece) : render (ps ++ qs) = render ps ++ render qs := by
  simp [render]

/-- The three escaping steps make of each character its piece. -/
theorem escape_char (c : Char) :
    (((if c = '&' then ['&', 'a', 'm', 'p', ';'] else [c]).flatMap
        (fun c => if c = '<' then ['&', 'l', 't', ';'] else [c])).flatMap
        (fun c => if c = '>' then ['&', 'g', 't', ';'] else [c])) = (Piece.ofChar c).text := by
  by_cases h1 : c = '&'
  · subst h1
    simp [Piece.ofChar, Piece.text]
  · by_cases h2 : c = '<'
    · subst h2
      simp [Piece.ofChar, Piece.text]
    · by_cases h3 : c = '>'
      · subst h3
        simp [Piece.ofChar, Piece.text]
      · simp [Piece.ofChar, Piece.text, h1, h2, h3]

theorem escape_eq_render (s : List Char) :
    ((s.flatMap (fun c => if c = '&' then ['&', 'a', 'm', 'p', ';'] else [c])).flatMap
        (fun c => if c = '<' then ['&', 'l', 't', ';'] else [c])).flatMap
        (fun c => if c = '>' then ['&', 'g', 't', ';'] else [c]) =
      render (s.map Piece.ofChar) := by
  induction s with
  | nil => simp [render]
  | cons c s ih =>
    rw [List.map_cons, render_cons, ← ih, ← escape_char]
    simp only [List.flatMap_cons, List.flatMap_append]

theorem Piece.ofChar_ok (c : Char) : (Piece.ofChar c).ok := by
  unfold Piece.ofChar
  split
  · trivial
  · split
    · trivial
    · split
      · trivial
      · exact ⟨by assumption, by assumption, by assumption⟩

/-- No text of a piece other than the line feed has a line feed. -/
theorem Piece.text_no_newline {p : Piece} (hp : p ≠ .chr '\n') : ∀ c ∈ p.text, c ≠ '\n' := by
  cases p with
  | chr d =>
    intro c hc
    simp only [Piece.text, List.mem_singleton] at hc
    subst hc
    intro e
    exact hp (by rw [e])
  | _ => simp [Piece.text]

theorem paragraph_hit (X : List Char) :
    strings.replaceFrom ['\n', '\n'] ['<', '/', 'p', '>', '<', 'p', '>'] 0 ('\n' :: '\n' :: X) =
      ['<', '/', 'p', '>', '<', 'p', '>'] ++
        strings.replaceFrom ['\n', '\n'] ['<', '/', 'p', '>', '<', 'p', '>'] 0 X := by
  simp [strings.replaceFrom, List.isPrefixOf]

theorem paragraph_miss (X : List Char) (h : List.isPrefixOf ['\n'] X = false) :
    strings.replaceFrom ['\n', '\n'] ['<', '/', 'p', '>', '<', 'p', '>'] 0 ('\n' :: X) =
      '\n' :: strings.replaceFrom ['\n', '\n'] ['<', '/', 'p', '>', '<', 'p', '>'] 0 X := by
  simp [strings.replaceFrom, List.isPrefixOf, h]

/-- The paragraph step keeps a text made of pieces made of pieces. -/
theorem paragraphs_render :
    ∀ (n : Nat) (ps : List Piece), ps.length ≤ n → (∀ p ∈ ps, p.ok) →
      ∃ qs, (∀ q ∈ qs, q.ok) ∧
        strings.replaceFrom ['\n', '\n'] ['<', '/', 'p', '>', '<', 'p', '>'] 0 (render ps) =
          render qs
  | _, [], _, _ => ⟨[], by simp, by simp [render, strings.replaceFrom]⟩
  | 0, p :: ps, hn, _ => by simp at hn
  | n + 1, p :: ps, hn, hok => by
    have hn' : ps.length ≤ n := by simpa using hn
    have hokp : p.ok := hok p (List.mem_cons_self _ _)
    have hoks : ∀ q ∈ ps, q.ok := fun q hq => hok q (List.mem_cons_of_mem _ hq)
    by_cases hp : p = .chr '\n'
    · subst hp
      cases ps with
      | nil => exact ⟨[.chr '\n'], hok, by simp [render, Piece.text, strings.replaceFrom, List.isPrefixOf]⟩
      | cons q ps =>
        by_cases hq : q = .chr '\n'
        · subst hq
          have hlen : ps.length ≤ n := by
            simp only [List.length_cons] at hn'
            omega
          obtain ⟨qs, hqs, e⟩ := paragraphs_render n ps hlen
            (fun r hr => hoks r (List.mem_cons_of_mem _ hr))
          refine ⟨.pClose :: .pOpen :: qs, ?_, ?_⟩
          · intro r hr
            simp only [List.mem_cons] at hr
            rcases hr with rfl | rfl | hr
            · trivial
            · trivial
            · exact hqs r hr
          · have hr : render (.chr '\n' :: .chr '\n' :: ps) = '\n' :: '\n' :: render ps := rfl
            rw [hr, paragraph_hit, e]
            rfl
        · obtain ⟨qs, hqs, e⟩ := paragraphs_render n (q :: ps) hn' hoks
          refine ⟨.chr '\n' :: qs, ?_, ?_⟩
          · intro r hr
            simp only [List.mem_cons] at hr
            rcases hr with rfl | hr
            · exact hokp
            · exact hqs r hr
          · have hhead : List.isPrefixOf ['\n'] (render (q :: ps)) = false := by
              rw [render_cons]
              cases q with
              | chr d =>
                have hd : ¬ '\n' = d := fun e' => hq (by rw [e'])
                simp [Piece.text, List.isPrefixOf, hd]
              | _ => simp [Piece.text, List.isPrefixOf]
            have hr : ∀ l, render (.chr '\n' :: l) = '\n' :: render l := fun _ => rfl
            rw [hr, hr, paragraph_miss _ hhead, e]
    · obtain ⟨qs, hqs, e⟩ := paragraphs_render n ps hn' hoks
      refine ⟨p :: qs, ?_, ?_⟩
      · intro r hr
        simp only [List.mem_cons] at hr
        rcases hr with rfl | hr
        · exact hokp
        · exact hqs r hr
      · rw [render_cons, render_cons,
          strings.replaceFrom_pass _ _ _ _ _ (Piece.text_no_newline hp), e]

/-- The line-break step keeps a text made of pieces made of pieces. -/
theorem breaks_render (ps : List Piece) :
    (render ps).flatMap (fun c => if c = '\n' then ['<', 'b', 'r', '>'] else [c]) =
      render (ps.map (fun p => if p = .chr '\n' then .br else p)) := by
  induction ps with
  | nil => simp [render]
  | cons p ps ih =>
    rw [List.map_cons, render_cons, render_cons, List.flatMap_append, ih]
    congr 1
    by_cases hp : p = .chr '\n'
    · subst hp
      simp [Piece.text]
    · rw [if_neg hp]
      have h := Piece.text_no_newline hp
      clear ih
      generalize p.text = t at h
      induction t with
      | nil => simp
      | cons c t iht =>
        have hc : c ≠ '\n' := h c (List.mem_cons_self _ _)
        simp only [List.flatMap_cons, hc, if_false, List.singleton_append]
        rw [iht (fun x hx => h x (List.mem_cons_of_mem _ hx))]

/-- The output of `convertCommentToHTML` is a text of pieces: characters other
than `&`, `<`, `>`, the three entities and the three tags. -/
theorem convertCommentToHTML_render (content : String) :
    ∃ ps, (∀ p ∈ ps, p.ok) ∧ (convertCommentToHTML content).data = render ps := by
  have h0 : (convertCommentToHTML content).data =
      ['<', 'p', '>'] ++
        strings.replaceFrom ['\n'] ['<', 'b', 'r', '>'] 0
          (strings.replaceFrom ['\n', '\n'] ['<', '/', 'p', '>', '<', 'p', '>'] 0
            (strings.replaceFrom ['>'] ['&', 'g', 't', ';'] 0
              (strings.replaceFrom ['<'] ['&', 'l', 't', ';'] 0
                (strings.replaceFrom ['&'] ['&', 'a', 'm', 'p', ';'] 0
                  (strings.TrimSpace content.data))))) ++ ['<', '/', 'p', '>'] := rfl
  rw [h0, strings.replaceFrom_single, strings.replaceFrom_single, strings.replaceFrom_single,
    strings.replaceFrom_single, escape_eq_render]
  obtain ⟨qs, hqs, e⟩ := paragraphs_render _ ((strings.TrimSpace content.data).map Piece.ofChar)
    (le_refl _) (by
      intro p hp
      obtain ⟨c, -, rfl⟩ := List.mem_map.mp hp
      exact Piece.ofChar_ok c)
  rw [e, breaks_render]
  refine ⟨.pOpen :: (qs.map (fun p => if p = .chr '\n' then .br else p) ++ [.pClose]), ?_, ?_⟩
  · intro r hr
    simp only [List.mem_cons, List.mem_append, List.mem_map, List.mem_singleton,
      List.not_mem_nil, or_false] at hr
    rcases hr with rfl | ⟨q, hq, rfl⟩ | rfl
    · trivial
    · split
      · trivial
      · exact hqs q hq
    · trivial
  · simp [render_cons, render_append, render, Piece.text]

/-- Deleting a tag from a text of pieces deletes the pieces that are this
tag. -/
theorem strip_render (t : Piece) (ht : t.isTag = true) :
    ∀ ps : List Piece, (∀ p ∈ ps, p.ok) →
      strings.replaceFrom t.text [] 0 (render ps) = render (ps.filter (fun p => decide (p ≠ t)))
  | [], _ => by simp [render, strings.replaceFrom]
  | p :: ps, hok => by
    have ih := strip_render t ht ps (fun q hq => hok q (List.mem_cons_of_mem _ hq))
    have hokp : p.ok := hok p (List.mem_cons_self _ _)
    rw [render_cons]
    by_cases hp : p = t
    · subst hp
      have hdrop : strings.replaceFrom p.text [] 0 (p.text ++ render ps) =
          strings.replaceFrom p.text [] 0 (render ps) := by
        cases p with
        | pOpen => simp [Piece.text, strings.replaceFrom, List.isPrefixOf]
        | pClose => simp [Piece.text, strings.replaceFrom, List.isPrefixOf]
        | br => simp [Piece.text, strings.replaceFrom, List.isPrefixOf]
        | _ => simp [Piece.isTag] at ht
      rw [hdrop, ih]
      simp
    · have hkeep : strings.replaceFrom t.text [] 0 (p.text ++ render ps) =
          p.text ++ strings.replaceFrom t.text [] 0 (render ps) := by
        cases p with
        | chr c =>
          have hc : c ≠ '<' := hokp.2.1
          cases t with
          | pOpen => exact strings.replaceFrom_pass _ _ _ _ _ (by simpa [Piece.text] using hc)
          | pClose => exact strings.replaceFrom_pass _ _ _ _ _ (by simpa [Piece.text] using hc)
          | br => exact strings.replaceFrom_pass _ _ _ _ _ (by simpa [Piece.text] using hc)
          | _ => simp [Piece.isTag] at ht
        | _ =>
          cases t <;>
            first
            | (exfalso; exact hp rfl)
            | (exfalso; simp [Piece.isTag] at ht; done)
            | simp [Piece.text, strings.replaceFrom, List.isPrefixOf]
      rw [hkeep, ih]
      simp [hp, render_cons]

theorem deleteTags_render (ps : List Piece) (hok : ∀ p ∈ ps, p.ok) :
    deleteTags (render ps) = render (ps.filter (fun p => !p.isTag)) := by
  have h0 : deleteTags (render ps) =
      strings.replaceFrom Piece.br.text [] 0
        (strings.replaceFrom Piece.pClose.text [] 0
          (strings.replaceFrom Piece.pOpen.text [] 0 (render ps))) := rfl
  rw [h0, strip_render .pOpen rfl _ hok,
    strip_render .pClose rfl _ (fun p hp => hok p (List.mem_filter.mp hp).1),
    strip_render .br rfl _ (fun p hp => hok p (List.mem_filter.mp (List.mem_filter.mp hp).1).1),
    List.filter_filter, List.filter_filter]
  congr 1
  apply List.filter_congr
  intro p _
  cases p <;> simp [Piece.isTag]

/-- A text of pieces without tags has no `<` and no `>`. -/
theorem render_no_angle (ps : List Piece) (hok : ∀ p ∈ ps, p.ok)
    (hno : ∀ p ∈ ps, p.isTag = false) : ¬ '<' ∈ render ps ∧ ¬ '>' ∈ render ps := by
  have key : ∀ p ∈ ps, ¬ '<' ∈ p.text ∧ ¬ '>' ∈ p.text := by
    intro p hp
    have h1 := hok p hp
    have h2 := hno p hp
    cases p with
    | chr c =>
      simp only [Piece.text, List.mem_singleton]
      exact ⟨fun e => h1.2.1 e.symm, fun e => h1.2.2 e.symm⟩
    | amp => simp [Piece.text]
    | lt => simp [Piece.text]
    | gt => simp [Piece.text]
    | _ => simp [Piece.isTag] at h2
  constructor
  · intro h
    obtain ⟨p, hp, hc⟩ := List.mem_flatMap.mp h
    exact (key p hp).1 hc
  · intro h
    obtain ⟨p, hp, hc⟩ := List.mem_flatMap.mp h
    exact (key p hp).2 hc

/-- In a text of pieces every `&` begins an entity. -/
theorem ampsOK_render : ∀ ps : List Piece, (∀ p ∈ ps, p.ok) → ampsOK (render ps) = true
  | [], _ => rfl
  | p :: ps, hok => by
    have ih := ampsOK_render ps (fun q hq => hok q (List.mem_cons_of_mem _ hq))
    have hokp : p.ok := hok p (List.mem_cons_self _ _)
    rw [render_cons]
    cases p with
    | chr c =>
      have hc : c ≠ '&' := hokp.1
      simp [Piece.text, ampsOK, hc, ih]
    | _ => simp [Piece.text, ampsOK, entityTail, entityTails, List.isPrefixOf, ih]

theorem ampsOK_spec : ∀ (pre s post : List Char), ampsOK s = true → s = pre ++ '&' :: post →
    ∃ e ∈ entityTails, e <+: post
  | [], s, post, h, e => by
    subst e
    simp only [List.nil_append, ampsOK, bne_self_eq_false, Bool.false_or, Bool.and_eq_true] at h
    obtain ⟨e, he, hpre⟩ := List.any_eq_true.mp h.1
    exact ⟨e, he, List.isPrefixOf_iff_prefix.mp hpre⟩
  | c :: pre, s, post, h, e => by
    subst e
    simp only [List.cons_append, ampsOK, Bool.and_eq_true] at h
    exact ampsOK_spec pre _ post h.2 rfl

/-- C27: for every content string, the output of `convertCommentToHTML` starts
with `<p>` and ends with `</p>`; after deleting every occurrence of `<p>`,
`</p>` and `<br>` it has no `<` and no `>`; and every `&` of the output, and of
the output after the deletion, begins one of `&amp;`, `&lt;`, `&gt;` (is
followed by `amp;`, `lt;` or `gt;`). -/
theorem C27_comment_html_escaped (content : String) :
    "<p>".data <+: (convertCommentToHTML content).data ∧
      "</p>".data <:+ (convertCommentToHTML content).data ∧
      ¬ '<' ∈ deleteTags (convertCommentToHTML content).data ∧
      ¬ '>' ∈ deleteTags (convertCommentToHTML content).data ∧
      (∀ pre post, (convertCommentToHTML content).data = pre ++ '&' :: post →
        ∃ e ∈ ["amp;".data, "lt;".data, "gt;".data], e <+: post) ∧
      (∀ pre post, deleteTags (convertCommentToHTML content).data = pre ++ '&' :: post →
        ∃ e ∈ ["amp;".data, "lt;".data, "gt;".data], e <+: post) := by
  obtain ⟨ps, hok, e⟩ := convertCommentToHTML_render content
  have hokf : ∀ p ∈ ps.filter (fun p => !p.isTag), p.ok :=
    fun p hp => hok p (List.mem_filter.mp hp).1
  have hang := render_no_angle (ps.filter (fun p => !p.isTag)) hokf
    (fun p hp => by simpa using (List.mem_filter.mp hp).2)
  obtain ⟨html, hf⟩ : ∃ html, (convertCommentToHTML content).data =
      "<p>".data ++ html ++ "</p>".data := ⟨_, rfl⟩
  have hpre : "<p>".data <+: (convertCommentToHTML content).data := by
    rw [hf]
    exact ⟨html ++ "</p>".data, (List.append_assoc _ _ _).symm⟩
  have hsuf : "</p>".data <:+ (convertCommentToHTML content).data := by
    rw [hf]
    exact ⟨"<p>".data ++ html, rfl⟩
  refine ⟨hpre, hsuf, ?_, ?_, ?_, ?_⟩
  · rw [e, deleteTags_render ps hok]
    exact hang.1
  · rw [e, deleteTags_render ps hok]
    exact hang.2
  · intro pre post h
    exact ampsOK_spec pre _ post (e ▸ ampsOK_render ps hok) h
  · intro pre post h
    rw [e, deleteTags_render ps hok] at h
    exact ampsOK_spec pre _ post (ampsOK_render _ hokf) h

/-! ## Reading time (C30) -/

theorem readingTime_ceil (w : Nat) : Nat.ceil ((w : ℚ) / 200) = (w + 199) / 200 := by
  apply le_antisymm
  · rw [Nat.ceil_le, div_le_iff₀ (by norm_num)]
    have : w ≤ (w + 199) / 200 * 200 := by omega
    exact_mod_cast this
  · have h : (w : ℚ) / 200 ≤ (Nat.ceil ((w : ℚ) / 200) : ℚ) := Nat.le_ceil _
    rw [div_le_iff₀ (by norm_num)] at h
    have h2 : w ≤ Nat.ceil ((w : ℚ) / 200) * 200 := by exact_mod_cast h
    omega

/-- The reading time stored on create is the one of the specification. -/
theorem Create_readingTime_spec (content : String) :
    articleService.Create.readingTime content = readingTimeSpec (strings.Fields content).length := by
  simp only [articleService.Create.readingTime, readingTimeSpec, readingTime_ceil]
  split <;> omega

/-- On update the stored reading time is that of create exactly when the
content has a word. -/
theorem Update_readingTime_eq_iff (content : String) :
    articleService.Update.readingTime content = articleService.Create.readingTime content ↔
      (strings.Fields content).length ≠ 0 := by
  simp only [articleService.Update.readingTime, articleService.Create.readingTime]
  split <;> omega

/-- C30 (fails on update): for the empty content, which has no word,
`articleService.Update` stores the reading time 0 while `articleService.Create`
stores 1, the value `max(1, ceil(0 / 200))` of the specification; the same for
a content of white space only.  On create the stored value is the one of the
specification for every content. -/
theorem C30_update_stores_zero :
    (strings.Fields "").length = 0 ∧
      articleService.Update.readingTime "" = 0 ∧
      articleService.Create.readingTime "" = 1 ∧
      readingTimeSpec (strings.Fields "").length = 1 ∧
      articleService.Update.readingTime " \n\t" = 0 ∧
      articleService.Create.readingTime " \n\t" = 1 ∧
      articleService.Update.readingTime "two words" = 1 ∧
      articleService.Create.readingTime "two words" = 1 ∧
      ∀ content, articleService.Create.readingTime content =
        readingTimeSpec (strings.Fields content).length := by
  refine ⟨by decide, by decide, by decide, ?_, by decide, by decide, by decide, by decide,
    Create_readingTime_spec⟩
  rw [← Create_readingTime_spec]
  decide

/-! ## Slugs (C28) -/

/-- C28 (fails): for the empty title, whatever the tables of `unicode` and the
identifier drawn, the slug is `-` followed by the suffix, so it starts with
`-`; and for the title of 99 times `a`, a blank and `b`, the cut at 100 bytes
leaves a `-` at the end, and the slug has two consecutive `-`. -/
theorem C28_slug_leading_and_double_dash :
    (∀ (u : UnicodeTables) (id : UUID),
        generateSlug u "" id = dash :: (bytes id.String).take 8 ∧
        (generateSlug u "" id).head? = some dash) ∧
      generateSlug unicodeASCII longTitle alice =
        List.replicate 99 97 ++ [dash, dash] ++ bytes "00000000" ∧
      [dash, dash] <:+: generateSlug unicodeASCII longTitle alice := by
  have h : generateSlug unicodeASCII longTitle alice =
      List.replicate 99 97 ++ [dash, dash] ++ bytes "00000000" := by decide
  refine ⟨fun u id => ⟨rfl, rfl⟩, h, ?_⟩
  rw [h]
  exact ⟨List.replicate 99 97, bytes "00000000", rfl⟩

end Service
